import Mathlib

/-!
Thunder, `Source/core/Netlink.h`: frame cursor, connector codec, exchange engine.

A shallow embedding of the netlink support of `Source/core/Netlink.h`, followed by
theorems about it.

Conventions of the embedding

* A byte is a `Fin 256`.  Memory behind a `const uint8_t*` is a total function
  `Mem = Nat → Byte` indexed by the byte offset from the pointer; a buffer of
  `n` bytes occupies the offsets `0 .. n-1` and whatever lies behind it is left
  arbitrary (`Mem.ofBuffer buf beyond`).
* Multi-byte fields are read in host order, little endian.
* Machine integers are natural numbers, reduced modulo `2^16` or `2^32` at the
  places where the C++ code narrows or may wrap.
* The loads that `Frames::IsValid`, `Frames::Next` and `ConnectorType::Read`
  make through a header pointer are logged as `Access` (offset, width), so that
  "reads inside the buffer" can be stated.  A load behind the buffer yields the
  arbitrary content found there.
* A null pointer is `none`; an accessor that dereferences it yields `none`.
* Loops are given fuel; running out of fuel is `none`.
* Code that lives outside the header (`Netlink::Serialize`,
  `Netlink::Deserialize`, the payload delegates, `Wait`, the error codes) is a
  parameter.
-/

namespace Thunder

/-! ## Bytes and memory -/

/-- One octet. -/
abbrev Byte := Fin 256

/-- Memory behind a byte pointer, indexed by the offset from that pointer. -/
abbrev Mem := Nat → Byte

/-- A load of `width` bytes at byte offset `offset`. -/
abbrev Access := Nat × Nat

/-- The memory seen through a pointer to the buffer `buf`: the bytes of `buf`,
followed by the arbitrary content `beyond` of the memory behind it. -/
def Mem.ofBuffer (buf : List Byte) (beyond : Nat → Byte) : Mem :=
  fun i => buf.getD i (beyond i)

/-- The pointer `p + off`. -/
def Mem.shift (m : Mem) (off : Nat) : Mem :=
  fun i => m (off + i)

/-- The `n` bytes found at offset `off`. -/
def Mem.slice (m : Mem) (off n : Nat) : List Byte :=
  (List.range n).map fun i => m (off + i)

/-- A 16-bit little-endian load. -/
def rd16 (m : Mem) (p : Nat) : Nat :=
  (m p).val + 256 * (m (p + 1)).val

/-- A 32-bit little-endian load. -/
def rd32 (m : Mem) (p : Nat) : Nat :=
  (m p).val + 256 * (m (p + 1)).val + 65536 * (m (p + 2)).val + 16777216 * (m (p + 3)).val

/-- An access lies inside the first `n` bytes. -/
def Access.within (a : Access) (n : Nat) : Prop :=
  a.1 + a.2 ≤ n

instance (a : Access) (n : Nat) : Decidable (a.within n) :=
  inferInstanceAs (Decidable (a.1 + a.2 ≤ n))

/-! ## `linux/netlink.h`

The header is not part of the repository; the macros below follow the kernel
user-space header that `Netlink.h` includes. -/

/-- Modelled from the spec: `NLMSG_ALIGNTO` of `linux/netlink.h` is not in the
sources; "message boundaries are padded to a fixed alignment, typically 4
bytes", and `ConnectorType::Write` asserts `NLMSG_ALIGNTO == 4`. -/
def NLMSG_ALIGNTO : Nat := 4

/-- Modelled from the spec: `NLMSG_ALIGN(len)` of `linux/netlink.h`,
`((len) + NLMSG_ALIGNTO - 1) & ~(NLMSG_ALIGNTO - 1)` on 32-bit unsigned values:
the sum wraps at `2^32` and the mask clears the two low bits. -/
def NLMSG_ALIGN (len : Nat) : Nat :=
  ((len + NLMSG_ALIGNTO - 1) % 4294967296) / NLMSG_ALIGNTO * NLMSG_ALIGNTO

/-- The size `sizeof(struct nlmsghdr)`: `nlmsg_len` (u32), `nlmsg_type` (u16),
`nlmsg_flags` (u16), `nlmsg_seq` (u32), `nlmsg_pid` (u32). -/
def sizeof_nlmsghdr : Nat := 16

/-- The field `nlh->nlmsg_len`. -/
def nlmsg_len (m : Mem) (nlh : Nat) : Nat := rd32 m nlh

/-- The field `nlh->nlmsg_type`. -/
def nlmsg_type (m : Mem) (nlh : Nat) : Nat := rd16 m (nlh + 4)

/-- The field `nlh->nlmsg_flags`. -/
def nlmsg_flags (m : Mem) (nlh : Nat) : Nat := rd16 m (nlh + 6)

/-- The field `nlh->nlmsg_seq`. -/
def nlmsg_seq (m : Mem) (nlh : Nat) : Nat := rd32 m (nlh + 8)

/-- The field `nlh->nlmsg_pid`. -/
def nlmsg_pid (m : Mem) (nlh : Nat) : Nat := rd32 m (nlh + 12)

/-- Modelled from the spec: `NLMSG_HDRLEN` of `linux/netlink.h`,
`NLMSG_ALIGN(sizeof(struct nlmsghdr))`. -/
def NLMSG_HDRLEN : Nat := NLMSG_ALIGN sizeof_nlmsghdr

/-- Modelled from the spec: `NLMSG_LENGTH(len)` of `linux/netlink.h`,
`(len) + NLMSG_HDRLEN`. -/
def NLMSG_LENGTH (len : Nat) : Nat := len + NLMSG_HDRLEN

/-- Modelled from the spec: `NLMSG_SPACE(len)` of `linux/netlink.h`,
`NLMSG_ALIGN(NLMSG_LENGTH(len))`. -/
def NLMSG_SPACE (len : Nat) : Nat := NLMSG_ALIGN (NLMSG_LENGTH len)

/-- Modelled from the spec: `NLMSG_DATA(nlh)` of `linux/netlink.h`, the pointer
`(char*)nlh + NLMSG_HDRLEN`. -/
def NLMSG_DATA (nlh : Nat) : Nat := nlh + NLMSG_HDRLEN

/-- Modelled from the spec: `NLMSG_PAYLOAD(nlh, len)` of `linux/netlink.h`,
`nlh->nlmsg_len - NLMSG_SPACE(len)` in 32-bit unsigned arithmetic. -/
def NLMSG_PAYLOAD (m : Mem) (nlh len : Nat) : Nat :=
  (nlmsg_len m nlh + 4294967296 - NLMSG_SPACE len % 4294967296) % 4294967296

/-- Modelled from the spec: `NLMSG_OK(nlh, len)` of `linux/netlink.h`,
`len >= (int)sizeof(struct nlmsghdr) && nlh->nlmsg_len >= sizeof(struct nlmsghdr)
 && nlh->nlmsg_len <= len` ("a header is present and its declared length does not
exceed remaining buffer bytes").  The conjunction short-circuits: `nlmsg_len`
is loaded only when `len` is at least the header size.  The second component
lists the loads made. -/
def NLMSG_OK (m : Mem) (nlh len : Nat) : Bool × List Access :=
  if sizeof_nlmsghdr ≤ len then
    (decide (sizeof_nlmsghdr ≤ nlmsg_len m nlh) && decide (nlmsg_len m nlh ≤ len), [(nlh, 4)])
  else
    (false, [])

/-- Modelled from the spec: `NLMSG_NEXT(nlh, len)` of `linux/netlink.h`,
`((len) -= NLMSG_ALIGN(nlh->nlmsg_len), (char*)nlh + NLMSG_ALIGN(nlh->nlmsg_len))`.
Here `len` is the `uint16_t` member `_dataLeft`: the subtraction is done on
32-bit unsigned values and the result is narrowed to 16 bits.  Returns the next
header pointer, the new `len` and the loads made. -/
def NLMSG_NEXT (m : Mem) (nlh len : Nat) : (Nat × Nat) × List Access :=
  ((nlh + NLMSG_ALIGN (nlmsg_len m nlh),
    ((len + 4294967296 - NLMSG_ALIGN (nlmsg_len m nlh)) % 4294967296) % 65536),
   [(nlh, 4)])

/-- Modelled from the spec: `NLMSG_ERROR` of `linux/netlink.h`, the "error"
message kind. -/
def NLMSG_ERROR : Nat := 2

/-- Modelled from the spec: `NLMSG_DONE` of `linux/netlink.h`, the "done"
message kind. -/
def NLMSG_DONE : Nat := 3

/-- Modelled from the spec: `NLM_F_MULTI` of `linux/netlink.h`, the
"multi-part" flag bit. -/
def NLM_F_MULTI : Nat := 2

/-! ## `Netlink::Frames` -/

/-- The class `Netlink::Frames`. -/
structure Frames where
  /-- The member `_data`, the memory behind the pointer. -/
  data : Mem
  /-- The member `_size` (`uint16_t`). -/
  size : Nat
  /-- The member `_header`, as a byte offset from `_data`; `none` is `nullptr`. -/
  header : Option Nat
  /-- The member `_dataLeft` (`uint16_t`). -/
  dataLeft : Nat

/-- The constructor `Frames(dataFrame, receivedSize)`; `_dataLeft(~0)` is
`0xFFFF`. -/
def Frames.construct (dataFrame : Mem) (receivedSize : Nat) : Frames :=
  { data := dataFrame, size := receivedSize % 65536, header := none, dataLeft := 65535 }

/-- The method `IsValid()` together with the loads it makes:
`(_header != nullptr) && NLMSG_OK(_header, _dataLeft)`. -/
def Frames.IsValidT (f : Frames) : Bool × List Access :=
  match f.header with
  | none => (false, [])
  | some h => NLMSG_OK f.data h f.dataLeft

/-- The method `IsValid()`. -/
def Frames.IsValid (f : Frames) : Bool := f.IsValidT.1

/-- The state change of `Next()` together with the loads made while moving. -/
def Frames.advance (f : Frames) : Frames × List Access :=
  match f.header with
  | none => ({ f with header := some 0, dataLeft := f.size }, [])
  | some h =>
    let r := NLMSG_NEXT f.data h f.dataLeft
    ({ f with header := some r.1.1, dataLeft := r.1.2 }, r.2)

/-- The method `Next()`: the returned flag, the cursor afterwards, and all loads
made. -/
def Frames.NextT (f : Frames) : (Bool × Frames) × List Access :=
  let a := f.advance
  let v := a.1.IsValidT
  ((v.1, a.1), a.2 ++ v.2)

/-- The method `Next()`: returned flag and cursor afterwards. -/
def Frames.Next (f : Frames) : Bool × Frames := f.NextT.1

/-- The cursor after `n` successive calls of `Next()`. -/
def Frames.NextN : Nat → Frames → Frames
  | 0, f => f
  | n + 1, f => (Frames.NextN n f).Next.2

/-- The method `Type()`: `_header->nlmsg_type`. -/
def Frames.Type_ (f : Frames) : Option Nat :=
  f.header.map fun h => nlmsg_type f.data h

/-- The method `Sequence()`: `_header->nlmsg_seq`. -/
def Frames.Sequence (f : Frames) : Option Nat :=
  f.header.map fun h => nlmsg_seq f.data h

/-- The method `Flags()`: `_header->nlmsg_flags`. -/
def Frames.Flags (f : Frames) : Option Nat :=
  f.header.map fun h => nlmsg_flags f.data h

/-- The method `Payload()`: the pointer `NLMSG_DATA(_header)` as an offset from
`_data`. -/
def Frames.Payload (f : Frames) : Option Nat :=
  f.header.map fun h => NLMSG_DATA h

/-- The method `PayloadSize()`: `NLMSG_PAYLOAD(_header, 0)` narrowed to
`uint16_t`. -/
def Frames.PayloadSize (f : Frames) : Option Nat :=
  f.header.map fun h => NLMSG_PAYLOAD f.data h 0 % 65536

/-- The method `RawData()`: the header pointer as an offset from `_data`. -/
def Frames.RawData (f : Frames) : Option Nat :=
  f.header

/-- The method `RawSize()`: `_header->nlmsg_len` narrowed to `uint16_t`. -/
def Frames.RawSize (f : Frames) : Option Nat :=
  f.header.map fun h => nlmsg_len f.data h % 65536

/-- The static method `HeaderSize()`: `NLMSG_HDRLEN` as a `uint16_t`. -/
def Frames.HeaderSize : Nat := NLMSG_HDRLEN % 65536

/-- The payload view of the current frame: the `PayloadSize()` bytes found at
`Payload()`. -/
def Frames.PayloadBytes (f : Frames) : Option (List Byte) :=
  f.header.map fun h => f.data.slice (NLMSG_DATA h) (NLMSG_PAYLOAD f.data h 0 % 65536)

/-- The loads made by `n` successive calls of `Next()`, each made only while
the call before it returned `true`. -/
def Frames.walkReads : Nat → Frames → List Access
  | 0, _ => []
  | n + 1, f =>
    let r := f.NextT
    r.2 ++ (if r.1.1 then Frames.walkReads n r.1.2 else [])

/-! ### Netlink messages as byte strings -/

/-- The declared length of a message given by its bytes: the little-endian
value of its first four bytes. -/
def Msg.declaredLen (c : List Byte) : Nat := nlmsg_len (Mem.ofBuffer c fun _ => 0) 0

/-- The type field of a message given by its bytes. -/
def Msg.type (c : List Byte) : Nat := nlmsg_type (Mem.ofBuffer c fun _ => 0) 0

/-- The flags field of a message given by its bytes. -/
def Msg.flags (c : List Byte) : Nat := nlmsg_flags (Mem.ofBuffer c fun _ => 0) 0

/-- The sequence field of a message given by its bytes. -/
def Msg.seq (c : List Byte) : Nat := nlmsg_seq (Mem.ofBuffer c fun _ => 0) 0

/-- The payload of a message given by its bytes: what lies between the 16-byte
header and the declared length. -/
def Msg.payload (c : List Byte) : List Byte := (c.take (Msg.declaredLen c)).drop 16

/-- A well-formed, alignment-padded message: the declared length is at least
the 16-byte header, and the bytes are the declared length rounded up to a
multiple of 4. -/
def Msg.WellFormed (c : List Byte) : Prop :=
  16 ≤ Msg.declaredLen c ∧ c.length = (Msg.declaredLen c + 3) / 4 * 4

instance (c : List Byte) : Decidable (Msg.WellFormed c) :=
  inferInstanceAs (Decidable (16 ≤ Msg.declaredLen c ∧ c.length = (Msg.declaredLen c + 3) / 4 * 4))

/-- A fresh cursor on the buffer `buf`, constructed with `receivedSize` equal to
the size of the buffer. -/
def Frames.onBuffer (buf : List Byte) (beyond : Nat → Byte) : Frames :=
  Frames.construct (Mem.ofBuffer buf beyond) buf.length

/-- Example data: a message of declared length 17 (type 3, flags 2, sequence 7,
one payload byte), padded to 20 bytes. -/
def exampleMsgA : List Byte :=
  [17, 0, 0, 0, 3, 0, 2, 0, 7, 0, 0, 0, 0, 0, 0, 0, 0xAB, 0, 0, 0]

/-- Example data: a message of declared length 16 (type 2, flags 0, sequence 8,
no payload). -/
def exampleMsgB : List Byte :=
  [16, 0, 0, 0, 2, 0, 0, 0, 8, 0, 0, 0, 0, 0, 0, 0]

/-- Example data: a header that declares 64 bytes where only 16 are left. -/
def exampleTruncated : List Byte :=
  [64, 0, 0, 0, 3, 0, 0, 0, 9, 0, 0, 0, 0, 0, 0, 0]

/-- Example data: a single message of declared length 17 in a buffer of exactly
17 bytes, so without the three padding bytes. -/
def exampleUnpadded : List Byte :=
  [17, 0, 0, 0, 3, 0, 0, 0, 1, 0, 0, 0, 0, 0, 0, 0, 9]

/-! ## `SocketNetlink::Message` -/

/-- The enumeration `Message::state`. -/
inductive Message.state where
  | LOADED
  | SEND
  | FAILURE
  | PROCESSED
  deriving DecidableEq, Repr

/-- The class `SocketNetlink::Message`, for an inbound target of type `ι`. -/
structure Message (ι : Type) where
  /-- The member `_signaled`, a manual-reset `Core::Event` that starts unset:
  `true` once `SetEvent()` has been called. -/
  _signaled : Bool
  /-- The member `_state`. -/
  _state : Message.state
  /-- What `Inbound()` returns: the inbound target, `none` for `nullptr`. -/
  inbound : Option ι

/-- The constructor `Message()`: `_signaled(false, true)`, `_state(LOADED)`. -/
def Message.construct {ι : Type} (inbound : Option ι) : Message ι :=
  { _signaled := false, _state := Message.state.LOADED, inbound := inbound }

/-- The method `IsSend()`. -/
def Message.IsSend {ι : Type} (m : Message ι) : Bool :=
  decide (m._state ≠ Message.state.LOADED)

/-- The method `IsProcessed()`. -/
def Message.IsProcessed {ι : Type} (m : Message ι) : Bool :=
  decide (m._state = Message.state.PROCESSED) || decide (m._state = Message.state.FAILURE)

/-- The method `NeedResponse()`: `Inbound() != nullptr`. -/
def Message.NeedResponse {ι : Type} (m : Message ι) : Bool :=
  m.inbound.isSome

/-- The method `Message::Deserialize(buffer, length)`.  The parameter `des` is
`Netlink::Deserialize` of the inbound target (defined outside the header): it
gets the target, the memory at `frame.RawData()` and `frame.RawSize()`, and
returns the `uint16_t` byte count and the target afterwards.  The result is
`none` when a null pointer is dereferenced (`Inbound()` without a target);
otherwise it is the returned byte count and the entry afterwards. -/
def Message.Deserialize {ι : Type} (des : ι → Mem → Nat → Nat × ι) (m : Message ι)
    (buffer : Mem) (length : Nat) : Option (Nat × Message ι) :=
  let frame := (Frames.construct buffer length).Next
  if frame.1 = true then do
    let type ← frame.2.Type_
    let flags ← frame.2.Flags
    let isMultimessage : Bool :=
      if type = NLMSG_DONE then false else decide (flags &&& NLM_F_MULTI ≠ 0)
    let rawData ← frame.2.RawData
    let rawSize ← frame.2.RawSize
    let target ← m.inbound
    let r := des target (buffer.shift rawData) rawSize
    let m₁ : Message ι := { m with inbound := some r.2 }
    if isMultimessage = false ∨ type = NLMSG_ERROR then
      pure (r.1,
        { m₁ with
          _state := if type = NLMSG_ERROR then Message.state.FAILURE
                    else Message.state.PROCESSED
          _signaled := true })
    else
      pure (r.1, m₁)
  else
    some (0, m)

/-- The method `Message::Serialize(buffer, length)`.  The parameter `outbound`
is `Outbound().Serialize(buffer, length)` (defined outside the header) as a
function of `length`; the bytes it stores in `buffer` are not part of the
entry.  Returns the byte count and the entry afterwards. -/
def Message.Serialize {ι : Type} (outbound : Nat → Nat) (m : Message ι) (length : Nat) :
    Nat × Message ι :=
  let m₁ : Message ι := { m with _state := Message.state.SEND }
  let handled := outbound length
  let m₂ : Message ι := if m₁.NeedResponse = false then { m₁ with _signaled := true } else m₁
  (handled, m₂)

/-- The entry after `Message::Deserialize` has been called on each buffer of the
list in turn (`none` once a call dereferenced a null pointer). -/
def Message.feed {ι : Type} (des : ι → Mem → Nat → Nat × ι) :
    Message ι → List (Mem × Nat) → Option (Message ι)
  | m, [] => some m
  | m, b :: bs =>
    match Message.Deserialize des m b.1 b.2 with
    | none => none
    | some r => Message.feed des r.2 bs

/-- The state and the completion signal of an entry. -/
def Message.status {ι : Type} (m : Message ι) : Message.state × Bool :=
  (m._state, m._signaled)

/-- A received buffer (memory and size) whose first frame is valid: the size
fits 16 bits, a 16-byte header is present, and the declared length is at least
16 and at most the size. -/
def FirstFrame (b : Mem × Nat) : Prop :=
  b.2 < 65536 ∧ 16 ≤ b.2 ∧ 16 ≤ nlmsg_len b.1 0 ∧ nlmsg_len b.1 0 ≤ b.2

instance (b : Mem × Nat) : Decidable (FirstFrame b) :=
  inferInstanceAs (Decidable (b.2 < 65536 ∧ 16 ≤ b.2 ∧ 16 ≤ nlmsg_len b.1 0 ∧ nlmsg_len b.1 0 ≤ b.2))

/-- A buffer whose first frame is a multi-part frame in progress: not of the
error type, not of the done type, multi flag set. -/
def FirstFrame.InProgress (b : Mem × Nat) : Prop :=
  FirstFrame b ∧ nlmsg_type b.1 0 ≠ NLMSG_ERROR ∧ nlmsg_type b.1 0 ≠ NLMSG_DONE ∧
    nlmsg_flags b.1 0 &&& NLM_F_MULTI ≠ 0

instance (b : Mem × Nat) : Decidable (FirstFrame.InProgress b) :=
  inferInstanceAs (Decidable (FirstFrame b ∧ nlmsg_type b.1 0 ≠ NLMSG_ERROR ∧
    nlmsg_type b.1 0 ≠ NLMSG_DONE ∧ nlmsg_flags b.1 0 &&& NLM_F_MULTI ≠ 0))

/-- A buffer whose first frame terminates a response without being an error:
the multi flag is cleared or the type is done. -/
def FirstFrame.Terminating (b : Mem × Nat) : Prop :=
  FirstFrame b ∧ nlmsg_type b.1 0 ≠ NLMSG_ERROR ∧
    (nlmsg_flags b.1 0 &&& NLM_F_MULTI = 0 ∨ nlmsg_type b.1 0 = NLMSG_DONE)

instance (b : Mem × Nat) : Decidable (FirstFrame.Terminating b) :=
  inferInstanceAs (Decidable (FirstFrame b ∧ nlmsg_type b.1 0 ≠ NLMSG_ERROR ∧
    (nlmsg_flags b.1 0 &&& NLM_F_MULTI = 0 ∨ nlmsg_type b.1 0 = NLMSG_DONE)))

/-- A buffer whose first frame is of the error type. -/
def FirstFrame.Error (b : Mem × Nat) : Prop :=
  FirstFrame b ∧ nlmsg_type b.1 0 = NLMSG_ERROR

instance (b : Mem × Nat) : Decidable (FirstFrame.Error b) :=
  inferInstanceAs (Decidable (FirstFrame b ∧ nlmsg_type b.1 0 = NLMSG_ERROR))

/-- Example data: a received buffer holding one 16-byte frame of the given type
and flags (both below 256), sequence 5. -/
def exampleFrame (type flags : Byte) : Mem × Nat :=
  (Mem.ofBuffer [16, 0, 0, 0, type, 0, flags, 0, 5, 0, 0, 0, 0, 0, 0, 0] (fun _ => 0), 16)

/-! ## `ConnectorType<IDX, VAL>` -/

/-- The size `sizeof(struct cn_msg)` of `linux/connector.h`: `id.idx` (u32),
`id.val` (u32), `seq` (u32), `ack` (u32), `len` (u16), `flags` (u16), followed
by the flexible member `data`. -/
def sizeof_cn_msg : Nat := 20

/-- The field `internal->id.idx`. -/
def cn_idx (m : Mem) (p : Nat) : Nat := rd32 m p

/-- The field `internal->id.val`. -/
def cn_val (m : Mem) (p : Nat) : Nat := rd32 m (p + 4)

/-- The field `internal->seq`. -/
def cn_seq (m : Mem) (p : Nat) : Nat := rd32 m (p + 8)

/-- The field `internal->ack`. -/
def cn_ack (m : Mem) (p : Nat) : Nat := rd32 m (p + 12)

/-- The field `internal->len`. -/
def cn_len (m : Mem) (p : Nat) : Nat := rd16 m (p + 16)

/-- The field `internal->flags`. -/
def cn_flags (m : Mem) (p : Nat) : Nat := rd16 m (p + 18)

/-- The offset of `internal->data`. -/
def cn_data (p : Nat) : Nat := p + sizeof_cn_msg

/-- The class `ConnectorType<IDX, VAL>`: the member `_ack` and the state `σ`
of the derived class that implements the two `Message` delegates. -/
structure ConnectorType (σ : Type) where
  /-- The member `_ack` (`uint32_t`). -/
  _ack : Nat
  /-- The state of the derived class. -/
  user : σ

/-- The method `Acknowledge()`. -/
def ConnectorType.Acknowledge {σ : Type} (c : ConnectorType σ) : Nat := c._ack

/-- The local variables of `ConnectorType::Read` together with the object, and
three logs that are not part of the program: the delegate invocations (bytes
handed over, and length), the header loads, and the number of loop bodies run. -/
structure ConnectorType.ReadState (σ : Type) where
  /-- The pointer `internal`, as an offset from `stream`. -/
  internal : Nat
  /-- The local `size` (`uint16_t`). -/
  size : Nat
  /-- The local `completed`. -/
  completed : Bool
  /-- The object `*this`. -/
  self : ConnectorType σ
  /-- Log: the invocations of the payload delegate. -/
  calls : List (List Byte × Nat)
  /-- Log: the loads made through `internal`. -/
  reads : List Access
  /-- Log: how often the loop body ran. -/
  iterations : Nat

/-- The `while` loop of `ConnectorType::Read`, with `fuel` bounding the number
of evaluations of the loop condition (`none` when the fuel runs out).  The
delegate `Message(const uint8_t[], uint16_t)` gets the state of the derived
class, the memory at `internal->data` and `internal->len`, and returns its
`uint16_t` result and the new state.  The loop condition is evaluated on
`size_t`, so the sum does not wrap; `size += ...` narrows to 16 bits.  A field
loaded several times in one iteration is logged once. -/
def ConnectorType.Read.loop {σ : Type} (IDX VAL : Nat) (Message : σ → Mem → Nat → Nat × σ)
    (stream : Mem) (length : Nat) :
    Nat → ConnectorType.ReadState σ → Option (ConnectorType.ReadState σ)
  | 0, _ => none
  | fuel + 1, s =>
    if s.completed = false then
      let len := cn_len stream s.internal
      let s₀ := { s with reads := s.reads ++ [(s.internal + 16, 2)] }
      if s₀.size + (sizeof_cn_msg + len) ≤ length then
        let s₁ :=
          if 0 < len then
            if cn_idx stream s₀.internal = IDX then
              if cn_val stream s₀.internal = VAL then
                let r := Message s₀.self.user (stream.shift (cn_data s₀.internal)) len
                { s₀ with
                  self := { _ack := cn_ack stream s₀.internal, user := r.2 }
                  completed := decide (r.1 < len)
                  calls := s₀.calls ++ [(stream.slice (cn_data s₀.internal) len, len)]
                  reads := s₀.reads ++
                    [(s₀.internal, 4), (s₀.internal + 4, 4), (s₀.internal + 12, 4)] }
              else { s₀ with reads := s₀.reads ++ [(s₀.internal, 4), (s₀.internal + 4, 4)] }
            else { s₀ with reads := s₀.reads ++ [(s₀.internal, 4)] }
          else s₀
        let s₂ :=
          if s₁.completed = false then
            { s₁ with
              size := (s₁.size + (sizeof_cn_msg + len)) % 65536
              internal := (s₁.size + (sizeof_cn_msg + len)) % 65536 }
          else s₁
        ConnectorType.Read.loop IDX VAL Message stream length fuel
          { s₂ with iterations := s₂.iterations + 1 }
      else some s₀
    else some s

/-- The outcome of `ConnectorType::Read`: the returned value, the object
afterwards, and the logs of the loop. -/
structure ConnectorType.ReadResult (σ : Type) where
  /-- The returned `uint16_t`. -/
  result : Nat
  /-- The object `*this` afterwards. -/
  self : ConnectorType σ
  /-- Log: the invocations of the payload delegate. -/
  calls : List (List Byte × Nat)
  /-- Log: the loads made through `internal`. -/
  reads : List Access
  /-- Log: how often the loop body ran. -/
  iterations : Nat

/-- The body of the `while` loop of `Read`, on the state in which the loop
condition has just been found true (its load of `internal->len` is logged
already): the same steps as one turn of `ConnectorType.Read.loop`. -/
def ConnectorType.Read.body {σ : Type} (IDX VAL : Nat) (Message : σ → Mem → Nat → Nat × σ)
    (stream : Mem) (s₀ : ConnectorType.ReadState σ) : ConnectorType.ReadState σ :=
  let len := cn_len stream s₀.internal
  let s₁ :=
    if 0 < len then
      if cn_idx stream s₀.internal = IDX then
        if cn_val stream s₀.internal = VAL then
          let r := Message s₀.self.user (stream.shift (cn_data s₀.internal)) len
          { s₀ with
            self := { _ack := cn_ack stream s₀.internal, user := r.2 }
            completed := decide (r.1 < len)
            calls := s₀.calls ++ [(stream.slice (cn_data s₀.internal) len, len)]
            reads := s₀.reads ++
              [(s₀.internal, 4), (s₀.internal + 4, 4), (s₀.internal + 12, 4)] }
        else { s₀ with reads := s₀.reads ++ [(s₀.internal, 4), (s₀.internal + 4, 4)] }
      else { s₀ with reads := s₀.reads ++ [(s₀.internal, 4)] }
    else s₀
  let s₂ :=
    if s₁.completed = false then
      { s₁ with
        size := (s₁.size + (sizeof_cn_msg + len)) % 65536
        internal := (s₁.size + (sizeof_cn_msg + len)) % 65536 }
    else s₁
  { s₂ with iterations := s₂.iterations + 1 }

/-- The method `ConnectorType<IDX, VAL>::Read(stream, length)`; `length` is a
`uint16_t`.  The loop gets `length + 1` units of fuel. -/
def ConnectorType.Read {σ : Type} (IDX VAL : Nat) (Message : σ → Mem → Nat → Nat × σ)
    (c : ConnectorType σ) (stream : Mem) (length : Nat) : Option (ConnectorType.ReadResult σ) :=
  (ConnectorType.Read.loop IDX VAL Message stream (length % 65536) (length % 65536 + 1)
    { internal := 0, size := 0, completed := false, self := c, calls := [], reads := [],
      iterations := 0 }).map fun s =>
    { result := if s.completed = false then 0 else length % 65536
      self := s.self
      calls := s.calls
      reads := s.reads
      iterations := s.iterations }

/-- The byte `k` of the little-endian representation of `v`. -/
def leByte (v k : Nat) : Byte :=
  ⟨v / 256 ^ k % 256, Nat.mod_lt _ (by decide)⟩

/-- The store `memcpy(&stream[off], &value, n)` of the `n` low bytes of `value`. -/
def Mem.store (m : Mem) (off n value : Nat) : Mem :=
  fun i => if off ≤ i ∧ i < off + n then leByte value (i - off) else m i

/-- The memory after a callee has worked on the view that starts at `off`:
below `off` it is unchanged, from `off` on it is the callee's view. -/
def Mem.splice (m : Mem) (off : Nat) (view : Mem) : Mem :=
  fun i => if i < off then m i else view (i - off)

/-- The outcome of `ConnectorType::Write`: the returned value, the memory behind
`stream` afterwards, the capacity that was passed to the payload delegate, and
the log of the stores made by `Write` itself. -/
structure ConnectorType.WriteResult where
  /-- The returned `uint16_t`. -/
  result : Nat
  /-- The memory behind `stream` afterwards. -/
  stream : Mem
  /-- The `length` argument the payload delegate was called with. -/
  capacity : Nat
  /-- Log: the stores made by `Write` itself. -/
  writes : List Access

/-- The method `ConnectorType<IDX, VAL>::Write(stream, length)`.  The parameter
`sequence` is `Sequence()`; the delegate `Message(uint8_t[], uint16_t) const`
gets the memory at `&stream[20]` and `length - 20` narrowed to `uint16_t`, and
returns its `uint16_t` result and that memory afterwards. -/
def ConnectorType.Write (IDX VAL sequence : Nat) (Message : Mem → Nat → Nat × Mem)
    (stream : Mem) (length : Nat) : ConnectorType.WriteResult :=
  let s₁ := stream.store 0 4 IDX
  let s₂ := s₁.store 4 4 VAL
  let s₃ := s₂.store 8 4 sequence
  let s₄ := s₃.store 12 4 0
  let s₅ := s₄.store 18 2 0
  let capacity := (length % 65536 + 65536 - 20) % 65536
  let r := Message (s₅.shift 20) capacity
  let s₆ := s₅.splice 20 r.2
  let s₇ := s₆.store 16 2 r.1
  { result := (r.1 + 20) % 65536
    stream := s₇
    capacity := capacity
    writes := [(0, 4), (4, 4), (8, 4), (12, 4), (18, 2), (16, 2)] }

/-! ### Connector sub-frames as byte strings -/

/-- The identity index of a sub-frame given by its bytes. -/
def Cn.idx (f : List Byte) : Nat := cn_idx (Mem.ofBuffer f fun _ => 0) 0

/-- The identity value of a sub-frame given by its bytes. -/
def Cn.val (f : List Byte) : Nat := cn_val (Mem.ofBuffer f fun _ => 0) 0

/-- The acknowledgement counter of a sub-frame given by its bytes. -/
def Cn.ack (f : List Byte) : Nat := cn_ack (Mem.ofBuffer f fun _ => 0) 0

/-- The declared payload length of a sub-frame given by its bytes. -/
def Cn.len (f : List Byte) : Nat := cn_len (Mem.ofBuffer f fun _ => 0) 0

/-- The payload of a sub-frame given by its bytes: what follows the 20-byte
header. -/
def Cn.payload (f : List Byte) : List Byte := f.drop 20

/-- A fully contained sub-frame: the 20-byte header followed by exactly the
declared number of payload bytes. -/
def Cn.Contained (f : List Byte) : Prop := f.length = 20 + Cn.len f

instance (f : List Byte) : Decidable (Cn.Contained f) :=
  inferInstanceAs (Decidable (f.length = 20 + Cn.len f))

/-- A sub-frame carries the identity `(IDX, VAL)`. -/
def Cn.Matches (IDX VAL : Nat) (f : List Byte) : Prop := Cn.idx f = IDX ∧ Cn.val f = VAL

instance (IDX VAL : Nat) (f : List Byte) : Decidable (Cn.Matches IDX VAL f) :=
  inferInstanceAs (Decidable (Cn.idx f = IDX ∧ Cn.val f = VAL))

/-- The bytes of the sub-frame `f` are found in `stream` at offset `p`. -/
def FrameAt (stream : Mem) (p : Nat) (f : List Byte) : Prop :=
  ∀ j, j < f.length → stream (p + j) = Mem.ofBuffer f (fun _ => 0) j

/-- Example data: a sub-frame with identity (4, 2), ack 0 and the two payload
bytes `11 22`. -/
def exampleCnOther : List Byte :=
  [4, 0, 0, 0, 2, 0, 0, 0, 0, 0, 0, 0, 0, 0, 0, 0, 2, 0, 0, 0, 0x11, 0x22]

/-- Example data: a sub-frame with identity (4, 1), ack 7 and the three payload
bytes `AA BB CC`. -/
def exampleCnMatch : List Byte :=
  [4, 0, 0, 0, 1, 0, 0, 0, 0, 0, 0, 0, 7, 0, 0, 0, 3, 0, 0, 0, 0xAA, 0xBB, 0xCC]

/-- Example delegate for decoding: accepts the whole payload, so returns the
length it was given. -/
def exampleAccept : Unit → Mem → Nat → Nat × Unit := fun u _ n => (n, u)

/-- Example delegate for decoding: rejects the payload, so returns 0. -/
def exampleReject : Unit → Mem → Nat → Nat × Unit := fun u _ _ => (0, u)

/-- Example delegate for encoding: stores the three bytes `AA BB CC` and
returns 3. -/
def exampleEncode : Mem → Nat → Nat × Mem :=
  fun m _ => (3, fun i => [(0xAA : Byte), 0xBB, 0xCC].getD i (m i))

/-! ## `SocketNetlink` -/

/-- The error codes of `Core` that the header uses; their values are defined
outside the sources and are taken as parameters. -/
structure ErrorCodes where
  /-- The code `Core::ERROR_NONE`. -/
  ERROR_NONE : Nat
  /-- The code `Core::ERROR_RPC_CALL_FAILED`. -/
  ERROR_RPC_CALL_FAILED : Nat

/-- The two collections of `SocketNetlink`, over entries of type `ε` (the
shared pointers to `Message`). -/
structure SocketNetlink (ε : Type) where
  /-- The member `_pending`. -/
  _pending : List ε
  /-- The member `_exchangeQueue`. -/
  _exchangeQueue : List ε

/-- What `SocketNetlink` does to its lock, its collections and its
collaborators, in program order. -/
inductive SocketNetlink.Event (ε : Type) where
  /-- The call `_adminLock.Lock()`. -/
  | lock
  /-- The call `_adminLock.Unlock()`. -/
  | unlock
  /-- The call `_pending.push_back(e)`. -/
  | pendingPushBack (e : ε)
  /-- The call `_exchangeQueue.pop_front()`. -/
  | queuePopFront
  /-- The call `_exchangeQueue.clear()`. -/
  | queueClear
  /-- The call `_exchangeQueue.emplace_back(e)`. -/
  | queueEmplaceBack (e : ε)
  /-- The call `Core::SocketDatagram::Trigger()`. -/
  | trigger
  /-- The call `e->Wait(waitTime)` and what it returned. -/
  | wait (e : ε) (signalled : Bool)
  deriving DecidableEq, Repr

/-- The engine during a run of `ExecuteExchangeQueue`: the collections, the
local `result`, the events so far, and the number of `Wait` calls so far. -/
structure SocketNetlink.Run (ε : Type) where
  /-- The collections. -/
  engine : SocketNetlink ε
  /-- The local `result` (`uint16_t`). -/
  result : Nat
  /-- Log: the events so far. -/
  events : List (SocketNetlink.Event ε)
  /-- Log: the number of `Wait` calls so far. -/
  waits : Nat

/-- The `while (_exchangeQueue.size() > 0)` loop of `ExecuteExchangeQueue`,
with `fuel` bounding the number of evaluations of the loop condition (`none`
when the fuel runs out).  `Wait n e` is what the `n`-th call of `Wait` (counted
from 0), made on the entry `e`, returns: `true` when the entry was signalled in
time, `false` on a timeout.  No other thread touches the collections. -/
def SocketNetlink.ExecuteExchangeQueue.loop {ε : Type} (codes : ErrorCodes)
    (Wait : Nat → ε → Bool) : Nat → SocketNetlink.Run ε → Option (SocketNetlink.Run ε)
  | 0, _ => none
  | fuel + 1, st =>
    match st.engine._exchangeQueue with
    | [] => some st
    | front :: rest =>
      let engine₁ : SocketNetlink ε :=
        { _pending := st.engine._pending ++ [front], _exchangeQueue := rest }
      let myEntry := front
      let events₁ := st.events ++
        [SocketNetlink.Event.pendingPushBack front, SocketNetlink.Event.queuePopFront,
         SocketNetlink.Event.unlock, SocketNetlink.Event.trigger,
         SocketNetlink.Event.wait myEntry (Wait st.waits myEntry)]
      if Wait st.waits myEntry = false then
        SocketNetlink.ExecuteExchangeQueue.loop codes Wait fuel
          { engine := { engine₁ with _exchangeQueue := [] }
            result := codes.ERROR_RPC_CALL_FAILED % 65536
            events := events₁ ++
              [SocketNetlink.Event.lock, SocketNetlink.Event.queueClear,
               SocketNetlink.Event.unlock]
            waits := st.waits + 1 }
      else
        SocketNetlink.ExecuteExchangeQueue.loop codes Wait fuel
          { engine := engine₁
            result := codes.ERROR_NONE % 65536
            events := events₁
            waits := st.waits + 1 }

/-- The method `SocketNetlink::ExecuteExchangeQueue(waitTime)`.  The loop gets
one unit of fuel more than there are queued entries. -/
def SocketNetlink.ExecuteExchangeQueue {ε : Type} (codes : ErrorCodes) (Wait : Nat → ε → Bool)
    (engine : SocketNetlink ε) : Option (SocketNetlink.Run ε) :=
  SocketNetlink.ExecuteExchangeQueue.loop codes Wait (engine._exchangeQueue.length + 1)
    { engine := engine
      result := codes.ERROR_NONE % 65536
      events := [SocketNetlink.Event.lock]
      waits := 0 }

/-- The events of one turn of the loop for the entry `e` whose wait succeeds. -/
def SocketNetlink.Event.dispatched {ε : Type} (e : ε) : List (SocketNetlink.Event ε) :=
  [SocketNetlink.Event.pendingPushBack e, SocketNetlink.Event.queuePopFront,
   SocketNetlink.Event.unlock, SocketNetlink.Event.trigger, SocketNetlink.Event.wait e true]

/-- The events of the turn of the loop for the entry `e` whose wait times out. -/
def SocketNetlink.Event.timedOut {ε : Type} (e : ε) : List (SocketNetlink.Event ε) :=
  [SocketNetlink.Event.pendingPushBack e, SocketNetlink.Event.queuePopFront,
   SocketNetlink.Event.unlock, SocketNetlink.Event.trigger, SocketNetlink.Event.wait e false,
   SocketNetlink.Event.lock, SocketNetlink.Event.queueClear, SocketNetlink.Event.unlock]

/-- The entries moved into `_pending`, in the order of the moves. -/
def SocketNetlink.Event.moved {ε : Type} (events : List (SocketNetlink.Event ε)) : List ε :=
  events.filterMap fun ev =>
    match ev with
    | SocketNetlink.Event.pendingPushBack e => some e
    | _ => none

/-- The number of send opportunities requested. -/
def SocketNetlink.Event.triggers {ε : Type} (events : List (SocketNetlink.Event ε)) : Nat :=
  (events.filter fun ev =>
    match ev with
    | SocketNetlink.Event.trigger => true
    | _ => false).length

/-- Example data: error codes with `ERROR_NONE = 0` and
`ERROR_RPC_CALL_FAILED = 7`. -/
def exampleCodes : ErrorCodes := { ERROR_NONE := 0, ERROR_RPC_CALL_FAILED := 7 }

/-! ## `SocketNetlink::Message`: waiting, the derived classes, call sequences -/

/-- The constructor `MessageRef(outbound)`: a fire-and-forget entry,
`_inbound(nullptr)`. -/
def MessageRef.construct {ι : Type} : Message ι := Message.construct none

/-- The constructor `MessageRef(outbound, inbound)`: `_inbound(&inbound)`. -/
def MessageRef.constructExchange {ι : Type} (inbound : ι) : Message ι :=
  Message.construct (some inbound)

/-- The constructor `MessageComp(netlinkParams...)`: `Inbound()` is the address
of the member `_netlink`, so never null. -/
def MessageComp.construct {ι : Type} (netlink : ι) : Message ι :=
  Message.construct (some netlink)

/-- Modelled from the spec: the class `Core::Event` behind `_signaled` is not in
the sources; it is "a boolean event with Set/Lock-with-timeout semantics", here
constructed as a manual-reset event.  `Lock(waitTime)` succeeds at once when the
event is set and leaves it set; when it is not set, `Lock` succeeds exactly when
another thread sets the event within `waitTime`, which is the parameter
`setInTime`.  The method `Message::Wait(waitTime)` returns whether `Lock`
succeeded. -/
def Message.Wait {ι : Type} (m : Message ι) (setInTime : Bool) : Bool × Message ι :=
  if m._signaled = true then (true, m) else (setInTime, { m with _signaled := setInTime })

/-- The class `MessageAsync<NetlinkType>`: the entry (a `MessageComp`, so with an
inbound target) and a log of the arguments `_callback` was invoked with, in
order. -/
structure MessageAsync (ι : Type) where
  /-- The base class `Message`. -/
  base : Message ι
  /-- Log: the arguments of the invocations of `_callback`. -/
  callbacks : List Bool

/-- The constructor `MessageAsync(callback, netlinkParams...)`. -/
def MessageAsync.construct {ι : Type} (netlink : ι) : MessageAsync ι :=
  { base := MessageComp.construct netlink, callbacks := [] }

/-- The method `MessageAsync::Deserialize(buffer, length)`: it calls
`Message::Deserialize` and then, if `IsProcessed()`, invokes
`_callback(_state != FAILURE)`. -/
def MessageAsync.Deserialize {ι : Type} (des : ι → Mem → Nat → Nat × ι) (a : MessageAsync ι)
    (buffer : Mem) (length : Nat) : Option (Nat × MessageAsync ι) :=
  match Message.Deserialize des a.base buffer length with
  | none => none
  | some r =>
    if r.2.IsProcessed = true then
      some (r.1,
        { base := r.2
          callbacks := a.callbacks ++ [decide (r.2._state ≠ Message.state.FAILURE)] })
    else
      some (r.1, { base := r.2, callbacks := a.callbacks })

/-- The asynchronous entry after `MessageAsync::Deserialize` has been called on
each buffer of the list in turn. -/
def MessageAsync.feed {ι : Type} (des : ι → Mem → Nat → Nat × ι) :
    MessageAsync ι → List (Mem × Nat) → Option (MessageAsync ι)
  | a, [] => some a
  | a, b :: bs =>
    match MessageAsync.Deserialize des a b.1 b.2 with
    | none => none
    | some r => MessageAsync.feed des r.2 bs

/-- A call made on a pending entry. -/
inductive Message.Call where
  /-- The call `Serialize(buffer, length)`. -/
  | serialize (length : Nat)
  /-- The call `Deserialize(buffer, length)`. -/
  | deserialize (buffer : Mem) (length : Nat)

/-- The entry after one call. -/
def Message.call {ι : Type} (des : ι → Mem → Nat → Nat × ι) (outbound : Nat → Nat)
    (m : Message ι) : Message.Call → Option (Message ι)
  | Message.Call.serialize length => some (Message.Serialize outbound m length).2
  | Message.Call.deserialize buffer length =>
    (Message.Deserialize des m buffer length).map fun r => r.2

/-- The states of the entry after each call of a sequence of calls. -/
def Message.run {ι : Type} (des : ι → Mem → Nat → Nat × ι) (outbound : Nat → Nat) :
    Message ι → List Message.Call → Option (List Message.state)
  | _, [] => some []
  | m, c :: cs =>
    match Message.call des outbound m c with
    | none => none
    | some m₁ => (Message.run des outbound m₁ cs).map fun t => m₁._state :: t

/-- The state changes that one call can make: `Serialize` ends in `SEND`;
`Deserialize` keeps the state or ends in `PROCESSED` or `FAILURE`. -/
def Message.Call.allows (c : Message.Call) (before after : Message.state) : Prop :=
  match c with
  | Message.Call.serialize _ => after = Message.state.SEND
  | Message.Call.deserialize _ _ =>
    after = before ∨ after = Message.state.PROCESSED ∨ after = Message.state.FAILURE

/-- A list of states is a possible record of a sequence of calls made on an
entry in state `before`: one state per call, each allowed by its call. -/
def Message.Call.allowAll : Message.state → List Message.Call → List Message.state → Prop
  | _, [], [] => True
  | before, c :: cs, st :: sts => c.allows before st ∧ Message.Call.allowAll st cs sts
  | _, _, _ => False

/-- A received buffer (memory and size, the size fitting 16 bits) in which the
cursor finds no valid first frame: fewer than 16 bytes, a declared length below
16, or a declared length larger than the buffer. -/
def NoFirstFrame (b : Mem × Nat) : Prop :=
  b.2 < 65536 ∧ (b.2 < 16 ∨ nlmsg_len b.1 0 < 16 ∨ b.2 < nlmsg_len b.1 0)

instance (b : Mem × Nat) : Decidable (NoFirstFrame b) :=
  inferInstanceAs
    (Decidable (b.2 < 65536 ∧ (b.2 < 16 ∨ nlmsg_len b.1 0 < 16 ∨ b.2 < nlmsg_len b.1 0)))

/-- Example delegate for the inbound target: the decode fails, returns 0. -/
def exampleDecodeFails : Unit → Mem → Nat → Nat × Unit := fun u _ _ => (0, u)

/-- Example delegate for the inbound target: counts its invocations in the
target and returns the size it was given. -/
def exampleDecodeCounts : Nat → Mem → Nat → Nat × Nat := fun n _ size => (size, n + 1)

/-- Example data: a received buffer of 16 bytes whose header declares 8 bytes. -/
def exampleShortDeclared : Mem × Nat :=
  (Mem.ofBuffer [8, 0, 0, 0, 3, 0, 0, 0, 5, 0, 0, 0, 0, 0, 0, 0] (fun _ => 0), 16)

/-- Example delegate for encoding: fails, stores nothing and returns 0. -/
def exampleEncodeFails : Mem → Nat → Nat × Mem := fun m _ => (0, m)

/-! ## `SocketNetlink`: queueing and the lock -/

/-- The outcome of a call of a method of `SocketNetlink`: the returned value,
the collections afterwards and the events of the call. -/
structure SocketNetlink.CallResult (ε : Type) where
  /-- The returned `uint32_t`. -/
  result : Nat
  /-- The collections afterwards. -/
  engine : SocketNetlink ε
  /-- Log: the events of the call. -/
  events : List (SocketNetlink.Event ε)

/-- The method `SocketNetlink::RequestExchange<NetlinkType>(netlinkParams...)`;
`netlink` is the `NetlinkType` object built from the parameters. -/
def SocketNetlink.RequestExchange {ι : Type} (codes : ErrorCodes) (netlink : ι)
    (engine : SocketNetlink (Message ι)) : SocketNetlink.CallResult (Message ι) :=
  let entry := MessageComp.construct netlink
  { result := codes.ERROR_NONE % 4294967296
    engine := { engine with _exchangeQueue := engine._exchangeQueue ++ [entry] }
    events := [SocketNetlink.Event.lock, SocketNetlink.Event.queueEmplaceBack entry,
               SocketNetlink.Event.unlock] }

/-- An event changes `_pending` or `_exchangeQueue`. -/
def SocketNetlink.Event.isMutation {ε : Type} : SocketNetlink.Event ε → Bool
  | SocketNetlink.Event.pendingPushBack _ => true
  | SocketNetlink.Event.queuePopFront => true
  | SocketNetlink.Event.queueClear => true
  | SocketNetlink.Event.queueEmplaceBack _ => true
  | _ => false

/-- The number of acquisitions of the lock. -/
def SocketNetlink.Event.acquired {ε : Type} (events : List (SocketNetlink.Event ε)) : Nat :=
  (events.filter fun ev =>
    match ev with
    | SocketNetlink.Event.lock => true
    | _ => false).length

/-- The number of releases of the lock. -/
def SocketNetlink.Event.released {ε : Type} (events : List (SocketNetlink.Event ε)) : Nat :=
  (events.filter fun ev =>
    match ev with
    | SocketNetlink.Event.unlock => true
    | _ => false).length

/-- Every change of a collection happens while the lock is held: the events are
scanned with the lock counter `held` (acquisitions minus releases so far), and
each mutation must find it positive. -/
def SocketNetlink.Event.mutationsLocked {ε : Type} :
    Int → List (SocketNetlink.Event ε) → Bool
  | _, [] => true
  | held, SocketNetlink.Event.lock :: es => SocketNetlink.Event.mutationsLocked (held + 1) es
  | held, SocketNetlink.Event.unlock :: es => SocketNetlink.Event.mutationsLocked (held - 1) es
  | held, e :: es =>
    (!e.isMutation || decide (0 < held)) && SocketNetlink.Event.mutationsLocked held es

/-- The lock is not held during any `Wait`: the events are scanned with the
lock counter `held`, and each wait must find it at most 0. -/
def SocketNetlink.Event.waitsUnlocked {ε : Type} :
    Int → List (SocketNetlink.Event ε) → Bool
  | _, [] => true
  | held, SocketNetlink.Event.lock :: es => SocketNetlink.Event.waitsUnlocked (held + 1) es
  | held, SocketNetlink.Event.unlock :: es => SocketNetlink.Event.waitsUnlocked (held - 1) es
  | held, SocketNetlink.Event.wait _ _ :: es =>
    decide (held ≤ 0) && SocketNetlink.Event.waitsUnlocked held es
  | held, _ :: es => SocketNetlink.Event.waitsUnlocked held es

/-! ## Example data for the frame accessors -/

/-- Example data: memory behind a buffer that holds, at offset 20, the four
bytes `10 00 00 00` (a declared length of 16) and zeros elsewhere, as stale
content of a receive buffer may. -/
def exampleStale : Nat → Byte := fun i => if i = 20 then 16 else 0

/-! ## Theorems -/

/-! ### Lists of messages -/

theorem flatten_split {α : Type} (l : List (List α)) (i : Nat) (hi : i < l.length) :
    l.flatten = (l.take i).flatten ++ (l[i] ++ (l.drop (i + 1)).flatten) := by
  calc l.flatten = (l.take i ++ l.drop i).flatten := by rw [List.take_append_drop]
    _ = _ := by rw [List.drop_eq_getElem_cons hi, List.flatten_append, List.flatten_cons]

theorem flatten_take_succ {α : Type} (l : List (List α)) (i : Nat) (hi : i < l.length) :
    (l.take (i + 1)).flatten.length = (l.take i).flatten.length + l[i].length := by
  rw [List.take_succ, List.getElem?_eq_getElem hi, List.flatten_append, List.length_append]
  simp only [Option.toList, List.flatten_cons, List.flatten_nil, List.append_nil]

theorem flatten_take_le {α : Type} (l : List (List α)) (i : Nat) :
    (l.take i).flatten.length ≤ l.flatten.length := by
  conv_rhs => rw [← List.take_append_drop i l, List.flatten_append, List.length_append]
  omega

/-- A byte of the `i`-th message is found in the concatenation at the sum of
the lengths of the messages before it. -/
theorem ofBuffer_flatten_at (msgs : List (List Byte)) (tail : List Byte) (beyond : Nat → Byte)
    (i : Nat) (hi : i < msgs.length) (j : Nat) (hj : j < msgs[i].length) :
    Mem.ofBuffer (msgs.flatten ++ tail) beyond ((msgs.take i).flatten.length + j)
      = Mem.ofBuffer msgs[i] (fun _ => 0) j := by
  unfold Mem.ofBuffer
  rw [flatten_split msgs i hi, List.append_assoc, List.append_assoc,
    List.getD_append_right _ _ _ _ (by omega)]
  have e : (List.take i msgs).flatten.length + j - (List.take i msgs).flatten.length = j := by
    omega
  rw [e, List.getD_append _ _ _ _ hj, List.getD_eq_getElem _ _ hj, List.getD_eq_getElem _ _ hj]

/-- A byte of the tail is found in the concatenation behind all messages. -/
theorem ofBuffer_tail_at (pre tail : List Byte) (beyond : Nat → Byte)
    (j : Nat) (hj : j < tail.length) :
    Mem.ofBuffer (pre ++ tail) beyond (pre.length + j) = Mem.ofBuffer tail (fun _ => 0) j := by
  unfold Mem.ofBuffer
  rw [List.getD_append_right _ _ _ _ (by omega)]
  have e : pre.length + j - pre.length = j := by omega
  rw [e, List.getD_eq_getElem _ _ hj, List.getD_eq_getElem _ _ hj]

theorem rd32_congr (m₁ m₂ : Mem) (p₁ p₂ : Nat) (h : ∀ j, j < 4 → m₁ (p₁ + j) = m₂ (p₂ + j)) :
    rd32 m₁ p₁ = rd32 m₂ p₂ := by
  have h0 := h 0 (by omega)
  have h1 := h 1 (by omega)
  have h2 := h 2 (by omega)
  have h3 := h 3 (by omega)
  simp only [Nat.add_zero] at h0
  simp only [rd32, h0, h1, h2, h3]

theorem rd16_congr (m₁ m₂ : Mem) (p₁ p₂ : Nat) (h : ∀ j, j < 2 → m₁ (p₁ + j) = m₂ (p₂ + j)) :
    rd16 m₁ p₁ = rd16 m₂ p₂ := by
  have h0 := h 0 (by omega)
  have h1 := h 1 (by omega)
  simp only [Nat.add_zero] at h0
  simp only [rd16, h0, h1]

theorem rd32_lt (m : Mem) (p : Nat) : rd32 m p < 4294967296 := by
  unfold rd32
  omega

theorem rd16_lt (m : Mem) (p : Nat) : rd16 m p < 65536 := by
  unfold rd16
  omega

/-! ### The frame cursor on a buffer of well-formed messages -/

theorem Frames.Next_fst (f : Frames) : f.Next.1 = f.Next.2.IsValid := rfl

theorem Frames.NextN_succ (n : Nat) (f : Frames) :
    Frames.NextN (n + 1) f = (Frames.NextN n f).Next.2 := rfl

/-- The header fields of the `i`-th message, read in place. -/
theorem msg_fields_at (msgs : List (List Byte)) (tail : List Byte) (beyond : Nat → Byte)
    (i : Nat) (hi : i < msgs.length) (hlen : 16 ≤ msgs[i].length) :
    nlmsg_len (Mem.ofBuffer (msgs.flatten ++ tail) beyond) (msgs.take i).flatten.length
        = Msg.declaredLen msgs[i] ∧
    nlmsg_type (Mem.ofBuffer (msgs.flatten ++ tail) beyond) (msgs.take i).flatten.length
        = Msg.type msgs[i] ∧
    nlmsg_flags (Mem.ofBuffer (msgs.flatten ++ tail) beyond) (msgs.take i).flatten.length
        = Msg.flags msgs[i] ∧
    nlmsg_seq (Mem.ofBuffer (msgs.flatten ++ tail) beyond) (msgs.take i).flatten.length
        = Msg.seq msgs[i] := by
  refine ⟨?_, ?_, ?_, ?_⟩
  · apply rd32_congr
    intro j hj
    rw [ofBuffer_flatten_at msgs tail beyond i hi j (by omega), Nat.zero_add]
  · apply rd16_congr
    intro j hj
    rw [Nat.add_assoc, ofBuffer_flatten_at msgs tail beyond i hi (4 + j) (by omega), Nat.zero_add]
  · apply rd16_congr
    intro j hj
    rw [Nat.add_assoc, ofBuffer_flatten_at msgs tail beyond i hi (6 + j) (by omega), Nat.zero_add]
  · apply rd32_congr
    intro j hj
    rw [Nat.add_assoc, ofBuffer_flatten_at msgs tail beyond i hi (8 + j) (by omega), Nat.zero_add]

theorem Msg.WellFormed.length_ge {c : List Byte} (h : Msg.WellFormed c) :
    16 ≤ c.length ∧ Msg.declaredLen c ≤ c.length := by
  obtain ⟨h1, h2⟩ := h
  omega

theorem NLMSG_ALIGN_of_wellFormed {c : List Byte} (h : Msg.WellFormed c)
    (hc : c.length ≤ 65535) : NLMSG_ALIGN (Msg.declaredLen c) = c.length := by
  obtain ⟨h1, h2⟩ := h
  unfold NLMSG_ALIGN NLMSG_ALIGNTO
  have e : (Msg.declaredLen c + 4 - 1) % 4294967296 = Msg.declaredLen c + 3 := by omega
  rw [e, h2]

/-- The cursor after `i + 1` calls of `Next()` on a buffer that starts with the
well-formed messages `msgs`: it stands on the `i`-th message (or, for
`i = msgs.length`, right behind the last one) and `_dataLeft` is what remains
from there. -/
theorem Frames.NextN_on_messages (msgs : List (List Byte)) (tail : List Byte)
    (beyond : Nat → Byte) (hwf : ∀ c ∈ msgs, Msg.WellFormed c)
    (hsize : (msgs.flatten ++ tail).length ≤ 65535) (i : Nat) (hi : i ≤ msgs.length) :
    Frames.NextN (i + 1)
        (Frames.construct (Mem.ofBuffer (msgs.flatten ++ tail) beyond)
          (msgs.flatten ++ tail).length)
      = { data := Mem.ofBuffer (msgs.flatten ++ tail) beyond
          size := (msgs.flatten ++ tail).length
          header := some (msgs.take i).flatten.length
          dataLeft := (msgs.flatten ++ tail).length - (msgs.take i).flatten.length } := by
  induction i with
  | zero =>
    simp only [Frames.NextN, Frames.Next, Frames.NextT, Frames.advance, Frames.construct,
      List.take_zero, List.flatten_nil, List.length_nil, Nat.sub_zero]
    rw [Nat.mod_eq_of_lt (by omega)]
  | succ i ih =>
    have hi' : i < msgs.length := by omega
    rw [Frames.NextN_succ, ih (by omega)]
    have hw := hwf msgs[i] (List.getElem_mem hi')
    have hle := flatten_take_le msgs (i + 1)
    have hsucc := flatten_take_succ msgs i hi'
    have hlen : (msgs.flatten ++ tail).length = msgs.flatten.length + tail.length :=
      List.length_append _ _
    have hc : msgs[i].length ≤ 65535 := by omega
    have hal := NLMSG_ALIGN_of_wellFormed hw hc
    have hf := (msg_fields_at msgs tail beyond i hi' hw.length_ge.1).1
    simp only [Frames.Next, Frames.NextT, Frames.advance, NLMSG_NEXT, hf, hal]
    congr 1
    · rw [hsucc]
    · rw [hsucc]
      omega

theorem NLMSG_SPACE_zero : NLMSG_SPACE 0 = 16 := by decide

theorem NLMSG_HDRLEN_eq : NLMSG_HDRLEN = 16 := by decide

/-- The payload view of the `i`-th message, read in place. -/
theorem msg_payload_at (msgs : List (List Byte)) (tail : List Byte) (beyond : Nat → Byte)
    (i : Nat) (hi : i < msgs.length) (hw : Msg.WellFormed msgs[i]) :
    (Mem.ofBuffer (msgs.flatten ++ tail) beyond).slice
        ((msgs.take i).flatten.length + 16) (Msg.declaredLen msgs[i] - 16)
      = Msg.payload msgs[i] := by
  have hl := hw.length_ge
  apply List.ext_getElem
  · simp only [Mem.slice, Msg.payload, List.length_map, List.length_range, List.length_drop,
      List.length_take]
    omega
  · intro n h₁ h₂
    simp only [Mem.slice, List.length_map, List.length_range] at h₁
    simp only [Mem.slice, Msg.payload, List.getElem_map, List.getElem_range, List.getElem_drop,
      List.getElem_take]
    rw [Nat.add_assoc, ofBuffer_flatten_at msgs tail beyond i hi (16 + n) (by omega)]
    unfold Mem.ofBuffer
    rw [List.getD_eq_getElem _ _ (by omega)]

/-- On a buffer that starts with the well-formed messages `msgs`, call `i + 1`
of `Next()` returns `true` and leaves the cursor on a frame that exposes the
fields and the payload of the `i`-th message. -/
theorem Frames.exposes_message (msgs : List (List Byte)) (tail : List Byte)
    (beyond : Nat → Byte) (hwf : ∀ c ∈ msgs, Msg.WellFormed c)
    (hsize : (msgs.flatten ++ tail).length ≤ 65535) (i : Nat) (hi : i < msgs.length) :
    (Frames.NextN i (Frames.onBuffer (msgs.flatten ++ tail) beyond)).Next.1 = true ∧
    (Frames.NextN (i + 1) (Frames.onBuffer (msgs.flatten ++ tail) beyond)).Type_
      = some (Msg.type msgs[i]) ∧
    (Frames.NextN (i + 1) (Frames.onBuffer (msgs.flatten ++ tail) beyond)).Sequence
      = some (Msg.seq msgs[i]) ∧
    (Frames.NextN (i + 1) (Frames.onBuffer (msgs.flatten ++ tail) beyond)).Flags
      = some (Msg.flags msgs[i]) ∧
    (Frames.NextN (i + 1) (Frames.onBuffer (msgs.flatten ++ tail) beyond)).RawSize
      = some (Msg.declaredLen msgs[i]) ∧
    (Frames.NextN (i + 1) (Frames.onBuffer (msgs.flatten ++ tail) beyond)).PayloadSize
      = some (Msg.payload msgs[i]).length ∧
    (Frames.NextN (i + 1) (Frames.onBuffer (msgs.flatten ++ tail) beyond)).PayloadBytes
      = some (Msg.payload msgs[i]) := by
  have hw := hwf msgs[i] (List.getElem_mem hi)
  have hl := hw.length_ge
  have h16 : 16 ≤ Msg.declaredLen msgs[i] := hw.1
  obtain ⟨f1, f2, f3, f4⟩ := msg_fields_at msgs tail beyond i hi hl.1
  have hle := flatten_take_le msgs (i + 1)
  have hsucc := flatten_take_succ msgs i hi
  have hlen : (msgs.flatten ++ tail).length = msgs.flatten.length + tail.length :=
    List.length_append _ _
  have hp := msg_payload_at msgs tail beyond i hi hw
  have hplen : (Msg.payload msgs[i]).length = Msg.declaredLen msgs[i] - 16 := by
    simp only [Msg.payload, List.length_drop, List.length_take]
    omega
  have e2 : (Msg.declaredLen msgs[i] + 4294967296 - 16 % 4294967296) % 4294967296 % 65536
      = Msg.declaredLen msgs[i] - 16 := by omega
  unfold Frames.onBuffer
  rw [Frames.Next_fst, ← Frames.NextN_succ,
    Frames.NextN_on_messages msgs tail beyond hwf hsize i (Nat.le_of_lt hi)]
  refine ⟨?_, ?_, ?_, ?_, ?_, ?_, ?_⟩
  · simp only [Frames.IsValid, Frames.IsValidT, NLMSG_OK, sizeof_nlmsghdr, f1]
    rw [if_pos (by omega)]
    simp only [Bool.and_eq_true, decide_eq_true_eq]
    omega
  · simp only [Frames.Type_, Option.map_some', f2]
  · simp only [Frames.Sequence, Option.map_some', f4]
  · simp only [Frames.Flags, Option.map_some', f3]
  · simp only [Frames.RawSize, Option.map_some', f1]
    rw [Nat.mod_eq_of_lt (show Msg.declaredLen msgs[i] < 65536 by omega)]
  · simp only [Frames.PayloadSize, Option.map_some', NLMSG_PAYLOAD, NLMSG_SPACE_zero, f1, hplen]
    rw [e2]
  · simp only [Frames.PayloadBytes, Option.map_some', NLMSG_PAYLOAD, NLMSG_SPACE_zero, f1,
      NLMSG_DATA, NLMSG_HDRLEN_eq]
    rw [e2, hp]

/-! ### C1 -/

/-- C1. On a buffer of at most 65535 bytes that is the concatenation of `N`
netlink messages, each with a declared length of at least 16 and padded to a
multiple of 4 bytes, a fresh cursor returns `true` from the first `N` calls of
`Next()`; after call `i + 1` the frame exposes the type, sequence, flags, raw
size, payload size and payload bytes of the `i`-th message; call `N + 1` returns
`false` and `IsValid()` is `false` afterwards. -/
theorem Frames.yields_all_messages (msgs : List (List Byte)) (beyond : Nat → Byte)
    (hwf : ∀ c ∈ msgs, Msg.WellFormed c) (hsize : msgs.flatten.length ≤ 65535) :
    (∀ (i : Nat) (hi : i < msgs.length),
      (Frames.NextN i (Frames.onBuffer msgs.flatten beyond)).Next.1 = true ∧
      (Frames.NextN (i + 1) (Frames.onBuffer msgs.flatten beyond)).Type_
        = some (Msg.type msgs[i]) ∧
      (Frames.NextN (i + 1) (Frames.onBuffer msgs.flatten beyond)).Sequence
        = some (Msg.seq msgs[i]) ∧
      (Frames.NextN (i + 1) (Frames.onBuffer msgs.flatten beyond)).Flags
        = some (Msg.flags msgs[i]) ∧
      (Frames.NextN (i + 1) (Frames.onBuffer msgs.flatten beyond)).RawSize
        = some (Msg.declaredLen msgs[i]) ∧
      (Frames.NextN (i + 1) (Frames.onBuffer msgs.flatten beyond)).PayloadSize
        = some (Msg.payload msgs[i]).length ∧
      (Frames.NextN (i + 1) (Frames.onBuffer msgs.flatten beyond)).PayloadBytes
        = some (Msg.payload msgs[i])) ∧
    (Frames.NextN msgs.length (Frames.onBuffer msgs.flatten beyond)).Next.1 = false ∧
    (Frames.NextN (msgs.length + 1) (Frames.onBuffer msgs.flatten beyond)).IsValid = false := by
  have e : msgs.flatten = msgs.flatten ++ [] := (List.append_nil _).symm
  have hsize' : (msgs.flatten ++ ([] : List Byte)).length ≤ 65535 := by
    rw [← e]
    exact hsize
  have hlast : (Frames.NextN (msgs.length + 1) (Frames.onBuffer msgs.flatten beyond)).IsValid
      = false := by
    have key := Frames.NextN_on_messages msgs [] beyond hwf hsize' msgs.length (Nat.le_refl _)
    rw [← e] at key
    unfold Frames.onBuffer
    rw [key, List.take_length]
    simp [Frames.IsValid, Frames.IsValidT, NLMSG_OK, sizeof_nlmsghdr]
  refine ⟨?_, ?_, hlast⟩
  · intro i hi
    have h := Frames.exposes_message msgs [] beyond hwf hsize' i hi
    rw [← e] at h
    exact h
  · rw [Frames.Next_fst, ← Frames.NextN_succ]
    exact hlast

/-- C1, at a concrete buffer: two messages (declared lengths 17 and 16, the
first one padded to 20 bytes) are yielded in order, the third call fails. -/
theorem Frames.yields_all_messages_witness :
    (∀ c ∈ [exampleMsgA, exampleMsgB], Msg.WellFormed c) ∧
    [exampleMsgA, exampleMsgB].flatten.length ≤ 65535 ∧
    (Frames.onBuffer [exampleMsgA, exampleMsgB].flatten fun _ => 0).Next.1 = true ∧
    (Frames.NextN 1 (Frames.onBuffer [exampleMsgA, exampleMsgB].flatten fun _ => 0)).Next.1
      = true ∧
    (Frames.NextN 2 (Frames.onBuffer [exampleMsgA, exampleMsgB].flatten fun _ => 0)).Sequence
      = some 8 ∧
    (Frames.NextN 1 (Frames.onBuffer [exampleMsgA, exampleMsgB].flatten fun _ => 0)).PayloadBytes
      = some [0xAB] ∧
    (Frames.NextN 2 (Frames.onBuffer [exampleMsgA, exampleMsgB].flatten fun _ => 0)).Next.1
      = false :=
  have h := Frames.yields_all_messages [exampleMsgA, exampleMsgB] (fun _ => 0)
    (by decide) (by decide)
  ⟨by decide, by decide, (h.1 0 (by decide)).1, (h.1 1 (by decide)).1,
    (h.1 1 (by decide)).2.2.1, (h.1 0 (by decide)).2.2.2.2.2.2, h.2.1⟩

/-! ### C2 -/

/-- C2. On a buffer made of `K - 1` well-formed, padded messages followed by a
header whose declared length exceeds the bytes that remain, `Next()` returns
`true` for the first `K - 1` calls, each leaving the cursor on the corresponding
message, and call `K` returns `false` with `IsValid()` false. -/
theorem Frames.stops_at_truncated_message (msgs : List (List Byte)) (tail : List Byte)
    (beyond : Nat → Byte) (hwf : ∀ c ∈ msgs, Msg.WellFormed c)
    (hsize : (msgs.flatten ++ tail).length ≤ 65535)
    (hhdr : 16 ≤ tail.length) (hdecl : tail.length < Msg.declaredLen tail) :
    (∀ (i : Nat) (hi : i < msgs.length),
      (Frames.NextN i (Frames.onBuffer (msgs.flatten ++ tail) beyond)).Next.1 = true ∧
      (Frames.NextN (i + 1) (Frames.onBuffer (msgs.flatten ++ tail) beyond)).RawData
        = some (msgs.take i).flatten.length ∧
      (Frames.NextN (i + 1) (Frames.onBuffer (msgs.flatten ++ tail) beyond)).Type_
        = some (Msg.type msgs[i]) ∧
      (Frames.NextN (i + 1) (Frames.onBuffer (msgs.flatten ++ tail) beyond)).Sequence
        = some (Msg.seq msgs[i]) ∧
      (Frames.NextN (i + 1) (Frames.onBuffer (msgs.flatten ++ tail) beyond)).Flags
        = some (Msg.flags msgs[i]) ∧
      (Frames.NextN (i + 1) (Frames.onBuffer (msgs.flatten ++ tail) beyond)).RawSize
        = some (Msg.declaredLen msgs[i]) ∧
      (Frames.NextN (i + 1) (Frames.onBuffer (msgs.flatten ++ tail) beyond)).PayloadBytes
        = some (Msg.payload msgs[i])) ∧
    (Frames.NextN msgs.length (Frames.onBuffer (msgs.flatten ++ tail) beyond)).Next.1 = false ∧
    (Frames.NextN (msgs.length + 1) (Frames.onBuffer (msgs.flatten ++ tail) beyond)).IsValid
      = false := by
  have hlen : (msgs.flatten ++ tail).length = msgs.flatten.length + tail.length :=
    List.length_append _ _
  have hlast : (Frames.NextN (msgs.length + 1)
      (Frames.onBuffer (msgs.flatten ++ tail) beyond)).IsValid = false := by
    unfold Frames.onBuffer
    rw [Frames.NextN_on_messages msgs tail beyond hwf hsize msgs.length (Nat.le_refl _),
      List.take_length]
    have hd : nlmsg_len (Mem.ofBuffer (msgs.flatten ++ tail) beyond) msgs.flatten.length
        = Msg.declaredLen tail := by
      apply rd32_congr
      intro j hj
      rw [ofBuffer_tail_at msgs.flatten tail beyond j (by omega), Nat.zero_add]
    simp only [Frames.IsValid, Frames.IsValidT, NLMSG_OK, sizeof_nlmsghdr, hd]
    rw [if_pos (by omega)]
    simp only [Bool.and_eq_false_imp, decide_eq_true_eq, decide_eq_false_iff_not]
    omega
  refine ⟨?_, ?_, hlast⟩
  · intro i hi
    obtain ⟨h1, h2, h3, h4, h5, _, h7⟩ := Frames.exposes_message msgs tail beyond hwf hsize i hi
    refine ⟨h1, ?_, h2, h3, h4, h5, h7⟩
    unfold Frames.onBuffer
    rw [Frames.NextN_on_messages msgs tail beyond hwf hsize i (Nat.le_of_lt hi)]
    rfl
  · rw [Frames.Next_fst, ← Frames.NextN_succ]
    exact hlast

/-- C2, at a concrete buffer: one well-formed message followed by a header that
declares 64 bytes with 16 left; the first call succeeds, the second fails. -/
theorem Frames.stops_at_truncated_message_witness :
    (∀ c ∈ [exampleMsgA], Msg.WellFormed c) ∧
    ([exampleMsgA].flatten ++ exampleTruncated).length ≤ 65535 ∧
    16 ≤ exampleTruncated.length ∧
    exampleTruncated.length < Msg.declaredLen exampleTruncated ∧
    (Frames.onBuffer ([exampleMsgA].flatten ++ exampleTruncated) fun _ => 0).Next.1 = true ∧
    (Frames.NextN 1 (Frames.onBuffer ([exampleMsgA].flatten ++ exampleTruncated)
      fun _ => 0)).Next.1 = false ∧
    (Frames.NextN 2 (Frames.onBuffer ([exampleMsgA].flatten ++ exampleTruncated)
      fun _ => 0)).IsValid = false :=
  have h := Frames.stops_at_truncated_message [exampleMsgA] exampleTruncated (fun _ => 0)
    (by decide) (by decide) (by decide) (by decide)
  ⟨by decide, by decide, by decide, by decide, (h.1 0 (by decide)).1, h.2.1, h.2.2⟩

/-! ### C3 -/

/-- C3, evaluated at a 17-byte buffer that holds one message of declared length
17: the first `Next()` returns `true`; the second one lowers the 16-bit
`_dataLeft` from 17 by the aligned length 20 to 65533, moves the header to
offset 20 and, because 65533 is at least 16, loads `nlmsg_len` from the offsets
20..23, which lie behind the 17 bytes received. -/
theorem Frames.reads_behind_unpadded_message (beyond : Nat → Byte) :
    (Frames.onBuffer exampleUnpadded beyond).Next.1 = true ∧
    (Frames.NextN 2 (Frames.onBuffer exampleUnpadded beyond)).header = some 20 ∧
    (Frames.NextN 2 (Frames.onBuffer exampleUnpadded beyond)).dataLeft = 65533 ∧
    Frames.walkReads 2 (Frames.onBuffer exampleUnpadded beyond) = [(0, 4), (0, 4), (20, 4)] ∧
    ¬ ∀ a ∈ Frames.walkReads 2 (Frames.onBuffer exampleUnpadded beyond),
        a.within exampleUnpadded.length := by
  have hlen : nlmsg_len (Mem.ofBuffer exampleUnpadded beyond) 0 = 17 := rfl
  have hal : NLMSG_ALIGN 17 = 20 := by decide
  have hsz : exampleUnpadded.length = 17 := rfl
  have h : Frames.walkReads 2 (Frames.onBuffer exampleUnpadded beyond)
      = [(0, 4), (0, 4), (20, 4)] := by
    simp only [Frames.walkReads, Frames.onBuffer, Frames.NextT, Frames.advance,
      Frames.construct, NLMSG_NEXT, Frames.IsValidT, NLMSG_OK, hlen, hal, hsz, sizeof_nlmsghdr,
      ite_self]
    rfl
  refine ⟨rfl, ?_, ?_, h, ?_⟩
  · simp only [Frames.NextN, Frames.onBuffer, Frames.Next, Frames.NextT, Frames.advance,
      Frames.construct, NLMSG_NEXT, hlen, hal]
  · simp only [Frames.NextN, Frames.onBuffer, Frames.Next, Frames.NextT, Frames.advance,
      Frames.construct, NLMSG_NEXT, hlen, hal, hsz]
  · rw [h]
    decide

/-! ### C4 -/

/-- What `Next()` on a fresh cursor returns for a buffer whose first frame is
valid: `true`, with the header at offset 0. -/
theorem FirstFrame.next {b : Mem × Nat} (h : FirstFrame b) :
    (Frames.construct b.1 b.2).Next
      = (true, { data := b.1, size := b.2, header := some 0, dataLeft := b.2 }) := by
  obtain ⟨h1, h2, h3, h4⟩ := h
  have e : b.2 % 65536 = b.2 := Nat.mod_eq_of_lt h1
  simp only [Frames.Next, Frames.NextT, Frames.advance, Frames.construct, Frames.IsValidT,
    NLMSG_OK, sizeof_nlmsghdr, e]
  rw [if_pos h2]
  simp only [decide_eq_true h3, decide_eq_true h4, Bool.and_self]

/-- The effect of `Message::Deserialize` on an entry with an inbound target, for
a buffer whose first frame is valid. -/
theorem Message.Deserialize_firstFrame {ι : Type} (des : ι → Mem → Nat → Nat × ι)
    (m : Message ι) (t : ι) (hin : m.inbound = some t) {b : Mem × Nat} (h : FirstFrame b) :
    Message.Deserialize des m b.1 b.2
      = some ((des t (b.1.shift 0) (nlmsg_len b.1 0 % 65536)).1,
          if ((if nlmsg_type b.1 0 = NLMSG_DONE then false
                else decide (nlmsg_flags b.1 0 &&& NLM_F_MULTI ≠ 0)) = false
              ∨ nlmsg_type b.1 0 = NLMSG_ERROR) then
            { _signaled := true
              _state := if nlmsg_type b.1 0 = NLMSG_ERROR then Message.state.FAILURE
                        else Message.state.PROCESSED
              inbound := some (des t (b.1.shift 0) (nlmsg_len b.1 0 % 65536)).2 }
          else
            { _signaled := m._signaled
              _state := m._state
              inbound := some (des t (b.1.shift 0) (nlmsg_len b.1 0 % 65536)).2 }) := by
  simp only [Message.Deserialize, h.next, Frames.Type_, Frames.Flags, Frames.RawData,
    Frames.RawSize, Option.map_some', hin, if_true, Option.bind_eq_bind, Option.some_bind,
    Option.pure_def]
  split_ifs <;> rfl

theorem Message.needResponse_iff {ι : Type} (m : Message ι) :
    m.NeedResponse = true ↔ ∃ t, m.inbound = some t := by
  unfold Message.NeedResponse
  exact Option.isSome_iff_exists

theorem Message.Deserialize_inProgress {ι : Type} (des : ι → Mem → Nat → Nat × ι)
    (m : Message ι) (hin : m.NeedResponse = true) {b : Mem × Nat}
    (h : FirstFrame.InProgress b) :
    ∃ r, Message.Deserialize des m b.1 b.2 = some r ∧ r.2.status = m.status ∧
      r.2.NeedResponse = true := by
  obtain ⟨t, ht⟩ := (Message.needResponse_iff m).1 hin
  obtain ⟨hf, herr, hdone, hflag⟩ := h
  refine ⟨_, Message.Deserialize_firstFrame des m t ht hf, ?_, ?_⟩
  · simp only [if_neg hdone, decide_eq_true hflag, Bool.true_eq_false, false_or, if_neg herr,
      Message.status]
  · simp only [if_neg hdone, decide_eq_true hflag, Bool.true_eq_false, false_or, if_neg herr,
      Message.NeedResponse, Option.isSome_some]

theorem Message.Deserialize_terminating {ι : Type} (des : ι → Mem → Nat → Nat × ι)
    (m : Message ι) (hin : m.NeedResponse = true) {b : Mem × Nat}
    (h : FirstFrame.Terminating b) :
    (Message.Deserialize des m b.1 b.2).map (fun r => r.2.status)
      = some (Message.state.PROCESSED, true) := by
  obtain ⟨t, ht⟩ := (Message.needResponse_iff m).1 hin
  obtain ⟨hf, herr, hterm⟩ := h
  rw [Message.Deserialize_firstFrame des m t ht hf]
  have hc : (if nlmsg_type b.1 0 = NLMSG_DONE then false
      else decide (nlmsg_flags b.1 0 &&& NLM_F_MULTI ≠ 0)) = false := by
    rcases hterm with h0 | hd
    · split
      · rfl
      · simp only [h0, ne_eq, not_true_eq_false, decide_False]
    · rw [if_pos hd]
  simp only [hc, true_or, if_true, if_neg herr, Option.map_some', Message.status]

theorem Message.Deserialize_error {ι : Type} (des : ι → Mem → Nat → Nat × ι)
    (m : Message ι) (hin : m.NeedResponse = true) {b : Mem × Nat}
    (h : FirstFrame.Error b) :
    (Message.Deserialize des m b.1 b.2).map (fun r => r.2.status)
      = some (Message.state.FAILURE, true) := by
  obtain ⟨t, ht⟩ := (Message.needResponse_iff m).1 hin
  obtain ⟨hf, herr⟩ := h
  rw [Message.Deserialize_firstFrame des m t ht hf]
  simp only [herr, or_true, if_true, Option.map_some', Message.status]

theorem Message.feed_inProgress {ι : Type} (des : ι → Mem → Nat → Nat × ι)
    (multis : List (Mem × Nat)) (hmulti : ∀ b ∈ multis, FirstFrame.InProgress b)
    (m : Message ι) (hin : m.NeedResponse = true) :
    ∃ m₁, Message.feed des m multis = some m₁ ∧ m₁.status = m.status ∧
      m₁.NeedResponse = true := by
  induction multis generalizing m with
  | nil => exact ⟨m, rfl, rfl, hin⟩
  | cons b bs ih =>
    obtain ⟨r, hr, hs, hn⟩ :=
      Message.Deserialize_inProgress des m hin (hmulti b (List.mem_cons_self _ _))
    obtain ⟨m₁, h1, h2, h3⟩ := ih (fun c hc => hmulti c (List.mem_cons_of_mem _ hc)) r.2 hn
    refine ⟨m₁, ?_, h2.trans hs, h3⟩
    simp only [Message.feed, hr, h1]

theorem Message.feed_append_one {ι : Type} (des : ι → Mem → Nat → Nat × ι)
    (bs : List (Mem × Nat)) (b : Mem × Nat) (m : Message ι) :
    Message.feed des m (bs ++ [b])
      = (Message.feed des m bs).bind fun m₁ =>
          (Message.Deserialize des m₁ b.1 b.2).map fun r => r.2 := by
  induction bs generalizing m with
  | nil =>
    simp only [List.nil_append, Message.feed, Option.some_bind]
    cases Message.Deserialize des m b.1 b.2 <;> rfl
  | cons c cs ih =>
    simp only [List.cons_append, Message.feed]
    cases Message.Deserialize des m c.1 c.2 with
    | none => rfl
    | some r => exact ih r.2

/-- C4. For a pending entry in state `SEND` with an inbound target and an unset
completion signal: after any number of buffers whose first frame is a
multi-part frame in progress (not error, not done, multi flag set) the state is
still `SEND` and the signal still unset; a following buffer whose first frame is
not of the error type and has the multi flag cleared or the done type gives
`PROCESSED` with the signal set; a following buffer whose first frame is of the
error type gives `FAILURE` with the signal set; and an error frame does so on an
entry in any state, whatever its flags. -/
theorem Message.multipart_handling {ι : Type} (des : ι → Mem → Nat → Nat × ι)
    (m : Message ι) (hstate : m._state = Message.state.SEND) (hsig : m._signaled = false)
    (hin : m.NeedResponse = true)
    (multis : List (Mem × Nat)) (hmulti : ∀ b ∈ multis, FirstFrame.InProgress b) :
    (Message.feed des m multis).map Message.status = some (Message.state.SEND, false) ∧
    (∀ b, FirstFrame.Terminating b →
      (Message.feed des m (multis ++ [b])).map Message.status
        = some (Message.state.PROCESSED, true)) ∧
    (∀ b, FirstFrame.Error b →
      (Message.feed des m (multis ++ [b])).map Message.status
        = some (Message.state.FAILURE, true)) ∧
    (∀ (m₀ : Message ι) (b : Mem × Nat), m₀.NeedResponse = true → FirstFrame.Error b →
      (Message.Deserialize des m₀ b.1 b.2).map (fun r => r.2.status)
        = some (Message.state.FAILURE, true)) := by
  obtain ⟨m₁, h1, h2, h3⟩ := Message.feed_inProgress des multis hmulti m hin
  have hm : m.status = (Message.state.SEND, false) := by
    simp only [Message.status, hstate, hsig]
  refine ⟨?_, ?_, ?_, ?_⟩
  · rw [h1, Option.map_some', h2, hm]
  · intro b hb
    rw [Message.feed_append_one, h1, Option.some_bind, Option.map_map]
    exact Message.Deserialize_terminating des m₁ h3 hb
  · intro b hb
    rw [Message.feed_append_one, h1, Option.some_bind, Option.map_map]
    exact Message.Deserialize_error des m₁ h3 hb
  · intro m₀ b h0 hb
    exact Message.Deserialize_error des m₀ h0 hb

/-- C4, at concrete buffers: two multi-part frames (type 16, flags 2) keep the
entry in `SEND`; a third frame with the multi flag cleared, or of the done
type with the flag still set, completes it; an error frame fails it. -/
theorem Message.multipart_handling_witness :
    (∀ b ∈ [exampleFrame 16 2, exampleFrame 16 2], FirstFrame.InProgress b) ∧
    FirstFrame.Terminating (exampleFrame 16 0) ∧
    FirstFrame.Terminating (exampleFrame 3 2) ∧
    FirstFrame.Error (exampleFrame 2 2) ∧
    (Message.feed (fun (t : Unit) _ n => (n, t))
        { _signaled := false, _state := Message.state.SEND, inbound := some () }
        [exampleFrame 16 2, exampleFrame 16 2]).map Message.status
      = some (Message.state.SEND, false) ∧
    (Message.feed (fun (t : Unit) _ n => (n, t))
        { _signaled := false, _state := Message.state.SEND, inbound := some () }
        ([exampleFrame 16 2, exampleFrame 16 2] ++ [exampleFrame 16 0])).map Message.status
      = some (Message.state.PROCESSED, true) ∧
    (Message.feed (fun (t : Unit) _ n => (n, t))
        { _signaled := false, _state := Message.state.SEND, inbound := some () }
        ([exampleFrame 16 2, exampleFrame 16 2] ++ [exampleFrame 3 2])).map Message.status
      = some (Message.state.PROCESSED, true) ∧
    (Message.feed (fun (t : Unit) _ n => (n, t))
        { _signaled := false, _state := Message.state.SEND, inbound := some () }
        ([exampleFrame 16 2, exampleFrame 16 2] ++ [exampleFrame 2 2])).map Message.status
      = some (Message.state.FAILURE, true) :=
  have h := Message.multipart_handling (fun (t : Unit) _ n => (n, t))
    { _signaled := false, _state := Message.state.SEND, inbound := some () } rfl rfl rfl
    [exampleFrame 16 2, exampleFrame 16 2] (by decide)
  ⟨by decide, by decide, by decide, by decide, h.1, h.2.1 _ (by decide), h.2.1 _ (by decide),
    h.2.2.1 _ (by decide)⟩

/-! ### The connector codec -/

theorem FrameAt.fields {stream : Mem} {p : Nat} {f : List Byte} (h : FrameAt stream p f)
    (hlen : 20 ≤ f.length) :
    cn_idx stream p = Cn.idx f ∧ cn_val stream p = Cn.val f ∧ cn_ack stream p = Cn.ack f ∧
      cn_len stream p = Cn.len f := by
  refine ⟨?_, ?_, ?_, ?_⟩
  · apply rd32_congr
    intro j hj
    rw [h j (by omega), Nat.zero_add]
  · apply rd32_congr
    intro j hj
    rw [Nat.add_assoc, h (4 + j) (by omega), Nat.zero_add]
  · apply rd32_congr
    intro j hj
    rw [Nat.add_assoc, h (12 + j) (by omega), Nat.zero_add]
  · apply rd16_congr
    intro j hj
    rw [Nat.add_assoc, h (16 + j) (by omega), Nat.zero_add]

theorem FrameAt.payload {stream : Mem} {p : Nat} {f : List Byte} (h : FrameAt stream p f)
    (hc : Cn.Contained f) : stream.slice (cn_data p) (Cn.len f) = Cn.payload f := by
  unfold Cn.Contained at hc
  apply List.ext_getElem
  · simp only [Mem.slice, Cn.payload, List.length_map, List.length_range, List.length_drop]
    omega
  · intro n h₁ h₂
    simp only [Mem.slice, List.length_map, List.length_range] at h₁
    simp only [Mem.slice, Cn.payload, cn_data, sizeof_cn_msg, List.getElem_map,
      List.getElem_range, List.getElem_drop]
    rw [Nat.add_assoc, h (20 + n) (by omega)]
    unfold Mem.ofBuffer
    rw [List.getD_eq_getElem _ _ (by omega)]

/-- One turn of the loop over a sub-frame that does not carry the identity
`(IDX, VAL)`: the delegate is not invoked, the object is untouched, and `size`
and `internal` move behind the sub-frame. -/
theorem ConnectorType.Read.loop_skip {σ : Type} (IDX VAL : Nat)
    (Message : σ → Mem → Nat → Nat × σ) (stream : Mem) (length fuel : Nat)
    (s : ConnectorType.ReadState σ) (f : List Byte)
    (hs : s.completed = false) (hint : s.internal = s.size)
    (hat : FrameAt stream s.size f) (hc : Cn.Contained f) (hm : ¬ Cn.Matches IDX VAL f)
    (hfit : s.size + f.length ≤ length) (hlen : length ≤ 65535) :
    ∃ s₁, ConnectorType.Read.loop IDX VAL Message stream length (fuel + 1) s
        = ConnectorType.Read.loop IDX VAL Message stream length fuel s₁ ∧
      s₁.completed = false ∧ s₁.internal = s.size + f.length ∧ s₁.size = s.size + f.length ∧
      s₁.self = s.self ∧ s₁.calls = s.calls := by
  have hc' : f.length = 20 + Cn.len f := hc
  obtain ⟨e1, e2, _, e4⟩ := hat.fields (by omega)
  have hmod : (s.size + (20 + Cn.len f)) % 65536 = s.size + f.length := by omega
  rw [ConnectorType.Read.loop]
  simp only [hs, if_true, hint, e1, e2, e4, sizeof_cn_msg]
  rw [if_pos (by omega)]
  by_cases h0 : 0 < Cn.len f
  · by_cases h1 : Cn.idx f = IDX
    · have h2 : ¬ Cn.val f = VAL := fun h2 => hm ⟨h1, h2⟩
      simp only [h0, h1, h2, if_true, if_false, hmod]
      exact ⟨_, rfl, rfl, rfl, rfl, rfl, rfl⟩
    · simp only [h0, h1, if_true, if_false, hmod]
      exact ⟨_, rfl, rfl, rfl, rfl, rfl, rfl⟩
  · simp only [h0, if_true, if_false, hs, hmod]
    exact ⟨_, rfl, rfl, rfl, rfl, rfl, rfl⟩

/-- The turns of the loop over a sub-frame that carries the identity
`(IDX, VAL)`, has a non-empty payload and ends the buffer: the delegate is
invoked once with the payload, `_ack` is taken from the sub-frame, and the loop
ends with `completed` set exactly when the delegate returned less than the
declared length. -/
theorem ConnectorType.Read.loop_match {σ : Type} (IDX VAL : Nat)
    (Message : σ → Mem → Nat → Nat × σ) (stream : Mem) (length fuel : Nat)
    (s : ConnectorType.ReadState σ) (f : List Byte)
    (hs : s.completed = false) (hint : s.internal = s.size)
    (hat : FrameAt stream s.size f) (hc : Cn.Contained f) (hm : Cn.Matches IDX VAL f)
    (hpos : 0 < Cn.len f) (hfit : s.size + f.length = length) (hlen : length ≤ 65535) :
    ∃ s₁, ConnectorType.Read.loop IDX VAL Message stream length (fuel + 2) s = some s₁ ∧
      s₁.completed
        = decide ((Message s.self.user (stream.shift (cn_data s.size)) (Cn.len f)).1 < Cn.len f) ∧
      s₁.self = { _ack := Cn.ack f
                  user := (Message s.self.user (stream.shift (cn_data s.size)) (Cn.len f)).2 } ∧
      s₁.calls = s.calls ++ [(Cn.payload f, Cn.len f)] := by
  have hc' : f.length = 20 + Cn.len f := hc
  obtain ⟨e1, e2, e3, e4⟩ := hat.fields (by omega)
  have hp := hat.payload hc
  have hmod : (s.size + (20 + Cn.len f)) % 65536 = length := by omega
  rw [ConnectorType.Read.loop]
  simp only [hs, if_true, hint, e1, e2, e3, e4, hm.1, hm.2, hpos, hp, sizeof_cn_msg]
  rw [if_pos (by omega)]
  by_cases hr : (Message s.self.user (stream.shift (cn_data s.size)) (Cn.len f)).1 < Cn.len f
  · simp only [hr, decide_True, Bool.true_eq_false, if_false]
    rw [ConnectorType.Read.loop]
    simp only [Bool.true_eq_false, if_false]
    exact ⟨_, rfl, rfl, rfl, rfl⟩
  · simp only [hr, decide_False, if_true, hmod]
    rw [ConnectorType.Read.loop]
    simp only [if_true, sizeof_cn_msg]
    rw [if_neg (by omega)]
    exact ⟨_, rfl, rfl, rfl, rfl⟩

theorem take_flatten_ge {α : Type} (l : List (List α)) (h : ∀ f ∈ l, 20 ≤ f.length) (k : Nat)
    (hk : k ≤ l.length) : 20 * k ≤ (l.take k).flatten.length := by
  induction k with
  | zero => simp
  | succ k ih =>
    have hk' : k < l.length := by omega
    have h1 := flatten_take_succ l k hk'
    have h2 := h l[k] (List.getElem_mem hk')
    have h3 := ih (by omega)
    omega

/-- The loop over the leading sub-frames that do not carry the identity: after
`k` turns nothing has been handed to the delegate and the cursor stands behind
the `k`-th sub-frame. -/
theorem ConnectorType.Read.loop_skip_all {σ : Type} (IDX VAL : Nat)
    (Message : σ → Mem → Nat → Nat × σ) (others : List (List Byte)) (last : List Byte)
    (beyond : Nat → Byte) (c : ConnectorType σ)
    (hothers : ∀ f ∈ others, Cn.Contained f ∧ ¬ Cn.Matches IDX VAL f)
    (hlen : (others.flatten ++ last).length ≤ 65535) (fuel k : Nat) (hk : k ≤ others.length) :
    ∃ s₁, ConnectorType.Read.loop IDX VAL Message (Mem.ofBuffer (others.flatten ++ last) beyond)
          (others.flatten ++ last).length (fuel + k)
          { internal := 0, size := 0, completed := false, self := c, calls := [], reads := [],
            iterations := 0 }
        = ConnectorType.Read.loop IDX VAL Message (Mem.ofBuffer (others.flatten ++ last) beyond)
          (others.flatten ++ last).length fuel s₁ ∧
      s₁.completed = false ∧ s₁.internal = (others.take k).flatten.length ∧
      s₁.size = (others.take k).flatten.length ∧ s₁.self = c ∧ s₁.calls = [] := by
  induction k generalizing fuel with
  | zero => exact ⟨_, rfl, rfl, rfl, rfl, rfl, rfl⟩
  | succ k ih =>
    have hk' : k < others.length := by omega
    obtain ⟨s₁, h1, h2, h3, h4, h5, h6⟩ := ih (fuel + 1) (by omega)
    have hsucc := flatten_take_succ others k hk'
    have hle := flatten_take_le others (k + 1)
    have hl : (others.flatten ++ last).length = others.flatten.length + last.length :=
      List.length_append _ _
    have hf := hothers others[k] (List.getElem_mem hk')
    have hat : FrameAt (Mem.ofBuffer (others.flatten ++ last) beyond) s₁.size others[k] := by
      intro j hj
      rw [h4]
      exact ofBuffer_flatten_at others last beyond k hk' j hj
    obtain ⟨s₂, g1, g2, g3, g4, g5, g6⟩ :=
      ConnectorType.Read.loop_skip IDX VAL Message _ _ fuel s₁ others[k] h2 (h3.trans h4.symm)
        hat hf.1 hf.2 (by omega) hlen
    refine ⟨s₂, ?_, g2, ?_, ?_, g5.trans h5, g6.trans h6⟩
    · rw [← g1, ← h1]
      congr 1
      omega
    · rw [g3, h4, hsucc]
    · rw [g4, h4, hsucc]

/-- The method `Read` on a buffer made of sub-frames that do not carry the
identity, followed by one last sub-frame that does and has a non-empty payload:
the delegate is invoked once, on the payload of the last sub-frame; `_ack` is
taken from it; and the returned value is `length` when the delegate returned
less than the declared payload length, and 0 otherwise. -/
theorem ConnectorType.Read_on_frames {σ : Type} (IDX VAL : Nat)
    (Message : σ → Mem → Nat → Nat × σ) (others : List (List Byte)) (last : List Byte)
    (beyond : Nat → Byte) (c : ConnectorType σ)
    (hothers : ∀ f ∈ others, Cn.Contained f ∧ ¬ Cn.Matches IDX VAL f)
    (hlast : Cn.Contained last) (hmatch : Cn.Matches IDX VAL last) (hpos : 0 < Cn.len last)
    (hlen : (others.flatten ++ last).length ≤ 65535) :
    ∃ r, ConnectorType.Read IDX VAL Message c (Mem.ofBuffer (others.flatten ++ last) beyond)
          (others.flatten ++ last).length = some r ∧
      r.result
        = (if (Message c.user ((Mem.ofBuffer (others.flatten ++ last) beyond).shift
                (cn_data others.flatten.length)) (Cn.len last)).1 < Cn.len last
           then (others.flatten ++ last).length else 0) ∧
      r.self.Acknowledge = Cn.ack last ∧
      r.calls = [(Cn.payload last, Cn.len last)] := by
  have hl : (others.flatten ++ last).length = others.flatten.length + last.length :=
    List.length_append _ _
  have hlast' : last.length = 20 + Cn.len last := hlast
  have h20 : ∀ f ∈ others, 20 ≤ f.length := by
    intro f hf
    have := (hothers f hf).1
    unfold Cn.Contained at this
    omega
  have hcount := take_flatten_ge others h20 others.length (Nat.le_refl _)
  rw [List.take_length] at hcount
  have hfuel : (others.flatten ++ last).length % 65536 + 1
      = ((others.flatten ++ last).length - others.length - 1 + 2) + others.length := by
    omega
  obtain ⟨s₁, h1, h2, h3, h4, h5, h6⟩ :=
    ConnectorType.Read.loop_skip_all IDX VAL Message others last beyond c hothers hlen
      ((others.flatten ++ last).length - others.length - 1 + 2) others.length (Nat.le_refl _)
  rw [List.take_length] at h3 h4
  have hat : FrameAt (Mem.ofBuffer (others.flatten ++ last) beyond) s₁.size last := by
    intro j hj
    rw [h4]
    exact ofBuffer_tail_at others.flatten last beyond j hj
  obtain ⟨s₂, g1, g2, g3, g4⟩ :=
    ConnectorType.Read.loop_match IDX VAL Message _ _
      ((others.flatten ++ last).length - others.length - 1) s₁ last h2 (h3.trans h4.symm) hat
      hlast hmatch hpos (by omega) hlen
  unfold ConnectorType.Read
  rw [Nat.mod_eq_of_lt (show (others.flatten ++ last).length < 65536 by omega)] at hfuel ⊢
  rw [hfuel, h1, g1, Option.map_some']
  refine ⟨_, rfl, ?_, ?_, ?_⟩
  · simp only [g2, h4, h5, decide_eq_false_iff_not]
    split_ifs <;> rfl
  · simp only [ConnectorType.Acknowledge, g3]
  · simp only [g4, h6, List.nil_append]

/-! ### C5 -/

/-- C5, evaluated at a 23-byte stream that holds exactly one sub-frame with the
identity (4, 1), ack 7 and three payload bytes, for `ConnectorType<4, 1>`: with
a delegate that accepts the whole payload (returns 3, the declared length)
`Read` returns 0, and with a delegate that rejects it (returns 0) `Read`
returns the length 23, whatever lies behind the buffer. -/
theorem ConnectorType.Read_result_reversed (beyond : Nat → Byte) (c : ConnectorType Unit) :
    (ConnectorType.Read 4 1 exampleAccept c (Mem.ofBuffer exampleCnMatch beyond) 23).map
        (fun r => (r.result, r.calls)) = some (0, [([0xAA, 0xBB, 0xCC], 3)]) ∧
    (ConnectorType.Read 4 1 exampleReject c (Mem.ofBuffer exampleCnMatch beyond) 23).map
        (fun r => (r.result, r.calls)) = some (23, [([0xAA, 0xBB, 0xCC], 3)]) := by
  have hno : ∀ f ∈ ([] : List (List Byte)), Cn.Contained f ∧ ¬ Cn.Matches 4 1 f := by
    intro f hf
    cases hf
  constructor
  · obtain ⟨r, h1, h2, _, h4⟩ :=
      ConnectorType.Read_on_frames 4 1 exampleAccept [] exampleCnMatch beyond c hno
        (by decide) (by decide) (by decide) (by decide)
    have e : ConnectorType.Read 4 1 exampleAccept c (Mem.ofBuffer exampleCnMatch beyond) 23
        = some r := h1
    rw [e, Option.map_some', h2, h4]
    rfl
  · obtain ⟨r, h1, h2, _, h4⟩ :=
      ConnectorType.Read_on_frames 4 1 exampleReject [] exampleCnMatch beyond c hno
        (by decide) (by decide) (by decide) (by decide)
    have e : ConnectorType.Read 4 1 exampleReject c (Mem.ofBuffer exampleCnMatch beyond) 23
        = some r := h1
    rw [e, Option.map_some', h2, h4]
    rfl

/-! ### C6 -/

theorem rd32_leBytes (m : Mem) (p v : Nat) (hv : v < 4294967296)
    (h0 : m p = leByte v 0) (h1 : m (p + 1) = leByte v 1) (h2 : m (p + 2) = leByte v 2)
    (h3 : m (p + 3) = leByte v 3) : rd32 m p = v := by
  simp only [rd32, h0, h1, h2, h3, leByte]
  norm_num
  omega

theorem rd16_leBytes (m : Mem) (p v : Nat) (hv : v < 65536)
    (h0 : m p = leByte v 0) (h1 : m (p + 1) = leByte v 1) : rd16 m p = v := by
  simp only [rd16, h0, h1, leByte]
  norm_num
  omega

theorem ofBuffer_slice (m : Mem) (n : Nat) : Mem.ofBuffer (m.slice 0 n) m = m := by
  funext j
  unfold Mem.ofBuffer Mem.slice
  by_cases hj : j < n
  · rw [List.getD_eq_getElem _ _ (by simpa using hj)]
    simp
  · rw [List.getD_eq_default _ _ (by simpa using hj)]

theorem ofBuffer_slice_at (m : Mem) (n j : Nat) (d : Nat → Byte) (hj : j < n) :
    Mem.ofBuffer (m.slice 0 n) d j = m j := by
  unfold Mem.ofBuffer Mem.slice
  rw [List.getD_eq_getElem _ _ (by simpa using hj)]
  simp

theorem slice_drop (m : Mem) (a n : Nat) : (m.slice 0 (n + a)).drop a = m.slice a n := by
  apply List.ext_getElem
  · simp [Mem.slice]
  · intro k h₁ h₂
    simp [Mem.slice]

/-- The sub-frame that `Write` lays out, read back field by field: the identity,
the declared length and the payload are the ones written. -/
theorem ConnectorType.Write_layout (IDX VAL sequence : Nat) (enc : Mem → Nat → Nat × Mem)
    (stream : Mem) (length r : Nat) (hI : IDX < 4294967296) (hV : VAL < 4294967296)
    (hfit : r + 20 ≤ 65535) (henc : ∀ m cap, (enc m cap).1 = r) :
    (ConnectorType.Write IDX VAL sequence enc stream length).result = r + 20 ∧
    cn_idx (ConnectorType.Write IDX VAL sequence enc stream length).stream 0 = IDX ∧
    cn_val (ConnectorType.Write IDX VAL sequence enc stream length).stream 0 = VAL ∧
    cn_len (ConnectorType.Write IDX VAL sequence enc stream length).stream 0 = r := by
  refine ⟨?_, ?_, ?_, ?_⟩
  · simp only [ConnectorType.Write, henc]
    omega
  · apply rd32_leBytes _ _ _ hI <;>
      simp [ConnectorType.Write, Mem.store, Mem.splice]
  · apply rd32_leBytes _ _ _ hV <;>
      simp [ConnectorType.Write, Mem.store, Mem.splice]
  · apply rd16_leBytes _ _ _ (by omega) <;>
      simp [ConnectorType.Write, Mem.store, Mem.splice, henc]

/-- The round trip for every identity, sequence number, output buffer and pair
of delegates where the encode delegate reports `r > 0` bytes and the decode
delegate accepts the `r` payload bytes (returns `r`): `Write` returns
`r + 20`, and `Read` on exactly these `r + 20` bytes hands the decode delegate
the payload bytes behind the 20-byte header and returns 0. -/
theorem ConnectorType.Read_of_Write {σ : Type} (IDX VAL sequence : Nat)
    (enc : Mem → Nat → Nat × Mem) (dec : σ → Mem → Nat → Nat × σ) (c : ConnectorType σ)
    (stream : Mem) (length r : Nat) (hI : IDX < 4294967296) (hV : VAL < 4294967296)
    (hpos : 0 < r) (hfit : r + 20 ≤ 65535) (henc : ∀ m cap, (enc m cap).1 = r)
    (hdec : (dec c.user
      ((ConnectorType.Write IDX VAL sequence enc stream length).stream.shift 20) r).1 = r) :
    (ConnectorType.Write IDX VAL sequence enc stream length).result = r + 20 ∧
    (ConnectorType.Read IDX VAL dec c
        (ConnectorType.Write IDX VAL sequence enc stream length).stream (r + 20)).map
        (fun x => (x.result, x.calls))
      = some (0,
          [((ConnectorType.Write IDX VAL sequence enc stream length).stream.slice 20 r, r)]) := by
  obtain ⟨w1, w2, w3, w4⟩ :=
    ConnectorType.Write_layout IDX VAL sequence enc stream length r hI hV hfit henc
  refine ⟨w1, ?_⟩
  generalize (ConnectorType.Write IDX VAL sequence enc stream length).stream = out
    at w2 w3 w4 hdec ⊢
  have hflen : (out.slice 0 (r + 20)).length = r + 20 := by simp [Mem.slice]
  have hat : FrameAt out 0 (out.slice 0 (r + 20)) := by
    intro j hj
    rw [hflen] at hj
    rw [Nat.zero_add, ofBuffer_slice_at out (r + 20) j _ hj]
  obtain ⟨e1, e2, _, e4⟩ := hat.fields (by omega)
  have hno : ∀ f ∈ ([] : List (List Byte)),
      Cn.Contained f ∧ ¬ Cn.Matches IDX VAL f := by
    intro f hf
    cases hf
  have hlen : Cn.len (out.slice 0 (r + 20)) = r := by rw [← e4, w4]
  obtain ⟨res, h1, h2, _, h4⟩ :=
    ConnectorType.Read_on_frames IDX VAL dec [] (out.slice 0 (r + 20)) out c hno
      (by unfold Cn.Contained; rw [hflen, hlen]; omega)
      ⟨by rw [← e1, w2], by rw [← e2, w3]⟩ (by rw [hlen]; exact hpos)
      (by simp only [List.flatten_nil, List.nil_append, hflen]; exact hfit)
  simp only [List.flatten_nil, List.nil_append, hflen, ofBuffer_slice, hlen, List.length_nil,
    cn_data, sizeof_cn_msg, Nat.zero_add, hdec, Nat.lt_irrefl, if_false] at h1 h2 h4
  rw [h1, Option.map_some', h2, h4, Cn.payload, slice_drop]

/-- C7, evaluated for `ConnectorType<4, 1>` with sequence 77, an encode delegate
that stores the three bytes `AA BB CC` and returns 3, and a decode delegate that
accepts them and returns 3: `Write` into a 100-byte buffer returns 23 and lays
out the sub-frame; `Read` on exactly these 23 bytes hands the decode delegate
the same three bytes, and returns 0 instead of 23. -/
theorem ConnectorType.roundtrip_returns_zero :
    (ConnectorType.Write 4 1 77 exampleEncode (fun _ => 0) 100).result = 23 ∧
    (ConnectorType.Write 4 1 77 exampleEncode (fun _ => 0) 100).stream.slice 0 23
      = [4, 0, 0, 0, 1, 0, 0, 0, 77, 0, 0, 0, 0, 0, 0, 0, 3, 0, 0, 0, 0xAA, 0xBB, 0xCC] ∧
    (ConnectorType.Read 4 1 exampleAccept { _ack := 0, user := () }
        (ConnectorType.Write 4 1 77 exampleEncode (fun _ => 0) 100).stream 23).map
        (fun r => (r.result, r.calls)) = some (0, [([0xAA, 0xBB, 0xCC], 3)]) := by
  decide

/-! ### The exchange queue -/

theorem SocketNetlink.Event.moved_append {ε : Type} (a b : List (SocketNetlink.Event ε)) :
    SocketNetlink.Event.moved (a ++ b)
      = SocketNetlink.Event.moved a ++ SocketNetlink.Event.moved b :=
  List.filterMap_append _ _ _

theorem SocketNetlink.Event.triggers_append {ε : Type} (a b : List (SocketNetlink.Event ε)) :
    SocketNetlink.Event.triggers (a ++ b)
      = SocketNetlink.Event.triggers a + SocketNetlink.Event.triggers b := by
  simp only [SocketNetlink.Event.triggers, List.filter_append, List.length_append]

theorem SocketNetlink.Event.moved_dispatched {ε : Type} (l : List ε) :
    SocketNetlink.Event.moved (l.flatMap SocketNetlink.Event.dispatched) = l := by
  induction l with
  | nil => rfl
  | cons e es ih =>
    rw [List.flatMap_cons, SocketNetlink.Event.moved_append, ih]
    rfl

theorem SocketNetlink.Event.triggers_dispatched {ε : Type} (l : List ε) :
    SocketNetlink.Event.triggers (l.flatMap SocketNetlink.Event.dispatched) = l.length := by
  induction l with
  | nil => rfl
  | cons e es ih =>
    rw [List.flatMap_cons, SocketNetlink.Event.triggers_append, ih, List.length_cons]
    simp only [SocketNetlink.Event.triggers, SocketNetlink.Event.dispatched, List.filter,
      List.length_cons, List.length_nil]
    omega

/-- The loop when every wait succeeds: all queued entries are moved to the tail
of `_pending` in queue order, one turn each. -/
theorem SocketNetlink.ExecuteExchangeQueue.loop_success {ε : Type} (codes : ErrorCodes)
    (Wait : Nat → ε → Bool) (q : List ε) (p : List ε) (ev : List (SocketNetlink.Event ε))
    (w fuel : Nat) (hfuel : q.length < fuel)
    (hok : ∀ (i : Nat) (hi : i < q.length), Wait (w + i) q[i] = true) :
    SocketNetlink.ExecuteExchangeQueue.loop codes Wait fuel
        { engine := { _pending := p, _exchangeQueue := q }
          result := codes.ERROR_NONE % 65536, events := ev, waits := w }
      = some
        { engine := { _pending := p ++ q, _exchangeQueue := [] }
          result := codes.ERROR_NONE % 65536
          events := ev ++ q.flatMap SocketNetlink.Event.dispatched
          waits := w + q.length } := by
  induction q generalizing p ev w fuel with
  | nil =>
    obtain ⟨fuel, rfl⟩ : ∃ n, fuel = n + 1 := ⟨fuel - 1, by simp at hfuel; omega⟩
    simp [SocketNetlink.ExecuteExchangeQueue.loop]
  | cons front rest ih =>
    obtain ⟨fuel, rfl⟩ : ∃ n, fuel = n + 1 := ⟨fuel - 1, by simp at hfuel; omega⟩
    have h0 : Wait w front = true := hok 0 (by simp)
    have hrest : ∀ (i : Nat) (hi : i < rest.length), Wait (w + 1 + i) rest[i] = true := by
      intro i hi
      have h := hok (i + 1) (by simp only [List.length_cons]; omega)
      rw [List.getElem_cons_succ] at h
      have e : w + 1 + i = w + (i + 1) := by omega
      rw [e]
      exact h
    have hfuel' : rest.length < fuel := by
      simp only [List.length_cons] at hfuel
      omega
    rw [SocketNetlink.ExecuteExchangeQueue.loop]
    simp only [h0, Bool.true_eq_false, if_false]
    have e : w + 1 + rest.length = w + (front :: rest).length := by
      simp only [List.length_cons]
      omega
    rw [ih _ _ _ _ hfuel' hrest, e]
    simp only [List.append_assoc, List.singleton_append, List.flatMap_cons,
      SocketNetlink.Event.dispatched, List.cons_append, List.nil_append]

/-- The loop when the wait on the entry with index `k` is the first to time
out: the entries up to and including that one are moved to `_pending`, the
queue is cleared, and the loop ends. -/
theorem SocketNetlink.ExecuteExchangeQueue.loop_timeout {ε : Type} (codes : ErrorCodes)
    (Wait : Nat → ε → Bool) (k : Nat) (q : List ε) (hk : k < q.length) (p : List ε)
    (res : Nat) (ev : List (SocketNetlink.Event ε)) (w fuel : Nat) (hfuel : k + 1 < fuel)
    (hok : ∀ (i : Nat) (hi : i < k), Wait (w + i) q[i] = true)
    (hfail : Wait (w + k) q[k] = false) :
    SocketNetlink.ExecuteExchangeQueue.loop codes Wait fuel
        { engine := { _pending := p, _exchangeQueue := q }
          result := res, events := ev, waits := w }
      = some
        { engine := { _pending := p ++ q.take (k + 1), _exchangeQueue := [] }
          result := codes.ERROR_RPC_CALL_FAILED % 65536
          events := ev ++ (q.take k).flatMap SocketNetlink.Event.dispatched
            ++ SocketNetlink.Event.timedOut q[k]
          waits := w + (k + 1) } := by
  induction k generalizing q p res ev w fuel with
  | zero =>
    obtain ⟨fuel, rfl⟩ : ∃ n, fuel = n + 1 := ⟨fuel - 1, by omega⟩
    obtain ⟨fuel, rfl⟩ : ∃ n, fuel = n + 1 := ⟨fuel - 1, by omega⟩
    cases q with
    | nil => simp at hk
    | cons front rest =>
      have h0 : Wait w front = false := hfail
      rw [SocketNetlink.ExecuteExchangeQueue.loop]
      simp only [h0, if_true]
      rw [SocketNetlink.ExecuteExchangeQueue.loop]
      simp [SocketNetlink.Event.timedOut]
  | succ k ih =>
    obtain ⟨fuel, rfl⟩ : ∃ n, fuel = n + 1 := ⟨fuel - 1, by omega⟩
    cases q with
    | nil => simp at hk
    | cons front rest =>
      have hk' : k < rest.length := by
        simp only [List.length_cons] at hk
        omega
      have h0 : Wait w front = true := hok 0 (by omega)
      have hrest : ∀ (i : Nat) (hi : i < k), Wait (w + 1 + i) rest[i] = true := by
        intro i hi
        have h := hok (i + 1) (by omega)
        rw [List.getElem_cons_succ] at h
        have e : w + 1 + i = w + (i + 1) := by omega
        rw [e]
        exact h
      have hfail' : Wait (w + 1 + k) rest[k] = false := by
        have h := hfail
        rw [List.getElem_cons_succ] at h
        have e : w + 1 + k = w + (k + 1) := by omega
        rw [e]
        exact h
      rw [SocketNetlink.ExecuteExchangeQueue.loop]
      simp only [h0, Bool.true_eq_false, if_false]
      have e : w + 1 + (k + 1) = w + (k + 1 + 1) := by omega
      rw [ih rest hk' _ _ _ _ _ (by omega) hrest hfail', e]
      simp only [List.append_assoc, List.singleton_append, List.flatMap_cons, List.take_succ_cons,
        SocketNetlink.Event.dispatched, List.cons_append, List.nil_append,
        List.getElem_cons_succ]

/-! ### C8 -/

/-- C8. When the wait on the queued entry with index `k` (counted from 0, so
the entry number `k + 1`) is the first to time out, `ExecuteExchangeQueue`
returns `ERROR_RPC_CALL_FAILED`; exactly the first `k + 1` queued entries have
been appended to `_pending`, in queue order; the later entries were never moved
to `_pending`, no send opportunity was requested for them (`k + 1` triggers and
`k + 1` waits in all) and they are gone: `_exchangeQueue` is empty on return. -/
theorem SocketNetlink.ExecuteExchangeQueue_timeout {ε : Type} (codes : ErrorCodes)
    (Wait : Nat → ε → Bool) (engine : SocketNetlink ε) (k : Nat)
    (hk : k < engine._exchangeQueue.length)
    (hcode : codes.ERROR_RPC_CALL_FAILED < 65536)
    (hok : ∀ (i : Nat) (hi : i < engine._exchangeQueue.length), i < k →
      Wait i engine._exchangeQueue[i] = true)
    (hfail : Wait k engine._exchangeQueue[k] = false) :
    (SocketNetlink.ExecuteExchangeQueue codes Wait engine).map
        (fun r => (r.result, r.engine._pending, r.engine._exchangeQueue,
          SocketNetlink.Event.moved r.events, SocketNetlink.Event.triggers r.events, r.waits,
          r.events))
      = some (codes.ERROR_RPC_CALL_FAILED,
          engine._pending ++ engine._exchangeQueue.take (k + 1), [],
          engine._exchangeQueue.take (k + 1), k + 1, k + 1,
          [SocketNetlink.Event.lock]
            ++ (engine._exchangeQueue.take k).flatMap SocketNetlink.Event.dispatched
            ++ SocketNetlink.Event.timedOut engine._exchangeQueue[k]) := by
  obtain ⟨p, q⟩ := engine
  simp only at hk hok hfail ⊢
  have hok' : ∀ (i : Nat) (hi : i < k), Wait (0 + i) q[i] = true := by
    intro i hi
    rw [Nat.zero_add]
    exact hok i (by omega) hi
  have hfail' : Wait (0 + k) q[k] = false := by
    rw [Nat.zero_add]
    exact hfail
  have htake : (q.take k).length = k := by
    rw [List.length_take]
    omega
  have hsplit : q.take (k + 1) = q.take k ++ [q[k]] := by
    rw [List.take_succ, List.getElem?_eq_getElem hk]
    rfl
  have m1 : SocketNetlink.Event.moved ([SocketNetlink.Event.lock] : List (SocketNetlink.Event ε))
      = [] := rfl
  have m2 : SocketNetlink.Event.moved (SocketNetlink.Event.timedOut q[k]) = [q[k]] := rfl
  have t1 : SocketNetlink.Event.triggers
      ([SocketNetlink.Event.lock] : List (SocketNetlink.Event ε)) = 0 := rfl
  have t2 : SocketNetlink.Event.triggers (SocketNetlink.Event.timedOut q[k]) = 1 := rfl
  unfold SocketNetlink.ExecuteExchangeQueue
  rw [SocketNetlink.ExecuteExchangeQueue.loop_timeout codes Wait k q hk p _ _ 0 (q.length + 1)
    (by omega) hok' hfail']
  simp only [Option.map_some', Nat.mod_eq_of_lt hcode, Nat.zero_add,
    SocketNetlink.Event.moved_append, SocketNetlink.Event.triggers_append,
    SocketNetlink.Event.moved_dispatched, SocketNetlink.Event.triggers_dispatched, htake, hsplit,
    m1, m2, t1, t2, List.nil_append]

/-- C8, at the scenario of the specification: three queued entries 1, 2, 3 and
one older pending entry 100; the wait on entry 2 times out; entry 3 is never
moved to `_pending` and never triggers a send. -/
theorem SocketNetlink.ExecuteExchangeQueue_timeout_witness :
    (1 < ([1, 2, 3] : List Nat).length) ∧ exampleCodes.ERROR_RPC_CALL_FAILED < 65536 ∧
    (SocketNetlink.ExecuteExchangeQueue exampleCodes (fun n (_ : Nat) => n != 1)
        { _pending := [100], _exchangeQueue := [1, 2, 3] }).map
        (fun r => (r.result, r.engine._pending, r.engine._exchangeQueue,
          SocketNetlink.Event.moved r.events, SocketNetlink.Event.triggers r.events, r.waits,
          r.events))
      = some (7, [100, 1, 2], [], [1, 2], 2, 2,
          [SocketNetlink.Event.lock,
           SocketNetlink.Event.pendingPushBack 1, SocketNetlink.Event.queuePopFront,
           SocketNetlink.Event.unlock, SocketNetlink.Event.trigger,
           SocketNetlink.Event.wait 1 true,
           SocketNetlink.Event.pendingPushBack 2, SocketNetlink.Event.queuePopFront,
           SocketNetlink.Event.unlock, SocketNetlink.Event.trigger,
           SocketNetlink.Event.wait 2 false,
           SocketNetlink.Event.lock, SocketNetlink.Event.queueClear,
           SocketNetlink.Event.unlock]) :=
  ⟨by decide, by decide,
    SocketNetlink.ExecuteExchangeQueue_timeout exampleCodes (fun n (_ : Nat) => n != 1)
      { _pending := [100], _exchangeQueue := [1, 2, 3] } 1 (by decide) (by decide)
      (by decide) (by decide)⟩

/-! ### C9 -/

/-- C9. When all waits succeed, `ExecuteExchangeQueue` returns `ERROR_NONE`,
has appended the queued entries to the tail of `_pending` in queue order and
leaves `_exchangeQueue` empty.  Its events are, after the initial lock, one
block per entry in queue order: move to `_pending`, pop, unlock, trigger, wait.
So for every `i` the events split into the blocks of the first `i + 1` entries,
which end with the return of the wait on entry `i`, followed by the blocks of
the remaining entries, which start with the move of entry `i + 1`: one entry
is dispatched and awaited at a time. -/
theorem SocketNetlink.ExecuteExchangeQueue_all_succeed {ε : Type} (codes : ErrorCodes)
    (Wait : Nat → ε → Bool) (engine : SocketNetlink ε)
    (hcode : codes.ERROR_NONE < 65536)
    (hok : ∀ (i : Nat) (hi : i < engine._exchangeQueue.length),
      Wait i engine._exchangeQueue[i] = true) :
    SocketNetlink.ExecuteExchangeQueue codes Wait engine
      = some
        { engine := { _pending := engine._pending ++ engine._exchangeQueue
                      _exchangeQueue := [] }
          result := codes.ERROR_NONE
          events := [SocketNetlink.Event.lock]
            ++ engine._exchangeQueue.flatMap SocketNetlink.Event.dispatched
          waits := engine._exchangeQueue.length } ∧
    ∀ (i : Nat), i + 1 < engine._exchangeQueue.length →
      [SocketNetlink.Event.lock]
          ++ engine._exchangeQueue.flatMap SocketNetlink.Event.dispatched
        = [SocketNetlink.Event.lock]
          ++ (engine._exchangeQueue.take (i + 1)).flatMap SocketNetlink.Event.dispatched
          ++ (engine._exchangeQueue.drop (i + 1)).flatMap SocketNetlink.Event.dispatched := by
  obtain ⟨p, q⟩ := engine
  simp only at hok ⊢
  constructor
  · have hok' : ∀ (i : Nat) (hi : i < q.length), Wait (0 + i) q[i] = true := by
      intro i hi
      rw [Nat.zero_add]
      exact hok i hi
    unfold SocketNetlink.ExecuteExchangeQueue
    rw [SocketNetlink.ExecuteExchangeQueue.loop_success codes Wait q p _ 0 (q.length + 1)
      (by omega) hok']
    simp only [Nat.mod_eq_of_lt hcode, Nat.zero_add]
  · intro i _
    rw [List.append_assoc, ← List.flatMap_append, List.take_append_drop]

/-- C9, at three queued entries 1, 2, 3 behind one older pending entry 100. -/
theorem SocketNetlink.ExecuteExchangeQueue_all_succeed_witness :
    exampleCodes.ERROR_NONE < 65536 ∧
    SocketNetlink.ExecuteExchangeQueue exampleCodes (fun _ (_ : Nat) => true)
        { _pending := [100], _exchangeQueue := [1, 2, 3] }
      = some
        { engine := { _pending := [100, 1, 2, 3], _exchangeQueue := [] }
          result := 0
          events :=
            [SocketNetlink.Event.lock,
             SocketNetlink.Event.pendingPushBack 1, SocketNetlink.Event.queuePopFront,
             SocketNetlink.Event.unlock, SocketNetlink.Event.trigger,
             SocketNetlink.Event.wait 1 true,
             SocketNetlink.Event.pendingPushBack 2, SocketNetlink.Event.queuePopFront,
             SocketNetlink.Event.unlock, SocketNetlink.Event.trigger,
             SocketNetlink.Event.wait 2 true,
             SocketNetlink.Event.pendingPushBack 3, SocketNetlink.Event.queuePopFront,
             SocketNetlink.Event.unlock, SocketNetlink.Event.trigger,
             SocketNetlink.Event.wait 3 true]
          waits := 3 } :=
  ⟨by decide,
    (SocketNetlink.ExecuteExchangeQueue_all_succeed exampleCodes (fun _ (_ : Nat) => true)
      { _pending := [100], _exchangeQueue := [1, 2, 3] } (by decide)
      (fun _ _ => rfl)).1⟩

/-! ### C10 -/

/-- C10. After `Message::Serialize` the entry is marked as sent (`IsSend()` is
true) for every entry state and every buffer size, also when the outbound
serialization yields 0; and `Message::Serialize` returns exactly the byte count
of the outbound serialization, so 0 when that one fails. -/
theorem Message.Serialize_marks_sent {ι : Type} (outbound : Nat → Nat) (m : Message ι)
    (length : Nat) :
    (Message.Serialize outbound m length).2.IsSend = true ∧
    (Message.Serialize outbound m length).2._state = Message.state.SEND ∧
    (Message.Serialize outbound m length).1 = outbound length ∧
    (outbound length = 0 →
      (Message.Serialize outbound m length).1 = 0 ∧
      (Message.Serialize outbound m length).2.IsSend = true) := by
  have hstate : (Message.Serialize outbound m length).2._state = Message.state.SEND := by
    unfold Message.Serialize
    simp only
    split <;> rfl
  have hsend : (Message.Serialize outbound m length).2.IsSend = true := by
    unfold Message.IsSend
    rw [hstate]
    decide
  exact ⟨hsend, hstate, rfl, fun h => ⟨h, hsend⟩⟩

/-! ### C11 -/

/-- C11. For a fire-and-forget entry (no inbound target, as built by
`MessageRef(outbound)`), in whatever state and whatever the outbound
serialization returns (so in particular when it succeeds), `Message::Serialize`
leaves the completion signal set, and a following `Wait` succeeds without any
`Deserialize` call and without anybody else setting the signal; before the
`Serialize` such a `Wait` on the fresh entry times out.  For an entry with an
inbound target `Message::Serialize` leaves the completion signal as it was. -/
theorem Message.Serialize_releases_fire_and_forget {ι : Type} (outbound : Nat → Nat)
    (length : Nat) :
    (MessageRef.construct : Message ι).NeedResponse = false ∧
    ((MessageRef.construct : Message ι).Wait false).1 = false ∧
    (Message.Serialize outbound (MessageRef.construct : Message ι) length).2._signaled = true ∧
    ((Message.Serialize outbound (MessageRef.construct : Message ι) length).2.Wait false).1
      = true ∧
    (∀ (signaled : Bool) (st : Message.state) (setInTime : Bool),
      (Message.Serialize outbound
          ({ _signaled := signaled, _state := st, inbound := none } : Message ι)
          length).2._signaled = true ∧
      ((Message.Serialize outbound
          ({ _signaled := signaled, _state := st, inbound := none } : Message ι)
          length).2.Wait setInTime).1 = true) ∧
    (∀ (signaled : Bool) (st : Message.state) (target : ι),
      (Message.Serialize outbound
          ({ _signaled := signaled, _state := st, inbound := some target } : Message ι)
          length).2._signaled = signaled) ∧
    (∀ (target : ι),
      (MessageRef.constructExchange target).NeedResponse = true ∧
      (Message.Serialize outbound (MessageRef.constructExchange target) length).2._signaled
        = false) := by
  refine ⟨rfl, rfl, rfl, rfl, ?_, ?_, ?_⟩
  · intro signaled st setInTime
    exact ⟨rfl, rfl⟩
  · intro signaled st target
    rfl
  · intro target
    exact ⟨rfl, rfl⟩

/-! ### C17 -/

theorem NoFirstFrame.next_false {b : Mem × Nat} (h : NoFirstFrame b) :
    (Frames.construct b.1 b.2).Next.1 = false := by
  obtain ⟨h1, h2⟩ := h
  have e : b.2 % 65536 = b.2 := Nat.mod_eq_of_lt h1
  simp only [Frames.Next, Frames.NextT, Frames.advance, Frames.construct, Frames.IsValidT,
    NLMSG_OK, sizeof_nlmsghdr, e]
  by_cases h16 : 16 ≤ b.2
  · rw [if_pos h16]
    simp only [Bool.and_eq_false_imp, decide_eq_true_eq, decide_eq_false_iff_not]
    omega
  · rw [if_neg h16]

/-- When `frame.Next()` fails, `Message::Deserialize` skips its body. -/
theorem Message.Deserialize_of_next_false {ι : Type} (des : ι → Mem → Nat → Nat × ι)
    (m : Message ι) (buffer : Mem) (length : Nat)
    (h : (Frames.construct buffer length).Next.1 = false) :
    Message.Deserialize des m buffer length = some (0, m) := by
  simp only [Message.Deserialize, h, Bool.false_eq_true, if_false]

/-- C17. For every buffer (of a size that fits the `uint16_t` parameter) in
which the cursor finds no valid first frame (fewer than 16 bytes, a declared
length below 16, or a declared length larger than the buffer), every entry and
every inbound decode function, `Message::Deserialize` returns 0 and leaves the
entry as it was: the state, the completion signal and the inbound target, so
the decode function of the target was not called. -/
theorem Message.Deserialize_without_frame {ι : Type} (des : ι → Mem → Nat → Nat × ι)
    (m : Message ι) (b : Mem × Nat) (h : NoFirstFrame b) :
    Message.Deserialize des m b.1 b.2 = some (0, m) :=
  Message.Deserialize_of_next_false des m b.1 b.2 h.next_false

/-- C17, at three buffers (10 bytes; 16 bytes declaring 8; 16 bytes declaring
64) and a decode function that counts its calls in the target: the count stays
at 0, the entry stays in `SEND` with the signal unset. -/
theorem Message.Deserialize_without_frame_witness :
    NoFirstFrame (exampleShortDeclared.1, 10) ∧ NoFirstFrame exampleShortDeclared ∧
    NoFirstFrame (Mem.ofBuffer exampleTruncated (fun _ => 0), 16) ∧
    Message.Deserialize exampleDecodeCounts
        { _signaled := false, _state := Message.state.SEND, inbound := some 0 }
        exampleShortDeclared.1 10
      = some (0, { _signaled := false, _state := Message.state.SEND, inbound := some 0 }) ∧
    Message.Deserialize exampleDecodeCounts
        { _signaled := false, _state := Message.state.SEND, inbound := some 0 }
        exampleShortDeclared.1 exampleShortDeclared.2
      = some (0, { _signaled := false, _state := Message.state.SEND, inbound := some 0 }) ∧
    Message.Deserialize exampleDecodeCounts
        { _signaled := false, _state := Message.state.SEND, inbound := some 0 }
        (Mem.ofBuffer exampleTruncated (fun _ => 0)) 16
      = some (0, { _signaled := false, _state := Message.state.SEND, inbound := some 0 }) :=
  ⟨by decide, by decide, by decide,
    Message.Deserialize_without_frame exampleDecodeCounts _ (exampleShortDeclared.1, 10)
      (by decide),
    Message.Deserialize_without_frame exampleDecodeCounts _ exampleShortDeclared (by decide),
    Message.Deserialize_without_frame exampleDecodeCounts _
      (Mem.ofBuffer exampleTruncated (fun _ => 0), 16) (by decide)⟩

/-! ### C16 -/

/-- C16 fails: an entry in `SEND` receives a frame without the multi flag
(type 16, flags 0) and the decode of the inbound target fails (returns 0);
`Message::Deserialize` returns 0, but the entry is `PROCESSED` and the
completion signal is set. -/
theorem Message.Deserialize_decode_failure_completes :
    (Message.Deserialize exampleDecodeFails
        { _signaled := false, _state := Message.state.SEND, inbound := some () }
        (exampleFrame 16 0).1 (exampleFrame 16 0).2).map (fun r => (r.1, r.2.status))
      = some (0, Message.state.PROCESSED, true) := by
  decide

/-- C16, amended. When the decode of the inbound target reports failure
(returns 0) on the valid first frame of a buffer, `Message::Deserialize` returns
0, and the state and the completion signal are decided by the type and the flags
of the frame alone: a multi-part frame in progress leaves them as they were (an
entry in `SEND` stays in `SEND`, the signal is not set by the call), a
terminating frame gives `PROCESSED` and an error frame `FAILURE`, both with the
signal set. -/
theorem Message.Deserialize_decode_failure {ι : Type} (des : ι → Mem → Nat → Nat × ι)
    (m : Message ι) (b : Mem × Nat) (hin : m.NeedResponse = true) (hframe : FirstFrame b)
    (hdes : ∀ t, (des t (b.1.shift 0) (nlmsg_len b.1 0 % 65536)).1 = 0) :
    (Message.Deserialize des m b.1 b.2).map (fun r => r.1) = some 0 ∧
    (FirstFrame.InProgress b →
      (Message.Deserialize des m b.1 b.2).map (fun r => r.2.status) = some m.status) ∧
    (FirstFrame.Terminating b →
      (Message.Deserialize des m b.1 b.2).map (fun r => r.2.status)
        = some (Message.state.PROCESSED, true)) ∧
    (FirstFrame.Error b →
      (Message.Deserialize des m b.1 b.2).map (fun r => r.2.status)
        = some (Message.state.FAILURE, true)) := by
  obtain ⟨t, ht⟩ := (Message.needResponse_iff m).1 hin
  refine ⟨?_, ?_, ?_, ?_⟩
  · rw [Message.Deserialize_firstFrame des m t ht hframe, Option.map_some', hdes t]
  · intro hb
    obtain ⟨r, hr, hs, _⟩ := Message.Deserialize_inProgress des m hin hb
    rw [hr, Option.map_some', hs]
  · intro hb
    exact Message.Deserialize_terminating des m hin hb
  · intro hb
    exact Message.Deserialize_error des m hin hb

/-- C16 amended, at a failing decode: a multi-part frame in progress keeps
`SEND`, a frame without the multi flag completes the entry. -/
theorem Message.Deserialize_decode_failure_witness :
    FirstFrame (exampleFrame 16 2) ∧ FirstFrame.InProgress (exampleFrame 16 2) ∧
    (Message.Deserialize exampleDecodeFails
        { _signaled := false, _state := Message.state.SEND, inbound := some () }
        (exampleFrame 16 2).1 (exampleFrame 16 2).2).map (fun r => r.1) = some 0 ∧
    (Message.Deserialize exampleDecodeFails
        { _signaled := false, _state := Message.state.SEND, inbound := some () }
        (exampleFrame 16 2).1 (exampleFrame 16 2).2).map (fun r => r.2.status)
      = some (Message.state.SEND, false) :=
  have h := Message.Deserialize_decode_failure exampleDecodeFails
    { _signaled := false, _state := Message.state.SEND, inbound := some () }
    (exampleFrame 16 2) rfl (by decide) (fun _ => rfl)
  ⟨by decide, by decide, h.1, h.2.1 (by decide)⟩

/-! ### Every call of `Message::Deserialize` on an entry with an inbound target -/

theorem Message.Deserialize_mod {ι : Type} (des : ι → Mem → Nat → Nat × ι) (m : Message ι)
    (buffer : Mem) (length : Nat) :
    Message.Deserialize des m buffer length
      = Message.Deserialize des m buffer (length % 65536) := by
  simp only [Message.Deserialize, Frames.construct, Nat.mod_mod]

theorem firstFrame_or_not (b : Mem × Nat) (h : b.2 < 65536) : FirstFrame b ∨ NoFirstFrame b := by
  unfold FirstFrame NoFirstFrame
  omega

/-- A call of `Message::Deserialize` on an entry with an inbound target returns;
the entry keeps an inbound target, and its state is the one before the call or
`PROCESSED` or `FAILURE`. -/
theorem Message.Deserialize_total {ι : Type} (des : ι → Mem → Nat → Nat × ι) (m : Message ι)
    (hin : m.NeedResponse = true) (buffer : Mem) (length : Nat) :
    ∃ r, Message.Deserialize des m buffer length = some r ∧ r.2.NeedResponse = true ∧
      (r.2._state = m._state ∨ r.2._state = Message.state.PROCESSED ∨
        r.2._state = Message.state.FAILURE) := by
  rw [Message.Deserialize_mod]
  rcases firstFrame_or_not (buffer, length % 65536) (Nat.mod_lt _ (by decide)) with hf | hn
  · obtain ⟨t, ht⟩ := (Message.needResponse_iff m).1 hin
    refine ⟨_, Message.Deserialize_firstFrame des m t ht hf, ?_, ?_⟩
    · split_ifs <;> rfl
    · split_ifs <;> simp
  · exact ⟨_, Message.Deserialize_of_next_false des m buffer (length % 65536) hn.next_false,
      hin, Or.inl rfl⟩

/-! ### C12 -/

theorem MessageAsync.Deserialize_of_base {ι : Type} (des : ι → Mem → Nat → Nat × ι)
    (a : MessageAsync ι) (buffer : Mem) (length : Nat) (r : Nat × Message ι)
    (h : Message.Deserialize des a.base buffer length = some r) :
    MessageAsync.Deserialize des a buffer length
      = some (r.1,
          { base := r.2
            callbacks := a.callbacks ++
              (if r.2.IsProcessed = true then [decide (r.2._state ≠ Message.state.FAILURE)]
               else []) }) := by
  simp only [MessageAsync.Deserialize, h]
  split_ifs
  · rfl
  · rw [List.append_nil]

theorem Message.isProcessed_of_state {ι : Type} (m : Message ι) :
    (m._state = Message.state.SEND → m.IsProcessed = false) ∧
    (m._state = Message.state.PROCESSED → m.IsProcessed = true) ∧
    (m._state = Message.state.FAILURE → m.IsProcessed = true) := by
  refine ⟨?_, ?_, ?_⟩ <;> intro h <;> simp [Message.IsProcessed, h]

/-- A buffer that does not complete the entry (a multi-part frame in progress,
or no valid first frame) leaves an asynchronous entry in `SEND` in `SEND` and
does not invoke the callback. -/
theorem MessageAsync.Deserialize_quiet {ι : Type} (des : ι → Mem → Nat → Nat × ι)
    (a : MessageAsync ι) (hstate : a.base._state = Message.state.SEND)
    (hin : a.base.NeedResponse = true) (b : Mem × Nat)
    (hb : FirstFrame.InProgress b ∨ NoFirstFrame b) :
    ∃ r, MessageAsync.Deserialize des a b.1 b.2 = some r ∧
      r.2.base._state = Message.state.SEND ∧ r.2.base.NeedResponse = true ∧
      r.2.callbacks = a.callbacks := by
  rcases hb with hp | hn
  · obtain ⟨r, hr, hs, hn⟩ := Message.Deserialize_inProgress des a.base hin hp
    have hst : r.2._state = Message.state.SEND := by
      have := congrArg Prod.fst hs
      simp only [Message.status] at this
      rw [this, hstate]
    refine ⟨_, MessageAsync.Deserialize_of_base des a b.1 b.2 r hr, hst, hn, ?_⟩
    simp only [(Message.isProcessed_of_state r.2).1 hst, Bool.false_eq_true, if_false,
      List.append_nil]
  · refine ⟨_, MessageAsync.Deserialize_of_base des a b.1 b.2 (0, a.base)
      (Message.Deserialize_of_next_false des a.base b.1 b.2 hn.next_false), hstate, hin, ?_⟩
    simp only [(Message.isProcessed_of_state a.base).1 hstate, Bool.false_eq_true, if_false,
      List.append_nil]

theorem MessageAsync.feed_quiet {ι : Type} (des : ι → Mem → Nat → Nat × ι)
    (quiet : List (Mem × Nat)) (hquiet : ∀ b ∈ quiet, FirstFrame.InProgress b ∨ NoFirstFrame b)
    (a : MessageAsync ι) (hstate : a.base._state = Message.state.SEND)
    (hin : a.base.NeedResponse = true) :
    ∃ a₁, MessageAsync.feed des a quiet = some a₁ ∧ a₁.base._state = Message.state.SEND ∧
      a₁.base.NeedResponse = true ∧ a₁.callbacks = a.callbacks := by
  induction quiet generalizing a with
  | nil => exact ⟨a, rfl, hstate, hin, rfl⟩
  | cons b bs ih =>
    obtain ⟨r, hr, hs, hn, hc⟩ :=
      MessageAsync.Deserialize_quiet des a hstate hin b (hquiet b (List.mem_cons_self _ _))
    obtain ⟨a₁, h1, h2, h3, h4⟩ :=
      ih (fun c hc => hquiet c (List.mem_cons_of_mem _ hc)) r.2 hs hn
    refine ⟨a₁, ?_, h2, h3, h4.trans hc⟩
    simp only [MessageAsync.feed, hr, h1]

theorem MessageAsync.feedAsync_append_one {ι : Type} (des : ι → Mem → Nat → Nat × ι)
    (bs : List (Mem × Nat)) (b : Mem × Nat) (a : MessageAsync ι) :
    MessageAsync.feed des a (bs ++ [b])
      = (MessageAsync.feed des a bs).bind fun a₁ =>
          (MessageAsync.Deserialize des a₁ b.1 b.2).map fun r => r.2 := by
  induction bs generalizing a with
  | nil =>
    simp only [List.nil_append, MessageAsync.feed, Option.some_bind]
    cases MessageAsync.Deserialize des a b.1 b.2 <;> rfl
  | cons c cs ih =>
    simp only [List.cons_append, MessageAsync.feed]
    cases MessageAsync.Deserialize des a c.1 c.2 with
    | none => rfl
    | some r => exact ih r.2

/-- The completing call on an asynchronous entry: the state of the entry and the
callback log afterwards. -/
theorem MessageAsync.Deserialize_completing {ι : Type} (des : ι → Mem → Nat → Nat × ι)
    (a : MessageAsync ι) (hin : a.base.NeedResponse = true) (b : Mem × Nat) :
    (FirstFrame.Terminating b →
      (MessageAsync.Deserialize des a b.1 b.2).map (fun r => (r.2.base._state, r.2.callbacks))
        = some (Message.state.PROCESSED, a.callbacks ++ [true])) ∧
    (FirstFrame.Error b →
      (MessageAsync.Deserialize des a b.1 b.2).map (fun r => (r.2.base._state, r.2.callbacks))
        = some (Message.state.FAILURE, a.callbacks ++ [false])) := by
  obtain ⟨r, hr, _, _⟩ := Message.Deserialize_total des a.base hin b.1 b.2
  constructor
  · intro hb
    have h := Message.Deserialize_terminating des a.base hin hb
    rw [hr, Option.map_some', Option.some.injEq] at h
    have hst : r.2._state = Message.state.PROCESSED := congrArg Prod.fst h
    rw [MessageAsync.Deserialize_of_base des a b.1 b.2 r hr, Option.map_some']
    simp [(Message.isProcessed_of_state r.2).2.1 hst, hst]
  · intro hb
    have h := Message.Deserialize_error des a.base hin hb
    rw [hr, Option.map_some', Option.some.injEq] at h
    have hst : r.2._state = Message.state.FAILURE := congrArg Prod.fst h
    rw [MessageAsync.Deserialize_of_base des a b.1 b.2 r hr, Option.map_some']
    simp [(Message.isProcessed_of_state r.2).2.2 hst, hst]

/-- C12 fails: an asynchronous entry in `SEND` receives a frame without the
multi flag and is `PROCESSED`, the callback is invoked with `true`; every
further buffer passed to `Deserialize` (here an empty buffer, then a multi-part
frame) invokes the callback again. -/
theorem MessageAsync.callback_invoked_again :
    (MessageAsync.feed exampleAccept
        { base := { _signaled := false, _state := Message.state.SEND, inbound := some () }
          callbacks := [] }
        [exampleFrame 16 0]).map (fun a => a.callbacks) = some [true] ∧
    (MessageAsync.feed exampleAccept
        { base := { _signaled := false, _state := Message.state.SEND, inbound := some () }
          callbacks := [] }
        [exampleFrame 16 0, (fun _ => 0, 0), exampleFrame 16 2]).map (fun a => a.callbacks)
      = some [true, true, true] := by
  decide

/-- C12, amended. For an asynchronous entry in `SEND`: over every sequence of
buffers that do not complete it (multi-part frames in progress, buffers without
a valid first frame) the callback is not invoked and the entry stays in `SEND`;
the following frame that moves the entry to `PROCESSED` or `FAILURE` invokes the
callback once, with `true` for `PROCESSED` and `false` for `FAILURE`; and every
`Deserialize` call made on an entry that is already `PROCESSED` or `FAILURE`
leaves it completed and invokes the callback once more, with the argument given
by the state after that call. -/
theorem MessageAsync.callback_invocations {ι : Type} (des : ι → Mem → Nat → Nat × ι)
    (a : MessageAsync ι) (hstate : a.base._state = Message.state.SEND)
    (hin : a.base.NeedResponse = true) (quiet : List (Mem × Nat))
    (hquiet : ∀ b ∈ quiet, FirstFrame.InProgress b ∨ NoFirstFrame b) :
    (MessageAsync.feed des a quiet).map (fun x => (x.base._state, x.callbacks))
      = some (Message.state.SEND, a.callbacks) ∧
    (∀ b, FirstFrame.Terminating b →
      (MessageAsync.feed des a (quiet ++ [b])).map (fun x => (x.base._state, x.callbacks))
        = some (Message.state.PROCESSED, a.callbacks ++ [true])) ∧
    (∀ b, FirstFrame.Error b →
      (MessageAsync.feed des a (quiet ++ [b])).map (fun x => (x.base._state, x.callbacks))
        = some (Message.state.FAILURE, a.callbacks ++ [false])) ∧
    (∀ (a₀ : MessageAsync ι) (buffer : Mem) (length : Nat), a₀.base.IsProcessed = true →
      a₀.base.NeedResponse = true →
      ∃ r, MessageAsync.Deserialize des a₀ buffer length = some r ∧
        r.2.base.IsProcessed = true ∧
        r.2.callbacks = a₀.callbacks ++ [decide (r.2.base._state ≠ Message.state.FAILURE)]) := by
  obtain ⟨a₁, h1, h2, h3, h4⟩ := MessageAsync.feed_quiet des quiet hquiet a hstate hin
  refine ⟨?_, ?_, ?_, ?_⟩
  · rw [h1, Option.map_some', h2, h4]
  · intro b hb
    rw [MessageAsync.feedAsync_append_one, h1, Option.some_bind, Option.map_map, ← h4]
    exact (MessageAsync.Deserialize_completing des a₁ h3 b).1 hb
  · intro b hb
    rw [MessageAsync.feedAsync_append_one, h1, Option.some_bind, Option.map_map, ← h4]
    exact (MessageAsync.Deserialize_completing des a₁ h3 b).2 hb
  · intro a₀ buffer length hp h0
    obtain ⟨r, hr, _, hs⟩ := Message.Deserialize_total des a₀.base h0 buffer length
    have hproc : r.2.IsProcessed = true := by
      rcases hs with hs | hs | hs
      · unfold Message.IsProcessed at hp ⊢
        rw [hs]
        exact hp
      · exact (Message.isProcessed_of_state r.2).2.1 hs
      · exact (Message.isProcessed_of_state r.2).2.2 hs
    refine ⟨_, MessageAsync.Deserialize_of_base des a₀ buffer length r hr, hproc, ?_⟩
    simp only [hproc, if_true]

/-- C12 amended, at concrete buffers: a multi-part frame and an empty buffer do
not invoke the callback, the frame without the multi flag invokes it with
`true`, an error frame instead with `false`. -/
theorem MessageAsync.callback_invocations_witness :
    (∀ b ∈ [exampleFrame 16 2, ((fun _ => 0 : Mem), 0)],
      FirstFrame.InProgress b ∨ NoFirstFrame b) ∧
    FirstFrame.Terminating (exampleFrame 16 0) ∧ FirstFrame.Error (exampleFrame 2 0) ∧
    (MessageAsync.feed exampleAccept
        { base := { _signaled := false, _state := Message.state.SEND, inbound := some () }
          callbacks := [] }
        [exampleFrame 16 2, ((fun _ => 0 : Mem), 0)]).map (fun x => (x.base._state, x.callbacks))
      = some (Message.state.SEND, []) ∧
    (MessageAsync.feed exampleAccept
        { base := { _signaled := false, _state := Message.state.SEND, inbound := some () }
          callbacks := [] }
        ([exampleFrame 16 2, ((fun _ => 0 : Mem), 0)] ++ [exampleFrame 16 0])).map
        (fun x => (x.base._state, x.callbacks))
      = some (Message.state.PROCESSED, [true]) ∧
    (MessageAsync.feed exampleAccept
        { base := { _signaled := false, _state := Message.state.SEND, inbound := some () }
          callbacks := [] }
        ([exampleFrame 16 2, ((fun _ => 0 : Mem), 0)] ++ [exampleFrame 2 0])).map
        (fun x => (x.base._state, x.callbacks))
      = some (Message.state.FAILURE, [false]) :=
  have h := MessageAsync.callback_invocations exampleAccept
    { base := { _signaled := false, _state := Message.state.SEND, inbound := some () }
      callbacks := [] } rfl rfl
    [exampleFrame 16 2, ((fun _ => 0 : Mem), 0)] (by decide)
  ⟨by decide, by decide, by decide, h.1, h.2.1 _ (by decide), h.2.2.1 _ (by decide)⟩

/-! ### C13 -/

/-- C13 fails. On an entry that starts in `LOADED` with an inbound target: a
`Deserialize` of a frame without the multi flag moves it from `LOADED` straight
to `PROCESSED`, without any `Serialize`; and after `Serialize` and a completing
`Deserialize` the entry is `PROCESSED`, a later error frame changes it to
`FAILURE`, and a later `Serialize` changes it back to `SEND`. -/
theorem Message.state_changes_after_completion :
    Message.run exampleAccept (fun n => n) (MessageRef.constructExchange ())
        [Message.Call.deserialize (exampleFrame 16 0).1 16]
      = some [Message.state.PROCESSED] ∧
    Message.run exampleAccept (fun n => n) (MessageRef.constructExchange ())
        [Message.Call.serialize 100, Message.Call.deserialize (exampleFrame 16 0).1 16,
         Message.Call.deserialize (exampleFrame 2 0).1 16, Message.Call.serialize 100]
      = some [Message.state.SEND, Message.state.PROCESSED, Message.state.FAILURE,
          Message.state.SEND] := by
  decide

theorem Message.Call.allowAll_not_loaded (before : Message.state) (cs : List Message.Call)
    (sts : List Message.state) (h : Message.Call.allowAll before cs sts)
    (hb : before ≠ Message.state.LOADED) : ∀ st ∈ sts, st ≠ Message.state.LOADED := by
  induction cs generalizing before sts with
  | nil =>
    cases sts with
    | nil => intro st hst; cases hst
    | cons st sts => exact absurd h (by simp [Message.Call.allowAll])
  | cons c cs ih =>
    cases sts with
    | nil => exact absurd h (by simp [Message.Call.allowAll])
    | cons st sts =>
      obtain ⟨h1, h2⟩ := h
      have hst : st ≠ Message.state.LOADED := by
        cases c with
        | serialize length =>
          have : st = Message.state.SEND := h1
          rw [this]
          decide
        | deserialize buffer length =>
          have : st = before ∨ st = Message.state.PROCESSED ∨ st = Message.state.FAILURE := h1
          rcases this with e | e | e
          · rw [e]; exact hb
          · rw [e]; decide
          · rw [e]; decide
      intro x hx
      rcases List.mem_cons.1 hx with e | hx
      · rw [e]; exact hst
      · exact ih st sts h2 hst x hx

theorem Message.Call.allowAll_leaves_loaded (before : Message.state) (cs : List Message.Call)
    (sts : List Message.state) (h : Message.Call.allowAll before cs sts) :
    ∀ st ∈ sts.dropWhile (fun st => decide (st = Message.state.LOADED)),
      st ≠ Message.state.LOADED := by
  induction cs generalizing before sts with
  | nil =>
    cases sts with
    | nil => intro st hst; cases hst
    | cons st sts => exact absurd h (by simp [Message.Call.allowAll])
  | cons c cs ih =>
    cases sts with
    | nil => exact absurd h (by simp [Message.Call.allowAll])
    | cons st sts =>
      obtain ⟨h1, h2⟩ := h
      by_cases hst : st = Message.state.LOADED
      · rw [List.dropWhile_cons_of_pos (by simpa using hst)]
        exact ih st sts h2
      · rw [List.dropWhile_cons_of_neg (by simpa using hst)]
        intro x hx
        rcases List.mem_cons.1 hx with e | hx
        · rw [e]; exact hst
        · exact Message.Call.allowAll_not_loaded st cs sts h2 hst x hx

theorem Message.Serialize_needResponse {ι : Type} (outbound : Nat → Nat) (m : Message ι)
    (length : Nat) (hin : m.NeedResponse = true) :
    (Message.Serialize outbound m length).2.NeedResponse = true ∧
    (Message.Serialize outbound m length).2._state = Message.state.SEND := by
  unfold Message.Serialize
  simp only
  split
  · exact ⟨hin, rfl⟩
  · exact ⟨hin, rfl⟩

/-- C13, amended. Over every sequence of `Message::Serialize` and
`Message::Deserialize` calls on a pending entry with an inbound target, every
call returns; each `Serialize` call leaves the entry in `SEND`, whatever its
state before; each `Deserialize` call leaves the state as it was or moves it to
`PROCESSED` or `FAILURE`, whatever its state before; so once the entry has left
`LOADED` it is never in `LOADED` again. -/
theorem Message.state_moves {ι : Type} (des : ι → Mem → Nat → Nat × ι) (outbound : Nat → Nat)
    (m : Message ι) (hin : m.NeedResponse = true) (cs : List Message.Call) :
    ∃ sts, Message.run des outbound m cs = some sts ∧
      Message.Call.allowAll m._state cs sts ∧
      ∀ st ∈ sts.dropWhile (fun st => decide (st = Message.state.LOADED)),
        st ≠ Message.state.LOADED := by
  have key : ∃ sts, Message.run des outbound m cs = some sts ∧
      Message.Call.allowAll m._state cs sts := by
    induction cs generalizing m with
    | nil => exact ⟨[], rfl, trivial⟩
    | cons c cs ih =>
      cases c with
      | serialize length =>
        obtain ⟨h1, h2⟩ := Message.Serialize_needResponse outbound m length hin
        obtain ⟨sts, g1, g2⟩ := ih (Message.Serialize outbound m length).2 h1
        refine ⟨(Message.Serialize outbound m length).2._state :: sts, ?_, h2, g2⟩
        simp only [Message.run, Message.call, g1, Option.map_some']
      | deserialize buffer length =>
        obtain ⟨r, hr, h1, h2⟩ := Message.Deserialize_total des m hin buffer length
        obtain ⟨sts, g1, g2⟩ := ih r.2 h1
        refine ⟨r.2._state :: sts, ?_, h2, g2⟩
        simp only [Message.run, Message.call, hr, Option.map_some', g1]
  obtain ⟨sts, h1, h2⟩ := key
  exact ⟨sts, h1, h2, Message.Call.allowAll_leaves_loaded m._state cs sts h2⟩

/-- C13 amended, at a sequence of calls on an entry that starts in `LOADED`: an
empty buffer, `Serialize`, a multi-part frame, a completing frame. -/
theorem Message.state_moves_witness :
    (MessageRef.constructExchange ()).NeedResponse = true ∧
    (∃ sts, Message.run exampleAccept (fun n => n) (MessageRef.constructExchange ())
        [Message.Call.deserialize (fun _ => 0) 0, Message.Call.serialize 100,
         Message.Call.deserialize (exampleFrame 16 2).1 16,
         Message.Call.deserialize (exampleFrame 16 0).1 16] = some sts ∧
      Message.Call.allowAll (MessageRef.constructExchange ())._state
        [Message.Call.deserialize (fun _ => 0) 0, Message.Call.serialize 100,
         Message.Call.deserialize (exampleFrame 16 2).1 16,
         Message.Call.deserialize (exampleFrame 16 0).1 16] sts ∧
      ∀ st ∈ sts.dropWhile (fun st => decide (st = Message.state.LOADED)),
        st ≠ Message.state.LOADED) ∧
    Message.run exampleAccept (fun n => n) (MessageRef.constructExchange ())
        [Message.Call.deserialize (fun _ => 0) 0, Message.Call.serialize 100,
         Message.Call.deserialize (exampleFrame 16 2).1 16,
         Message.Call.deserialize (exampleFrame 16 0).1 16]
      = some [Message.state.LOADED, Message.state.SEND, Message.state.SEND,
          Message.state.PROCESSED] :=
  ⟨rfl, Message.state_moves exampleAccept (fun n => n) (MessageRef.constructExchange ()) rfl _,
    by decide⟩

/-! ### C14 -/

/-- C14 fails: on a 16-byte buffer whose header declares 8 bytes, after the first
`Next()` a header is present (at offset 0) and its declared length 8 does not
exceed the 16 bytes that remain from it on, but `IsValid()` is false. -/
theorem Frames.invalid_with_short_declared_length :
    (Frames.construct exampleShortDeclared.1 16).Next.2.header = some 0 ∧
    nlmsg_len (Frames.construct exampleShortDeclared.1 16).Next.2.data 0 = 8 ∧
    (Frames.construct exampleShortDeclared.1 16).Next.2.size - 0 = 16 ∧
    (Frames.construct exampleShortDeclared.1 16).Next.2.IsValid = false := by
  decide

theorem Frames.header_after_next (f : Frames) : f.Next.2.header ≠ none := by
  unfold Frames.Next Frames.NextT Frames.advance
  cases f.header <;> simp

/-- The method `IsValid()` on a cursor with a header, told by the cursor's own
count `_dataLeft`: the two guards of `NLMSG_OK` and its upper bound. -/
theorem Frames.IsValid_of_header (f : Frames) (h : Nat) (hh : f.header = some h) :
    f.IsValid = true ↔
      16 ≤ f.dataLeft ∧ 16 ≤ nlmsg_len f.data h ∧ nlmsg_len f.data h ≤ f.dataLeft := by
  unfold Frames.IsValid Frames.IsValidT
  rw [hh]
  simp only [NLMSG_OK, sizeof_nlmsghdr]
  by_cases h16 : 16 ≤ f.dataLeft
  · rw [if_pos h16]
    simp only [Bool.and_eq_true, decide_eq_true_eq, h16, true_and]
  · rw [if_neg h16]
    simp only [Bool.false_eq_true, h16, false_and]

/-- The cursor after `k + 1` calls of `Next()` on a buffer of `receivedSize`
bytes, when every record passed before lies with its alignment padding inside
the buffer: the header is at an offset `h` inside the buffer, and `_dataLeft`
is what the buffer holds from `h` on. -/
theorem Frames.NextN_count (dataFrame : Mem) (receivedSize k : Nat)
    (hsize : receivedSize ≤ 65535)
    (hprev : ∀ j < k, ∀ h,
      (Frames.NextN (j + 1) (Frames.construct dataFrame receivedSize)).header = some h →
      h + NLMSG_ALIGN (nlmsg_len dataFrame h) ≤ receivedSize) :
    ∃ h, h ≤ receivedSize ∧
      Frames.NextN (k + 1) (Frames.construct dataFrame receivedSize)
        = { data := dataFrame, size := receivedSize, header := some h,
            dataLeft := receivedSize - h } := by
  induction k with
  | zero =>
    refine ⟨0, Nat.zero_le _, ?_⟩
    have e : receivedSize % 65536 = receivedSize := Nat.mod_eq_of_lt (by omega)
    simp only [Frames.NextN, Frames.Next, Frames.NextT, Frames.advance, Frames.construct, e,
      Nat.sub_zero]
  | succ k ih =>
    obtain ⟨h, hle, e⟩ := ih (fun j hj => hprev j (by omega))
    have hfit := hprev k (by omega) h (by rw [e])
    refine ⟨h + NLMSG_ALIGN (nlmsg_len dataFrame h), hfit, ?_⟩
    rw [Frames.NextN_succ, e]
    simp only [Frames.Next, Frames.NextT, Frames.advance, NLMSG_NEXT]
    generalize NLMSG_ALIGN (nlmsg_len dataFrame h) = A at hfit ⊢
    have e2 : (receivedSize - h + 4294967296 - A) % 4294967296 % 65536
        = receivedSize - (h + A) := by omega
    rw [e2]

/-- C14, amended. A freshly constructed cursor has no header and is not valid.
After one or more calls of `Next()` on a buffer of `receivedSize` bytes, when
every record passed before lies with its alignment padding inside the buffer,
a header is present at an offset `h` inside the buffer, and `IsValid()` is true
if and only if at least 16 bytes remain in the buffer from that header on and
the declared length of the header is at least 16 and does not exceed the bytes
that remain in the buffer from that header on. -/
theorem Frames.IsValid_iff (dataFrame : Mem) (receivedSize k : Nat)
    (hsize : receivedSize ≤ 65535)
    (hprev : ∀ j < k, ∀ h,
      (Frames.NextN (j + 1) (Frames.construct dataFrame receivedSize)).header = some h →
      h + NLMSG_ALIGN (nlmsg_len dataFrame h) ≤ receivedSize) :
    (Frames.construct dataFrame receivedSize).header = none ∧
    (Frames.construct dataFrame receivedSize).IsValid = false ∧
    ∃ h, (Frames.NextN (k + 1) (Frames.construct dataFrame receivedSize)).header = some h ∧
      h ≤ receivedSize ∧
      ((Frames.NextN (k + 1) (Frames.construct dataFrame receivedSize)).IsValid = true ↔
        16 ≤ receivedSize - h ∧ 16 ≤ nlmsg_len dataFrame h ∧
          nlmsg_len dataFrame h ≤ receivedSize - h) := by
  obtain ⟨h, hle, e⟩ := Frames.NextN_count dataFrame receivedSize k hsize hprev
  refine ⟨rfl, rfl, h, by rw [e], hle, ?_⟩
  rw [e]
  exact Frames.IsValid_of_header _ h rfl

/-- C14, amended, at concrete buffers of 36 bytes that start with a message of
declared length 17 padded to 20 bytes, for the cursor after two calls of
`Next()`: the header is at offset 20 and 16 bytes remain.  With a second
message of declared length 16 the cursor is valid; with a header that declares
64 bytes it is not. -/
theorem Frames.IsValid_iff_witness :
    (∀ j < 1, ∀ h,
      (Frames.NextN (j + 1)
        (Frames.construct (Mem.ofBuffer (exampleMsgA ++ exampleMsgB) fun _ => 0) 36)).header
          = some h →
      h + NLMSG_ALIGN (nlmsg_len (Mem.ofBuffer (exampleMsgA ++ exampleMsgB) fun _ => 0) h)
        ≤ 36) ∧
    (Frames.NextN 2
      (Frames.construct (Mem.ofBuffer (exampleMsgA ++ exampleMsgB) fun _ => 0) 36)).header
        = some 20 ∧
    (Frames.NextN 2
      (Frames.construct (Mem.ofBuffer (exampleMsgA ++ exampleMsgB) fun _ => 0) 36)).IsValid
        = true ∧
    (Frames.NextN 2
      (Frames.construct (Mem.ofBuffer (exampleMsgA ++ exampleTruncated) fun _ => 0) 36)).IsValid
        = false ∧
    ∃ h, (Frames.NextN 2
        (Frames.construct (Mem.ofBuffer (exampleMsgA ++ exampleMsgB) fun _ => 0) 36)).header
          = some h ∧
      h ≤ 36 ∧
      ((Frames.NextN 2
        (Frames.construct (Mem.ofBuffer (exampleMsgA ++ exampleMsgB) fun _ => 0) 36)).IsValid
          = true ↔
        16 ≤ 36 - h ∧
          16 ≤ nlmsg_len (Mem.ofBuffer (exampleMsgA ++ exampleMsgB) fun _ => 0) h ∧
          nlmsg_len (Mem.ofBuffer (exampleMsgA ++ exampleMsgB) fun _ => 0) h ≤ 36 - h) :=
  have hprev : ∀ j < 1, ∀ h,
      (Frames.NextN (j + 1)
        (Frames.construct (Mem.ofBuffer (exampleMsgA ++ exampleMsgB) fun _ => 0) 36)).header
          = some h →
      h + NLMSG_ALIGN (nlmsg_len (Mem.ofBuffer (exampleMsgA ++ exampleMsgB) fun _ => 0) h)
        ≤ 36 := by
    intro j hj h hh
    have hj0 : j = 0 := by omega
    subst hj0
    have h0 : h = 0 := (Option.some.inj hh).symm
    subst h0
    decide
  ⟨hprev, by decide, by decide, by decide,
    (Frames.IsValid_iff (Mem.ofBuffer (exampleMsgA ++ exampleMsgB) fun _ => 0) 36 1
      (by decide) hprev).2.2⟩

/-! ### C15 -/

/-- C15, evaluated with a payload delegate that fails (stores nothing, returns
0): for every identity, sequence number, buffer and buffer length `Write`
returns 20, not 0, and makes the same six header stores over the offsets
0..19.  With a buffer length of 10 these stores are not all inside the buffer,
the delegate is handed the capacity 65526, and the bytes at the offsets 10..19
behind the buffer are overwritten (here from `FF` to `00`). -/
theorem ConnectorType.Write_never_reports_failure (IDX VAL sequence : Nat) (stream : Mem)
    (length : Nat) :
    (ConnectorType.Write IDX VAL sequence exampleEncodeFails stream length).result = 20 ∧
    (ConnectorType.Write IDX VAL sequence exampleEncodeFails stream length).writes
      = [(0, 4), (4, 4), (8, 4), (12, 4), (18, 2), (16, 2)] ∧
    (¬ ∀ a ∈ (ConnectorType.Write IDX VAL sequence exampleEncodeFails stream 10).writes,
        a.within 10) ∧
    (ConnectorType.Write IDX VAL sequence exampleEncodeFails stream 10).capacity = 65526 ∧
    (ConnectorType.Write 4 1 77 exampleEncodeFails (fun _ => 255) 10).result = 20 ∧
    (ConnectorType.Write 4 1 77 exampleEncodeFails (fun _ => 255) 10).stream.slice 10 10
      = [0, 0, 0, 0, 0, 0, 0, 0, 0, 0] := by
  refine ⟨rfl, rfl, ?_, rfl, ?_, ?_⟩
  · have e : (ConnectorType.Write IDX VAL sequence exampleEncodeFails stream 10).writes
        = [(0, 4), (4, 4), (8, 4), (12, 4), (18, 2), (16, 2)] := rfl
    rw [e]
    decide
  · decide
  · decide

/-! ### C18 -/

/-- The loop of `ExecuteExchangeQueue` ends when it has more fuel than there
are queued entries, and it only adds events behind those already made. -/
theorem SocketNetlink.ExecuteExchangeQueue.loop_total {ε : Type} (codes : ErrorCodes)
    (Wait : Nat → ε → Bool) (fuel : Nat) (st : SocketNetlink.Run ε)
    (hfuel : st.engine._exchangeQueue.length < fuel) :
    ∃ r, SocketNetlink.ExecuteExchangeQueue.loop codes Wait fuel st = some r ∧
      ∃ rest, r.events = st.events ++ rest := by
  induction fuel generalizing st with
  | zero => omega
  | succ fuel ih =>
    obtain ⟨⟨p, q⟩, res, ev, w⟩ := st
    cases q with
    | nil => exact ⟨_, rfl, [], (List.append_nil _).symm⟩
    | cons front tail =>
      simp only [List.length_cons] at hfuel
      rw [SocketNetlink.ExecuteExchangeQueue.loop]
      simp only
      by_cases hw : Wait w front = false
      · rw [if_pos hw]
        obtain ⟨r, h1, rest, h2⟩ := ih
          { engine := { _pending := p ++ [front], _exchangeQueue := [] }
            result := codes.ERROR_RPC_CALL_FAILED % 65536
            events := ev ++
              [SocketNetlink.Event.pendingPushBack front, SocketNetlink.Event.queuePopFront,
               SocketNetlink.Event.unlock, SocketNetlink.Event.trigger,
               SocketNetlink.Event.wait front (Wait w front)] ++
              [SocketNetlink.Event.lock, SocketNetlink.Event.queueClear,
               SocketNetlink.Event.unlock]
            waits := w + 1 } (by simp only [List.length_nil]; omega)
        refine ⟨r, h1,
          [SocketNetlink.Event.pendingPushBack front, SocketNetlink.Event.queuePopFront,
           SocketNetlink.Event.unlock, SocketNetlink.Event.trigger,
           SocketNetlink.Event.wait front (Wait w front)] ++
          ([SocketNetlink.Event.lock, SocketNetlink.Event.queueClear,
            SocketNetlink.Event.unlock] ++ rest), ?_⟩
        rw [h2, List.append_assoc, List.append_assoc]
      · rw [if_neg hw]
        obtain ⟨r, h1, rest, h2⟩ := ih
          { engine := { _pending := p ++ [front], _exchangeQueue := tail }
            result := codes.ERROR_NONE % 65536
            events := ev ++
              [SocketNetlink.Event.pendingPushBack front, SocketNetlink.Event.queuePopFront,
               SocketNetlink.Event.unlock, SocketNetlink.Event.trigger,
               SocketNetlink.Event.wait front (Wait w front)]
            waits := w + 1 } (by simp only; omega)
        refine ⟨r, h1,
          [SocketNetlink.Event.pendingPushBack front, SocketNetlink.Event.queuePopFront,
           SocketNetlink.Event.unlock, SocketNetlink.Event.trigger,
           SocketNetlink.Event.wait front (Wait w front)] ++ rest, ?_⟩
        rw [h2, List.append_assoc]

theorem SocketNetlink.Event.mutationsLocked_append {ε : Type}
    (a b : List (SocketNetlink.Event ε)) (held : Int)
    (h : SocketNetlink.Event.mutationsLocked held a = false) :
    SocketNetlink.Event.mutationsLocked held (a ++ b) = false := by
  induction a generalizing held with
  | nil => simp [SocketNetlink.Event.mutationsLocked] at h
  | cons e es ih =>
    cases e <;>
      simp only [List.cons_append, SocketNetlink.Event.mutationsLocked, Bool.and_eq_false_imp]
        at h ⊢ <;>
      first
        | exact ih _ h
        | exact fun h1 => ih _ (h h1)

/-- Whenever two or more entries are queued and the wait on the first one
succeeds, `ExecuteExchangeQueue` returns, and the move of the second entry into
`_pending` happens while the lock is not held. -/
theorem SocketNetlink.ExecuteExchangeQueue_unlocked_mutation {ε : Type} (codes : ErrorCodes)
    (Wait : Nat → ε → Bool) (pending : List ε) (first second : ε) (others : List ε)
    (hwait : Wait 0 first = true) :
    ∃ r, SocketNetlink.ExecuteExchangeQueue codes Wait
          { _pending := pending, _exchangeQueue := first :: second :: others } = some r ∧
      SocketNetlink.Event.mutationsLocked 0 r.events = false := by
  unfold SocketNetlink.ExecuteExchangeQueue
  simp only [List.length_cons]
  rw [SocketNetlink.ExecuteExchangeQueue.loop]
  simp only [hwait, Bool.true_eq_false, if_false]
  rw [SocketNetlink.ExecuteExchangeQueue.loop]
  simp only
  by_cases hw : Wait (0 + 1) second = false
  · rw [if_pos hw]
    obtain ⟨r, h1, rest, h2⟩ := SocketNetlink.ExecuteExchangeQueue.loop_total codes Wait
      (others.length + 1)
      { engine := { _pending := pending ++ [first] ++ [second], _exchangeQueue := [] }
        result := codes.ERROR_RPC_CALL_FAILED % 65536
        events := [SocketNetlink.Event.lock] ++
          [SocketNetlink.Event.pendingPushBack first, SocketNetlink.Event.queuePopFront,
           SocketNetlink.Event.unlock, SocketNetlink.Event.trigger,
           SocketNetlink.Event.wait first true] ++
          [SocketNetlink.Event.pendingPushBack second, SocketNetlink.Event.queuePopFront,
           SocketNetlink.Event.unlock, SocketNetlink.Event.trigger,
           SocketNetlink.Event.wait second (Wait (0 + 1) second)] ++
          [SocketNetlink.Event.lock, SocketNetlink.Event.queueClear,
           SocketNetlink.Event.unlock]
        waits := 0 + 1 + 1 } (by simp only [List.length_nil]; omega)
    refine ⟨r, h1, ?_⟩
    rw [h2]
    apply SocketNetlink.Event.mutationsLocked_append
    simp [SocketNetlink.Event.mutationsLocked, SocketNetlink.Event.isMutation]
  · rw [if_neg hw]
    obtain ⟨r, h1, rest, h2⟩ := SocketNetlink.ExecuteExchangeQueue.loop_total codes Wait
      (others.length + 1)
      { engine := { _pending := pending ++ [first] ++ [second], _exchangeQueue := others }
        result := codes.ERROR_NONE % 65536
        events := [SocketNetlink.Event.lock] ++
          [SocketNetlink.Event.pendingPushBack first, SocketNetlink.Event.queuePopFront,
           SocketNetlink.Event.unlock, SocketNetlink.Event.trigger,
           SocketNetlink.Event.wait first true] ++
          [SocketNetlink.Event.pendingPushBack second, SocketNetlink.Event.queuePopFront,
           SocketNetlink.Event.unlock, SocketNetlink.Event.trigger,
           SocketNetlink.Event.wait second (Wait (0 + 1) second)]
        waits := 0 + 1 + 1 } (by simp only; omega)
    refine ⟨r, h1, ?_⟩
    rw [h2]
    apply SocketNetlink.Event.mutationsLocked_append
    simp [SocketNetlink.Event.mutationsLocked, SocketNetlink.Event.isMutation]

/-- C18, evaluated.  With an empty exchange queue `ExecuteExchangeQueue` acquires
the lock once and returns without releasing it, whatever `_pending` holds.  With
two queued entries whose waits succeed, the second turn of the loop changes
`_pending` and `_exchangeQueue` while the lock is not held, and on return the
lock has been acquired once and released twice.  (No wait happens with the lock
held.) -/
theorem SocketNetlink.ExecuteExchangeQueue_lock_discipline_broken :
    (∀ (codes : ErrorCodes) (Wait : Nat → Nat → Bool) (pending : List Nat),
      (SocketNetlink.ExecuteExchangeQueue codes Wait
          { _pending := pending, _exchangeQueue := [] }).map
          (fun r => (r.events, SocketNetlink.Event.acquired r.events,
            SocketNetlink.Event.released r.events))
        = some ([SocketNetlink.Event.lock], 1, 0)) ∧
    (SocketNetlink.ExecuteExchangeQueue exampleCodes (fun _ (_ : Nat) => true)
        { _pending := [], _exchangeQueue := [1, 2] }).map
        (fun r => (r.events, SocketNetlink.Event.mutationsLocked 0 r.events,
          SocketNetlink.Event.waitsUnlocked 0 r.events, SocketNetlink.Event.acquired r.events,
          SocketNetlink.Event.released r.events))
      = some ([SocketNetlink.Event.lock,
               SocketNetlink.Event.pendingPushBack 1, SocketNetlink.Event.queuePopFront,
               SocketNetlink.Event.unlock, SocketNetlink.Event.trigger,
               SocketNetlink.Event.wait 1 true,
               SocketNetlink.Event.pendingPushBack 2, SocketNetlink.Event.queuePopFront,
               SocketNetlink.Event.unlock, SocketNetlink.Event.trigger,
               SocketNetlink.Event.wait 2 true],
              false, true, 1, 2) := by
  constructor
  · intro codes Wait pending
    rfl
  · decide

/-! ### C19 -/

/-- C19. For every engine state and every request, `RequestExchange` returns
`ERROR_NONE`; the exchange queue afterwards is the queue before, in its order,
followed by exactly one new entry, which is in state `LOADED` with its
completion signal unset; `_pending` is unchanged; no send opportunity is
requested; and the one change of the queue is made between acquiring and
releasing the lock. -/
theorem SocketNetlink.RequestExchange_only_queues {ι : Type} (codes : ErrorCodes) (netlink : ι)
    (engine : SocketNetlink (Message ι)) (hcode : codes.ERROR_NONE < 4294967296) :
    (SocketNetlink.RequestExchange codes netlink engine).result = codes.ERROR_NONE ∧
    (SocketNetlink.RequestExchange codes netlink engine).engine._exchangeQueue
      = engine._exchangeQueue ++ [MessageComp.construct netlink] ∧
    (MessageComp.construct netlink)._state = Message.state.LOADED ∧
    (MessageComp.construct netlink)._signaled = false ∧
    (SocketNetlink.RequestExchange codes netlink engine).engine._exchangeQueue.length
      = engine._exchangeQueue.length + 1 ∧
    (SocketNetlink.RequestExchange codes netlink engine).engine._exchangeQueue.take
        engine._exchangeQueue.length = engine._exchangeQueue ∧
    (SocketNetlink.RequestExchange codes netlink engine).engine._pending = engine._pending ∧
    SocketNetlink.Event.triggers (SocketNetlink.RequestExchange codes netlink engine).events
      = 0 ∧
    (SocketNetlink.RequestExchange codes netlink engine).events
      = [SocketNetlink.Event.lock,
         SocketNetlink.Event.queueEmplaceBack (MessageComp.construct netlink),
         SocketNetlink.Event.unlock] := by
  refine ⟨?_, rfl, rfl, rfl, ?_, ?_, rfl, rfl, rfl⟩
  · simp only [SocketNetlink.RequestExchange, Nat.mod_eq_of_lt hcode]
  · simp only [SocketNetlink.RequestExchange, List.length_append, List.length_singleton]
  · simp only [SocketNetlink.RequestExchange, List.take_left']

/-- C19, at an engine with one pending and one queued entry. -/
theorem SocketNetlink.RequestExchange_only_queues_witness :
    exampleCodes.ERROR_NONE < 4294967296 ∧
    (SocketNetlink.RequestExchange exampleCodes ()
        { _pending := [{ _signaled := false, _state := Message.state.SEND, inbound := some () }]
          _exchangeQueue := [MessageComp.construct ()] }).result = 0 ∧
    (SocketNetlink.RequestExchange exampleCodes ()
        { _pending := [{ _signaled := false, _state := Message.state.SEND, inbound := some () }]
          _exchangeQueue := [MessageComp.construct ()] }).engine._exchangeQueue
      = [MessageComp.construct (), MessageComp.construct ()] ∧
    (SocketNetlink.RequestExchange exampleCodes ()
        { _pending := [{ _signaled := false, _state := Message.state.SEND, inbound := some () }]
          _exchangeQueue := [MessageComp.construct ()] }).engine._pending
      = [{ _signaled := false, _state := Message.state.SEND, inbound := some () }] :=
  have h := SocketNetlink.RequestExchange_only_queues exampleCodes ()
    { _pending := [{ _signaled := false, _state := Message.state.SEND, inbound := some () }]
      _exchangeQueue := [MessageComp.construct ()] } (by decide)
  ⟨by decide, h.1, h.2.1, h.2.2.2.2.2.2.1⟩

/-! ### C20 -/

/-- C20. For every buffer length from 20 to 65535, every identity and sequence
number (32-bit values) and a payload delegate that, given the capacity
`length - 20`, stores the `r` bytes `P` (`r ≤ length - 20`) and returns `r`:
`Write` stores `IDX` in the bytes 0..3, `VAL` in 4..7, `Sequence()` in 8..11, 0
in 12..15, `r` in 16..17 and 0 in 18..19 (little endian, so the fields read back
as these values), the payload `P` from byte 20 on, passes the delegate the
capacity `length - 20`, and returns `r + 20`. -/
theorem ConnectorType.Write_wire_layout (IDX VAL sequence : Nat)
    (enc : Mem → Nat → Nat × Mem) (stream : Mem) (length r : Nat) (P : List Byte)
    (hI : IDX < 4294967296) (hV : VAL < 4294967296) (hS : sequence < 4294967296)
    (h20 : 20 ≤ length) (hlen : length ≤ 65535) (hr : r ≤ length - 20)
    (hret : ∀ m, (enc m (length - 20)).1 = r)
    (hpay : ∀ m, (enc m (length - 20)).2.slice 0 r = P) :
    (∀ k, k < 4 →
      (ConnectorType.Write IDX VAL sequence enc stream length).stream k = leByte IDX k) ∧
    (∀ k, k < 4 →
      (ConnectorType.Write IDX VAL sequence enc stream length).stream (4 + k) = leByte VAL k) ∧
    (∀ k, k < 4 →
      (ConnectorType.Write IDX VAL sequence enc stream length).stream (8 + k)
        = leByte sequence k) ∧
    (∀ k, k < 4 →
      (ConnectorType.Write IDX VAL sequence enc stream length).stream (12 + k) = 0) ∧
    (∀ k, k < 2 →
      (ConnectorType.Write IDX VAL sequence enc stream length).stream (16 + k) = leByte r k) ∧
    (∀ k, k < 2 →
      (ConnectorType.Write IDX VAL sequence enc stream length).stream (18 + k) = 0) ∧
    cn_idx (ConnectorType.Write IDX VAL sequence enc stream length).stream 0 = IDX ∧
    cn_val (ConnectorType.Write IDX VAL sequence enc stream length).stream 0 = VAL ∧
    cn_seq (ConnectorType.Write IDX VAL sequence enc stream length).stream 0 = sequence ∧
    cn_ack (ConnectorType.Write IDX VAL sequence enc stream length).stream 0 = 0 ∧
    cn_len (ConnectorType.Write IDX VAL sequence enc stream length).stream 0 = r ∧
    cn_flags (ConnectorType.Write IDX VAL sequence enc stream length).stream 0 = 0 ∧
    (ConnectorType.Write IDX VAL sequence enc stream length).stream.slice 20 r = P ∧
    (ConnectorType.Write IDX VAL sequence enc stream length).capacity = length - 20 ∧
    (ConnectorType.Write IDX VAL sequence enc stream length).result = r + 20 := by
  have hcap : (length % 65536 + 65536 - 20) % 65536 = length - 20 := by omega
  have hcap' : (length + 65516) % 65536 = length - 20 := by omega
  have z4 : ∀ k, leByte 0 k = 0 := by
    intro k
    simp [leByte]
  have b0 : ∀ k, k < 4 →
      (ConnectorType.Write IDX VAL sequence enc stream length).stream k = leByte IDX k := by
    intro k hk
    interval_cases k <;> simp [ConnectorType.Write, Mem.store, Mem.splice]
  have b4 : ∀ k, k < 4 →
      (ConnectorType.Write IDX VAL sequence enc stream length).stream (4 + k)
        = leByte VAL k := by
    intro k hk
    interval_cases k <;> simp [ConnectorType.Write, Mem.store, Mem.splice]
  have b8 : ∀ k, k < 4 →
      (ConnectorType.Write IDX VAL sequence enc stream length).stream (8 + k)
        = leByte sequence k := by
    intro k hk
    interval_cases k <;> simp [ConnectorType.Write, Mem.store, Mem.splice]
  have b12 : ∀ k, k < 4 →
      (ConnectorType.Write IDX VAL sequence enc stream length).stream (12 + k) = 0 := by
    intro k hk
    interval_cases k <;> simp [ConnectorType.Write, Mem.store, Mem.splice, z4]
  have b16 : ∀ k, k < 2 →
      (ConnectorType.Write IDX VAL sequence enc stream length).stream (16 + k)
        = leByte r k := by
    intro k hk
    interval_cases k <;> simp [ConnectorType.Write, Mem.store, Mem.splice, hcap', hret]
  have b18 : ∀ k, k < 2 →
      (ConnectorType.Write IDX VAL sequence enc stream length).stream (18 + k) = 0 := by
    intro k hk
    interval_cases k <;> simp [ConnectorType.Write, Mem.store, Mem.splice, z4]
  refine ⟨b0, b4, b8, b12, b16, b18, ?_, ?_, ?_, ?_, ?_, ?_, ?_, ?_, ?_⟩
  · exact rd32_leBytes _ 0 IDX hI (b0 0 (by omega)) (b0 1 (by omega)) (b0 2 (by omega))
      (b0 3 (by omega))
  · exact rd32_leBytes _ (0 + 4) VAL hV (b4 0 (by omega)) (b4 1 (by omega)) (b4 2 (by omega))
      (b4 3 (by omega))
  · exact rd32_leBytes _ (0 + 8) sequence hS (b8 0 (by omega)) (b8 1 (by omega))
      (b8 2 (by omega)) (b8 3 (by omega))
  · apply rd32_leBytes _ (0 + 12) 0 (by omega)
    · rw [z4]; exact b12 0 (by omega)
    · rw [z4]; exact b12 1 (by omega)
    · rw [z4]; exact b12 2 (by omega)
    · rw [z4]; exact b12 3 (by omega)
  · exact rd16_leBytes _ (0 + 16) r (by omega) (b16 0 (by omega)) (b16 1 (by omega))
  · apply rd16_leBytes _ (0 + 18) 0 (by omega)
    · rw [z4]; exact b18 0 (by omega)
    · rw [z4]; exact b18 1 (by omega)
  · rw [← hpay ((((((stream.store 0 4 IDX).store 4 4 VAL).store 8 4 sequence).store 12 4
      0).store 18 2 0).shift 20)]
    apply List.ext_getElem
    · simp [Mem.slice]
    · intro n h₁ h₂
      simp only [Mem.slice, List.length_map, List.length_range] at h₁
      have e1 : ¬ (16 ≤ 20 + n ∧ 20 + n < 16 + 2) := by omega
      have e2 : ¬ (20 + n < 20) := by omega
      simp [Mem.slice, ConnectorType.Write, Mem.store, Mem.splice, hcap', e1, e2]
  · simp only [ConnectorType.Write, hcap]
  · simp only [ConnectorType.Write, hcap, hret]
    omega

/-- C20, for `ConnectorType<4, 1>` with sequence 77, a 100-byte buffer and the
delegate that stores `AA BB CC` and returns 3. -/
theorem ConnectorType.Write_wire_layout_witness :
    (4 : Nat) < 4294967296 ∧ (1 : Nat) < 4294967296 ∧ (77 : Nat) < 4294967296 ∧
    20 ≤ 100 ∧ 100 ≤ 65535 ∧ 3 ≤ 100 - 20 ∧
    (∀ m, (exampleEncode m (100 - 20)).1 = 3) ∧
    (∀ m, (exampleEncode m (100 - 20)).2.slice 0 3 = [0xAA, 0xBB, 0xCC]) ∧
    cn_idx (ConnectorType.Write 4 1 77 exampleEncode (fun _ => 0) 100).stream 0 = 4 ∧
    cn_val (ConnectorType.Write 4 1 77 exampleEncode (fun _ => 0) 100).stream 0 = 1 ∧
    cn_seq (ConnectorType.Write 4 1 77 exampleEncode (fun _ => 0) 100).stream 0 = 77 ∧
    cn_len (ConnectorType.Write 4 1 77 exampleEncode (fun _ => 0) 100).stream 0 = 3 ∧
    (ConnectorType.Write 4 1 77 exampleEncode (fun _ => 0) 100).stream.slice 20 3
      = [0xAA, 0xBB, 0xCC] ∧
    (ConnectorType.Write 4 1 77 exampleEncode (fun _ => 0) 100).capacity = 80 ∧
    (ConnectorType.Write 4 1 77 exampleEncode (fun _ => 0) 100).result = 23 :=
  have h := ConnectorType.Write_wire_layout 4 1 77 exampleEncode (fun _ => 0) 100 3
    [0xAA, 0xBB, 0xCC] (by decide) (by decide) (by decide) (by decide) (by decide) (by decide)
    (fun _ => rfl) (fun _ => rfl)
  ⟨by decide, by decide, by decide, by decide, by decide, by decide, fun _ => rfl, fun _ => rfl,
    h.2.2.2.2.2.2.1, h.2.2.2.2.2.2.2.1, h.2.2.2.2.2.2.2.2.1, h.2.2.2.2.2.2.2.2.2.2.1,
    h.2.2.2.2.2.2.2.2.2.2.2.2.1, h.2.2.2.2.2.2.2.2.2.2.2.2.2.1,
    h.2.2.2.2.2.2.2.2.2.2.2.2.2.2⟩

/-! ### C21 -/

/-- The accessors on a valid frame, in terms of the cursor's own count: with
`_dataLeft` a 16-bit value, `RawSize()` is the declared length untruncated, it
is at least 16 and at most `_dataLeft`, `PayloadSize()` is `RawSize()` minus the
header size 16 without underflow, and `Payload()` is 16 bytes behind
`RawData()`. -/
theorem Frames.valid_frame_accessors (f : Frames) (h : Nat) (hh : f.header = some h)
    (hleft : f.dataLeft < 65536) (hv : f.IsValid = true) :
    f.RawData = some h ∧
    f.RawSize = some (nlmsg_len f.data h) ∧
    16 ≤ nlmsg_len f.data h ∧ nlmsg_len f.data h ≤ f.dataLeft ∧
    Frames.HeaderSize = 16 ∧
    f.PayloadSize = some (nlmsg_len f.data h - Frames.HeaderSize) ∧
    f.Payload = some (h + 16) := by
  have hhs : Frames.HeaderSize = 16 := by decide
  have hv' : 16 ≤ f.dataLeft ∧ 16 ≤ nlmsg_len f.data h ∧ nlmsg_len f.data h ≤ f.dataLeft := by
    unfold Frames.IsValid Frames.IsValidT at hv
    rw [hh] at hv
    simp only [NLMSG_OK, sizeof_nlmsghdr] at hv
    by_cases h16 : 16 ≤ f.dataLeft
    · rw [if_pos h16] at hv
      simp only [Bool.and_eq_true, decide_eq_true_eq] at hv
      exact ⟨h16, hv.1, hv.2⟩
    · rw [if_neg h16] at hv
      cases hv
  obtain ⟨h1, h2, h3⟩ := hv'
  have e1 : nlmsg_len f.data h % 65536 = nlmsg_len f.data h := Nat.mod_eq_of_lt (by omega)
  have e2 : (nlmsg_len f.data h + 4294967296 - 16 % 4294967296) % 4294967296 % 65536
      = nlmsg_len f.data h - 16 := by omega
  refine ⟨?_, ?_, h2, h3, hhs, ?_, ?_⟩
  · simp only [Frames.RawData, hh]
  · simp only [Frames.RawSize, hh, Option.map_some', e1]
  · simp only [Frames.PayloadSize, hh, Option.map_some', NLMSG_PAYLOAD, NLMSG_SPACE_zero, e2,
      hhs]
  · simp only [Frames.Payload, hh, Option.map_some', NLMSG_DATA, NLMSG_HDRLEN_eq]

/-- On a buffer that starts with well-formed, padded messages, every frame the
cursor stands on after `i + 1` calls of `Next()` and finds valid lies inside the
buffer: header and payload end at or before the end of the buffer. -/
theorem Frames.valid_frame_inside (msgs : List (List Byte)) (tail : List Byte)
    (beyond : Nat → Byte) (hwf : ∀ c ∈ msgs, Msg.WellFormed c)
    (hsize : (msgs.flatten ++ tail).length ≤ 65535) (i : Nat) (hi : i ≤ msgs.length)
    (hv : (Frames.NextN (i + 1) (Frames.onBuffer (msgs.flatten ++ tail) beyond)).IsValid = true) :
    ∃ h size,
      (Frames.NextN (i + 1) (Frames.onBuffer (msgs.flatten ++ tail) beyond)).RawData = some h ∧
      (Frames.NextN (i + 1) (Frames.onBuffer (msgs.flatten ++ tail) beyond)).RawSize
        = some size ∧
      16 ≤ size ∧ h + size ≤ (msgs.flatten ++ tail).length := by
  have key := Frames.NextN_on_messages msgs tail beyond hwf hsize i hi
  unfold Frames.onBuffer at hv ⊢
  rw [key] at hv ⊢
  have hle := flatten_take_le msgs i
  have hl : (msgs.flatten ++ tail).length = msgs.flatten.length + tail.length :=
    List.length_append _ _
  obtain ⟨a1, a2, a3, a4, _, _, _⟩ :=
    Frames.valid_frame_accessors _ (msgs.take i).flatten.length rfl
      (show (msgs.flatten ++ tail).length - (msgs.take i).flatten.length < 65536 by omega) hv
  simp only at a1 a2 a3 a4
  refine ⟨_, _, a1, a2, a3, ?_⟩
  omega

/-- C21, evaluated at a 17-byte buffer that holds one message of declared length
17 and is followed in memory by stale bytes that read as a declared length of 16
at offset 20.  The first `Next()` returns `true`; the second one wraps
`_dataLeft` to 65533 and returns `true` as well: `IsValid()` holds on a frame
with `RawData()` at offset 20, `RawSize()` 16 and `Payload()` at offset 36, all of
it behind the 17 bytes of the buffer, so `RawSize()` exceeds the bytes that
remain (none). -/
theorem Frames.valid_frame_outside_buffer :
    exampleUnpadded.length = 17 ∧
    (Frames.onBuffer exampleUnpadded exampleStale).Next.1 = true ∧
    (Frames.NextN 1 (Frames.onBuffer exampleUnpadded exampleStale)).Next.1 = true ∧
    (Frames.NextN 2 (Frames.onBuffer exampleUnpadded exampleStale)).IsValid = true ∧
    (Frames.NextN 2 (Frames.onBuffer exampleUnpadded exampleStale)).dataLeft = 65533 ∧
    (Frames.NextN 2 (Frames.onBuffer exampleUnpadded exampleStale)).RawData = some 20 ∧
    (Frames.NextN 2 (Frames.onBuffer exampleUnpadded exampleStale)).RawSize = some 16 ∧
    (Frames.NextN 2 (Frames.onBuffer exampleUnpadded exampleStale)).Payload = some 36 ∧
    (Frames.NextN 2 (Frames.onBuffer exampleUnpadded exampleStale)).PayloadSize = some 0 ∧
    ¬ (20 + 16 ≤ exampleUnpadded.length) := by
  decide

/-! ### The loop of `ConnectorType::Read`, for every input -/

theorem Access.ok_append (L : Nat) (a b : List Access)
    (ha : ∀ x ∈ a, Access.within x L ∨ x.2 = 2) (hb : ∀ x ∈ b, Access.within x L ∨ x.2 = 2) :
    ∀ x ∈ a ++ b, Access.within x L ∨ x.2 = 2 := by
  intro x hx
  rcases List.mem_append.1 hx with h | h
  · exact ha x h
  · exact hb x h

theorem Access.ok_len (L p : Nat) : ∀ x ∈ [((p + 16, 2) : Access)], Access.within x L ∨ x.2 = 2 := by
  intro x hx
  rw [List.mem_singleton] at hx
  right
  rw [hx]

theorem Access.ok_fields (L p : Nat) (h : p + 20 ≤ L) (fields : List Access)
    (hf : ∀ x ∈ fields, x = (p, 4) ∨ x = (p + 4, 4) ∨ x = (p + 12, 4)) :
    ∀ x ∈ fields, Access.within x L ∨ x.2 = 2 := by
  intro x hx
  left
  unfold Access.within
  rcases hf x hx with e | e | e <;> rw [e] <;> simp only <;> omega

/-- The loop of `Read` from a state that satisfies its invariant, with enough
fuel: it ends; the body has run at most `length / 20` times in all; and every
load logged lies inside the first `length` bytes or is a 2-byte load (of the
field `len`). -/
theorem ConnectorType.Read.loop_run {σ : Type} (IDX VAL : Nat)
    (Message : σ → Mem → Nat → Nat × σ) (stream : Mem) (L : Nat) (hL : L ≤ 65535)
    (fuel : Nat) (s : ConnectorType.ReadState σ) (hint : s.internal = s.size)
    (hreads : ∀ a ∈ s.reads, Access.within a L ∨ a.2 = 2)
    (hopen : s.completed = false →
      20 * s.iterations ≤ s.size ∧ s.size ≤ L ∧ (L - s.size) / 20 + 1 ≤ fuel)
    (hdone : s.completed = true → 20 * s.iterations ≤ L ∧ 1 ≤ fuel) :
    ∃ r, ConnectorType.Read.loop IDX VAL Message stream L fuel s = some r ∧
      20 * r.iterations ≤ L ∧ ∀ a ∈ r.reads, Access.within a L ∨ a.2 = 2 := by
  induction fuel generalizing s with
  | zero =>
    cases hc : s.completed with
    | false => have := (hopen hc).2.2; omega
    | true => have := (hdone hc).2; omega
  | succ fuel ih =>
    rw [ConnectorType.Read.loop]
    cases hc : s.completed with
    | true =>
      simp only [Bool.true_eq_false, if_false]
      exact ⟨s, rfl, (hdone hc).1, hreads⟩
    | false =>
      obtain ⟨o1, o2, o3⟩ := hopen hc
      simp only [if_true, sizeof_cn_msg]
      by_cases hcond : s.size + (20 + cn_len stream s.internal) ≤ L
      · rw [if_pos hcond]
        have hr0 : ∀ a ∈ s.reads ++ [((s.internal + 16, 2) : Access)],
            Access.within a L ∨ a.2 = 2 :=
          Access.ok_append L _ _ hreads (Access.ok_len L s.internal)
        have hmod : (s.size + (20 + cn_len stream s.internal)) % 65536
            = s.size + (20 + cn_len stream s.internal) := Nat.mod_eq_of_lt (by omega)
        by_cases h0 : 0 < cn_len stream s.internal
        · by_cases h1 : cn_idx stream s.internal = IDX
          · by_cases h2 : cn_val stream s.internal = VAL
            · by_cases hr : (Message s.self.user (stream.shift (cn_data s.internal))
                  (cn_len stream s.internal)).1 < cn_len stream s.internal
              · simp only [h0, h1, h2, hr, if_true, decide_True, Bool.true_eq_false, if_false]
                apply ih
                · exact hint
                · apply Access.ok_append L _ _ hr0
                  apply Access.ok_fields L s.internal (by omega)
                  intro x hx
                  simpa using hx
                · intro h
                  cases h
                · intro _
                  simp only
                  omega
              · simp only [h0, h1, h2, hr, if_true, decide_False, hmod]
                apply ih
                · rfl
                · apply Access.ok_append L _ _ hr0
                  apply Access.ok_fields L s.internal (by omega)
                  intro x hx
                  simpa using hx
                · intro _
                  simp only
                  omega
                · intro h
                  cases h
            · simp only [h0, h1, h2, if_true, if_false, hc, hmod]
              apply ih
              · rfl
              · apply Access.ok_append L _ _ hr0
                apply Access.ok_fields L s.internal (by omega)
                intro x hx
                simp only [List.mem_cons, List.mem_singleton, List.not_mem_nil, or_false] at hx
                rcases hx with e | e
                · exact Or.inl e
                · exact Or.inr (Or.inl e)
              · intro _
                simp only
                omega
              · intro h
                simp only [hc] at h
                cases h
          · simp only [h0, h1, if_true, if_false, hc, hmod]
            apply ih
            · rfl
            · apply Access.ok_append L _ _ hr0
              apply Access.ok_fields L s.internal (by omega)
              intro x hx
              simp only [List.mem_singleton] at hx
              exact Or.inl hx
            · intro _
              simp only
              omega
            · intro h
              simp only [hc] at h
              cases h
        · simp only [h0, if_false, hc, if_true, hmod]
          apply ih
          · rfl
          · exact hr0
          · intro _
            simp only
            omega
          · intro h
            simp only [hc] at h
            cases h
      · rw [if_neg hcond]
        refine ⟨_, rfl, ?_, ?_⟩
        · simp only
          omega
        · exact Access.ok_append L _ _ hreads (Access.ok_len L s.internal)

/-- One turn of the loop, told by its body: with the flag `completed` set the
loop ends; otherwise the condition loads `internal->len`, and the loop either
ends or goes on from the state the body leaves. -/
theorem ConnectorType.Read.loop_unfold {σ : Type} (IDX VAL : Nat)
    (Message : σ → Mem → Nat → Nat × σ) (stream : Mem) (L fuel : Nat)
    (s : ConnectorType.ReadState σ) :
    ConnectorType.Read.loop IDX VAL Message stream L (fuel + 1) s =
      if s.completed = false then
        if s.size + (sizeof_cn_msg + cn_len stream s.internal) ≤ L then
          ConnectorType.Read.loop IDX VAL Message stream L fuel
            (ConnectorType.Read.body IDX VAL Message stream
              { s with reads := s.reads ++ [(s.internal + 16, 2)] })
        else some { s with reads := s.reads ++ [(s.internal + 16, 2)] }
      else some s := by
  rw [ConnectorType.Read.loop]
  rfl

/-- The body of the loop, run where the loop condition holds for a `length` of
16 bits: it counts as one turn, and when it does not complete, `size` and
`internal` both become the old `size` plus the 20 bytes of the header plus the
declared length, a sum that the narrowing to 16 bits leaves as it is. -/
theorem ConnectorType.Read.body_advance {σ : Type} (IDX VAL : Nat)
    (Message : σ → Mem → Nat → Nat × σ) (stream : Mem) (L : Nat) (hL : L ≤ 65535)
    (s : ConnectorType.ReadState σ) (hs : s.completed = false)
    (hcond : s.size + (sizeof_cn_msg + cn_len stream s.internal) ≤ L) :
    (ConnectorType.Read.body IDX VAL Message stream s).iterations = s.iterations + 1 ∧
    ((ConnectorType.Read.body IDX VAL Message stream s).completed = false →
      (ConnectorType.Read.body IDX VAL Message stream s).size
        = s.size + (20 + cn_len stream s.internal) ∧
      (ConnectorType.Read.body IDX VAL Message stream s).internal
        = s.size + (20 + cn_len stream s.internal)) := by
  simp only [sizeof_cn_msg] at hcond
  have hmod : (s.size + (20 + cn_len stream s.internal)) % 65536
      = s.size + (20 + cn_len stream s.internal) := Nat.mod_eq_of_lt (by omega)
  unfold ConnectorType.Read.body
  simp only [sizeof_cn_msg]
  by_cases h0 : 0 < cn_len stream s.internal
  · by_cases h1 : cn_idx stream s.internal = IDX
    · by_cases h2 : cn_val stream s.internal = VAL
      · by_cases hr : (Message s.self.user (stream.shift (cn_data s.internal))
            (cn_len stream s.internal)).1 < cn_len stream s.internal
        · simp [h0, h1, h2, hr]
        · simp [h0, h1, h2, hr, hmod]
      · simp [h0, h1, h2, hs, hmod]
    · simp [h0, h1, hs, hmod]
  · simp [h0, hs, hmod]

/-- The method `Read` on every input: it returns; the body of its loop has run
at most `length / 20` times; and every load it made lies inside the first
`length` bytes or is a 2-byte load (of the field `len`). -/
theorem ConnectorType.Read_run {σ : Type} (IDX VAL : Nat)
    (Message : σ → Mem → Nat → Nat × σ) (c : ConnectorType σ) (stream : Mem) (length : Nat) :
    ∃ r, ConnectorType.Read IDX VAL Message c stream length = some r ∧
      20 * r.iterations ≤ length % 65536 ∧
      ∀ a ∈ r.reads, Access.within a (length % 65536) ∨ a.2 = 2 := by
  obtain ⟨s, h1, h2, h3⟩ :=
    ConnectorType.Read.loop_run IDX VAL Message stream (length % 65536) (by omega)
      (length % 65536 + 1)
      { internal := 0, size := 0, completed := false, self := c, calls := [], reads := [],
        iterations := 0 }
      rfl (fun a h => by cases h) (fun _ => by simp only; omega) (fun h => by cases h)
  refine ⟨ConnectorType.ReadResult.mk (if s.completed = false then 0 else length % 65536)
    s.self s.calls s.reads s.iterations, ?_, h2, h3⟩
  rw [ConnectorType.Read, h1]
  rfl

/-! ### C22 -/

/-- C22. For every stream, every `length` and every payload delegate, `Read`
returns, and the body of its loop has run at most `length / 20` times (with
`length` taken as the 16-bit value the method receives).  The reason is told
too: a turn of the loop runs the body only where the loop condition holds, and
there a body that does not complete moves `size` and `internal` to the old
`size` plus the 20 bytes of the header plus the declared length, which the
narrowing to 16 bits does not change. -/
theorem ConnectorType.Read_terminates {σ : Type} (IDX VAL : Nat)
    (Message : σ → Mem → Nat → Nat × σ) (c : ConnectorType σ) (stream : Mem) (length : Nat) :
    (∃ r, ConnectorType.Read IDX VAL Message c stream length = some r ∧
      r.iterations ≤ length % 65536 / 20) ∧
    (∀ (fuel : Nat) (s : ConnectorType.ReadState σ),
      ConnectorType.Read.loop IDX VAL Message stream (length % 65536) (fuel + 1) s =
        if s.completed = false then
          if s.size + (sizeof_cn_msg + cn_len stream s.internal) ≤ length % 65536 then
            ConnectorType.Read.loop IDX VAL Message stream (length % 65536) fuel
              (ConnectorType.Read.body IDX VAL Message stream
                { s with reads := s.reads ++ [(s.internal + 16, 2)] })
          else some { s with reads := s.reads ++ [(s.internal + 16, 2)] }
        else some s) ∧
    (∀ s : ConnectorType.ReadState σ, s.completed = false →
      s.size + (sizeof_cn_msg + cn_len stream s.internal) ≤ length % 65536 →
      (ConnectorType.Read.body IDX VAL Message stream s).iterations = s.iterations + 1 ∧
      ((ConnectorType.Read.body IDX VAL Message stream s).completed = false →
        (ConnectorType.Read.body IDX VAL Message stream s).size
          = s.size + (20 + cn_len stream s.internal) ∧
        (ConnectorType.Read.body IDX VAL Message stream s).internal
          = s.size + (20 + cn_len stream s.internal) ∧
        s.size + (20 + cn_len stream s.internal) ≤ 65535)) := by
  refine ⟨?_, ?_, ?_⟩
  · obtain ⟨r, h1, h2, _⟩ := ConnectorType.Read_run IDX VAL Message c stream length
    exact ⟨r, h1, by omega⟩
  · intro fuel s
    exact ConnectorType.Read.loop_unfold IDX VAL Message stream (length % 65536) fuel s
  · intro s hs hcond
    obtain ⟨a1, a2⟩ :=
      ConnectorType.Read.body_advance IDX VAL Message stream (length % 65536) (by omega) s hs
        hcond
    refine ⟨a1, fun h => ⟨(a2 h).1, (a2 h).2, ?_⟩⟩
    simp only [sizeof_cn_msg] at hcond
    omega


/-! ### C23 -/

/-- C23, evaluated for `ConnectorType<4, 1>` with a delegate that accepts every
payload, whatever lies behind the buffer.  With an empty buffer and `length`
0, `Read` loads the field `len` of a sub-frame at offset 0, the bytes 16 and
17, which are not among the first 0 bytes.  With the 45-byte buffer of two
fully contained sub-frames (22 and 23 bytes) and `length` 45, after the
second sub-frame `Read` loads the field `len` of a sub-frame at offset 45, the
bytes 61 and 62, which are not among the first 45 bytes; the loads before it
lie inside the buffer. -/
theorem ConnectorType.Read_loads_len_unchecked (beyond : Nat → Byte)
    (c : ConnectorType Unit) :
    (ConnectorType.Read 4 1 exampleAccept c (Mem.ofBuffer [] beyond) 0).map
        (fun r => r.reads) = some [(16, 2)] ∧
    ¬ Access.within (16, 2) 0 ∧
    (exampleCnOther ++ exampleCnMatch).length = 45 ∧
    (ConnectorType.Read 4 1 exampleAccept c
        (Mem.ofBuffer (exampleCnOther ++ exampleCnMatch) beyond) 45).map
        (fun r => r.reads)
      = some [(16, 2), (0, 4), (4, 4), (38, 2), (22, 4), (26, 4), (34, 4), (61, 2)] ∧
    ¬ Access.within (61, 2) 45 := by
  have l0 : cn_len (Mem.ofBuffer (exampleCnOther ++ exampleCnMatch) beyond) 0 = 2 := rfl
  have i0 : cn_idx (Mem.ofBuffer (exampleCnOther ++ exampleCnMatch) beyond) 0 = 4 := rfl
  have v0 : cn_val (Mem.ofBuffer (exampleCnOther ++ exampleCnMatch) beyond) 0 = 2 := rfl
  have l1 : cn_len (Mem.ofBuffer (exampleCnOther ++ exampleCnMatch) beyond) 22 = 3 := rfl
  have i1 : cn_idx (Mem.ofBuffer (exampleCnOther ++ exampleCnMatch) beyond) 22 = 4 := rfl
  have v1 : cn_val (Mem.ofBuffer (exampleCnOther ++ exampleCnMatch) beyond) 22 = 1 := rfl
  have hempty : ¬ (0 + (20 + cn_len (Mem.ofBuffer [] beyond) 0) ≤ 0) := by omega
  have hlast : ¬ (45 + (20 + cn_len (Mem.ofBuffer (exampleCnOther ++ exampleCnMatch) beyond) 45)
      ≤ 45) := by omega
  refine ⟨?_, by decide, rfl, ?_, by decide⟩
  · unfold ConnectorType.Read
    rw [show (0 % 65536) = 0 from rfl, ConnectorType.Read.loop_unfold]
    simp only [sizeof_cn_msg, if_true]
    rw [if_neg hempty]
    rfl
  · unfold ConnectorType.Read
    rw [show (45 % 65536) = 45 from rfl, ConnectorType.Read.loop_unfold]
    simp only [sizeof_cn_msg, l0, if_true]
    rw [if_pos (by decide)]
    unfold ConnectorType.Read.body
    simp only [l0, i0, v0, sizeof_cn_msg, Nat.lt_irrefl, Nat.zero_add, Nat.reduceAdd,
      Nat.reduceMod, Nat.reduceLT, Nat.reduceEqDiff, if_true, if_false, List.nil_append,
      List.cons_append]
    rw [ConnectorType.Read.loop_unfold]
    simp only [sizeof_cn_msg, l1, if_true]
    rw [if_pos (by decide)]
    unfold ConnectorType.Read.body
    simp only [l1, i1, v1, sizeof_cn_msg, exampleAccept, Nat.lt_irrefl, Nat.reduceAdd,
      Nat.reduceMod, Nat.reduceLT, if_true, if_false, List.nil_append, List.cons_append,
      decide_False]
    rw [ConnectorType.Read.loop_unfold]
    simp only [sizeof_cn_msg, if_true]
    rw [if_neg hlast]
    rfl

end Thunder
